import Mathlib

/-!
Verification of the capacity-planning scenario engine
(`src/frontend/src/engine/calculator.js`).

Modelling conventions:
* JS objects with string keys are modelled as association lists
  (`AL α := List (String × α)`); property write is `setAL` (update the
  existing entry in place, else append — matching JS insertion-order
  semantics), property read is `lookupAL`.
* JS numbers holding hour counts are modelled as `Int` (the repository
  only ever adds, subtracts and compares them; the one division, in the
  utilization percentage, is modelled exactly over the rationals by an
  integer floor-division formula, see `jsRound100`).
* `resource.hoursPerMonth` and `timelineShifts[id]` may be absent in JS
  (`undefined`); they are modelled as `Option Int`, and the JS falsiness
  checks (`|| 160`, `!shift`) are translated explicitly.
* Subtracting from an absent object property yields `NaN` in JS
  (`remainingCapacity[k][m] -= d` with `m` absent); `NaN` is falsy, so
  every later read through `|| 0` sees `0`, and further subtraction keeps
  `NaN`.  The remaining-capacity cells are therefore modelled as
  `Option Int` with `none` playing the role of `NaN`.
* `Date.now()` (used for the id of a synthesized virtual bucket) is
  modelled by threading an explicit clock value `now : Nat` through
  `calculateEffectiveCapacity` and `calculateScenario`.
* JS `toLowerCase` on the ASCII strings involved is character-wise
  lowercasing, modelled by `jsToLower`.
-/

namespace CapPlayground

/-- Association list modelling a JS object with string keys. -/
abbrev AL (α : Type) := List (String × α)

/-- Read property `k` of a JS object (first matching entry). -/
def lookupAL {α : Type} : AL α → String → Option α
  | [], _ => none
  | (k', v) :: rest, k => if k' = k then some v else lookupAL rest k

/-- Write property `k` of a JS object: update the existing entry in place,
otherwise append a fresh entry at the end (JS insertion order). -/
def setAL {α : Type} : AL α → String → α → AL α
  | [], k, v => [(k, v)]
  | (k', v') :: rest, k, v =>
    if k' = k then (k, v) :: rest else (k', v') :: setAL rest k v

/-- Modify property `k` of a JS object when it is present; no entry is
created when it is absent (used to model writes guarded by an existence
check such as `if (remainingCapacity[bucketKey])`). -/
def updateAL {α : Type} : AL α → String → (α → α) → AL α
  | [], _, _ => []
  | (k', v') :: rest, k, f =>
    if k' = k then (k', f v') :: rest else (k', v') :: updateAL rest k f

/-! ## Data model -/

/-- A baseline capacity bucket record (from the parsed spreadsheet), also
the shape of an effective-capacity bucket (`isVirtual` is set on buckets
synthesized for virtual resources; baseline records carry `false`). -/
structure Bucket where
  id : String
  team : String
  role : String
  location : String
  monthly_capacity : AL Int
  isVirtual : Bool
deriving DecidableEq, Repr

/-- A virtual (hypothetical) resource; `hoursPerMonth = none` models a JS
record without the property. -/
structure VirtualResource where
  team : String
  role : String
  location : String
  hoursPerMonth : Option Int
deriving DecidableEq, Repr

/-- A project demand record; `timelineShift = none` models the property
being absent (it is added by `applyTimelineShifts` on shifted copies). -/
structure Project where
  id : String
  name : String
  team : String
  role : String
  location : String
  monthly_demand : AL Int
  timelineShift : Option Int
deriving DecidableEq, Repr

/-- The per-(project, month) record written into `monthlyStatus`. -/
structure MonthEntry where
  status : String
  demand : Int
  allocated : Int
  deficit : Int
deriving DecidableEq, Repr

/-- A `projectStatus` value: the spread of the (shifted) project record
plus the tracking fields.  `overallStatus` is only assigned in step 7 of
`calculateScenario`; before that JS leaves the property absent, which is
unobservable in the returned result, so it is carried here as `""`. -/
structure ProjStatus where
  id : String
  name : String
  team : String
  role : String
  location : String
  monthly_demand : AL Int
  timelineShift : Option Int
  priority : Nat
  monthlyStatus : AL MonthEntry
  totalDeficit : Int
  bucketKey : String
  overallStatus : String
deriving DecidableEq, Repr

/-- A `bucketUtilization` value: the spread of the effective bucket plus
the three per-month tracking maps. -/
structure BucketUtil where
  id : String
  team : String
  role : String
  location : String
  monthly_capacity : AL Int
  isVirtual : Bool
  monthly_utilization : AL Int
  monthly_consumed : AL Int
  monthly_remaining : AL Int
deriving DecidableEq, Repr

/-- The value returned by `calculateScenario`. -/
structure ScenarioResult where
  effectiveCapacity : AL Bucket
  bucketUtilization : AL BucketUtil
  projectStatus : AL ProjStatus
  totalDeficit : Int
  months : List String
deriving DecidableEq, Repr

/-! ## getBucketKey -/

/-- JS `toLowerCase` on the ASCII strings involved: character-wise
lowercasing. -/
def jsToLower (s : String) : String := ⟨s.data.map Char.toLower⟩

/-- `getBucketKey`: `` `${team}|${role}|${location}`.toLowerCase() ``. -/
def getBucketKey (team role location : String) : String :=
  jsToLower (team ++ "|" ++ role ++ "|" ++ location)

/-! ## calculateEffectiveCapacity -/

/-- `resource.hoursPerMonth || 160`: both an absent property and the
(falsy) value `0` fall back to the default `160`. -/
def vHours (r : VirtualResource) : Int :=
  match r.hoursPerMonth with
  | none => 160
  | some h => if h = 0 then 160 else h

/-- First loop of `calculateEffectiveCapacity`: seed the table with the
baseline buckets (the JS spread copies are identity on pure values). -/
def baseInit (baselineCapacity : List Bucket) : AL Bucket :=
  baselineCapacity.foldl
    (fun ec bucket => setAL ec (getBucketKey bucket.team bucket.role bucket.location) bucket)
    []

/-- Existing-bucket branch body: add `hoursToAdd` to one month of the
bucket stored at `key` (`monthly_capacity[month] = (monthly_capacity[month] || 0) + hoursToAdd`). -/
def addVirtualMonth (key : String) (hoursToAdd : Int) (ec : AL Bucket)
    (month : String) : AL Bucket :=
  updateAL ec key (fun b =>
    let cap := setAL b.monthly_capacity month
      ((lookupAL b.monthly_capacity month).getD 0 + hoursToAdd)
    { b with monthly_capacity := cap })

/-- Second loop body of `calculateEffectiveCapacity`: fold one virtual
resource into the table. -/
def addVirtual (months : List String) (now : Nat) (ec : AL Bucket)
    (r : VirtualResource) : AL Bucket :=
  let key := getBucketKey r.team r.role r.location
  match lookupAL ec key with
  | some _ => months.foldl (addVirtualMonth key (vHours r)) ec
  | none =>
    setAL ec key
      { id := "virtual_" ++ toString now
        team := r.team
        role := r.role
        location := r.location
        monthly_capacity := months.foldl (fun mc month => setAL mc month (vHours r)) []
        isVirtual := true }

/-- `calculateEffectiveCapacity(baselineCapacity, virtualResources, months)`;
`now` models the `Date.now()` call used for synthesized bucket ids. -/
def calculateEffectiveCapacity (baselineCapacity : List Bucket)
    (virtualResources : List VirtualResource) (months : List String)
    (now : Nat) : AL Bucket :=
  virtualResources.foldl (addVirtual months now) (baseInit baselineCapacity)

/-! ## applyTimelineShifts -/

/-- The `monthIndex` table: `months.forEach((month, idx) => monthIndex[month] = idx)`. -/
def buildMonthIndex (months : List String) : AL Nat :=
  months.enum.foldl (fun mi p => setAL mi p.2 p.1) []

/-- Body of the `shiftedDemand` accumulation loop: route one entry of
`Object.entries(project.monthly_demand)`. -/
def shiftStep (months : List String) (shift : Int) (acc : AL Int)
    (e : String × Int) : AL Int :=
  match lookupAL (buildMonthIndex months) e.1 with
  | none => acc
  | some currentIdx =>
    let newIdx : Int := (currentIdx : Int) + shift
    if 0 ≤ newIdx ∧ newIdx < (months.length : Int) then
      let newMonth := months.getD newIdx.toNat ""
      setAL acc newMonth ((lookupAL acc newMonth).getD 0 + e.2)
    else acc

/-- The `shiftedDemand` accumulation loop over `Object.entries(project.monthly_demand)`. -/
def shiftDemand (months : List String) (shift : Int) (dem : AL Int) : AL Int :=
  dem.foldl (shiftStep months shift) []

/-- Body of the `projects.map` in `applyTimelineShifts`: `!shift || shift === 0`
returns the project unchanged. -/
def shiftProject (timelineShifts : AL Int) (months : List String)
    (project : Project) : Project :=
  match lookupAL timelineShifts project.id with
  | none => project
  | some shift =>
    if shift = 0 then project
    else
      { project with
          monthly_demand := shiftDemand months shift project.monthly_demand
          timelineShift := some shift }

/-- `applyTimelineShifts(projects, timelineShifts, months)`. -/
def applyTimelineShifts (projects : List Project) (timelineShifts : AL Int)
    (months : List String) : List Project :=
  projects.map (shiftProject timelineShifts months)

/-! ## calculateScenario: initialization -/

/-- Step 3: `projectMap[project.id] = project` over the shifted projects. -/
def buildProjectMap (ps : List Project) : AL Project :=
  ps.foldl (fun m p => setAL m p.id p) []

/-- Remaining-capacity cells; `none` models the JS `NaN` that appears when
a month absent from `monthly_capacity` is subtracted from (it reads back
as `0` through `|| 0` because `NaN` is falsy). -/
abbrev RCap := AL (AL (Option Int))

/-- Step 4: `remainingCapacity[key] = { ...bucket.monthly_capacity }`. -/
def initRC (ec : AL Bucket) : RCap :=
  ec.map (fun kv => (kv.1, kv.2.monthly_capacity.map (fun mv => (mv.1, some mv.2))))

/-- `remainingCapacity[bucketKey]?.[month] || 0`. -/
def readRC (rc : RCap) (key month : String) : Int :=
  match lookupAL rc key with
  | none => 0
  | some mm =>
    match lookupAL mm month with
    | none => 0
    | some none => 0
    | some (some v) => v

/-- `remainingCapacity[bucketKey][month] -= demand`, guarded by
`if (remainingCapacity[bucketKey])` (a missing month becomes `NaN`). -/
def subRC (rc : RCap) (key month : String) (d : Int) : RCap :=
  updateAL rc key (fun mm =>
    match lookupAL mm month with
    | some (some v) => setAL mm month (some (v - d))
    | _ => setAL mm month none)

/-- `remainingCapacity[bucketKey][month] = 0`, guarded likewise. -/
def zeroRC (rc : RCap) (key month : String) : RCap :=
  updateAL rc key (fun mm => setAL mm month (some 0))

/-- Per-bucket initialization of `bucketUtilization` (consumed 0,
remaining `capacity || 0`, utilization 0, for every listed month). -/
def initUtil (months : List String) (b : Bucket) : BucketUtil :=
  { id := b.id
    team := b.team
    role := b.role
    location := b.location
    monthly_capacity := b.monthly_capacity
    isVirtual := b.isVirtual
    monthly_utilization := months.foldl (fun m mo => setAL m mo 0) []
    monthly_consumed := months.foldl (fun m mo => setAL m mo 0) []
    monthly_remaining :=
      months.foldl (fun m mo => setAL m mo ((lookupAL b.monthly_capacity mo).getD 0)) [] }

/-- The record written for one priority-order entry in step 5 (the spread
of the shifted project plus the tracking fields). -/
def initialStatus (project : Project) (priority : Nat) : ProjStatus :=
  { id := project.id
    name := project.name
    team := project.team
    role := project.role
    location := project.location
    monthly_demand := project.monthly_demand
    timelineShift := project.timelineShift
    priority := priority + 1
    monthlyStatus := []
    totalDeficit := 0
    bucketKey := getBucketKey project.team project.role project.location
    overallStatus := "" }

/-- Step 5 loop body (ids with no matching project record are skipped). -/
def initPstatStep (pm : AL Project) (ps : AL ProjStatus) (p : Nat × String) : AL ProjStatus :=
  match lookupAL pm p.2 with
  | none => ps
  | some project => setAL ps p.2 (initialStatus project p.1)

/-- Step 5: initialize `projectStatus` over the priority order. -/
def initPstat (pm : AL Project) (priorityOrder : List String) : AL ProjStatus :=
  priorityOrder.enum.foldl (initPstatStep pm) []

/-- The mutable state threaded through the month-by-month allocation. -/
structure AllocState where
  rc : RCap
  pstat : AL ProjStatus
  butil : AL BucketUtil
  totalDeficit : Int
deriving DecidableEq, Repr

/-- `projectStatus[projectId].monthlyStatus[month] = e` (the entry always
exists when this runs, since step 5 created it for exactly the processed ids). -/
def setMS (st : AllocState) (projectId month : String) (e : MonthEntry) : AllocState :=
  { st with
      pstat := updateAL st.pstat projectId
        (fun ps => { ps with monthlyStatus := setAL ps.monthlyStatus month e }) }

/-- `projectStatus[projectId].totalDeficit += d; totalDeficit += d`. -/
def addDeficit (st : AllocState) (projectId : String) (d : Int) : AllocState :=
  { st with
      pstat := updateAL st.pstat projectId
        (fun ps => { ps with totalDeficit := ps.totalDeficit + d })
      totalDeficit := st.totalDeficit + d }

/-- Staffed-branch bucket bookkeeping, guarded by
`if (bucketUtilization[bucketKey])`: `monthly_consumed[month] += d`,
`monthly_remaining[month] -= d` (the month is always present: both maps
were initialized over the same `months` list being iterated). -/
def consumeFull (st : AllocState) (key month : String) (d : Int) : AllocState :=
  { st with
      butil := updateAL st.butil key (fun u =>
        { u with
            monthly_consumed := updateAL u.monthly_consumed month (· + d)
            monthly_remaining := updateAL u.monthly_remaining month (· - d) }) }

/-- Partial-branch bucket bookkeeping: `monthly_consumed[month] += available`,
`monthly_remaining[month] = 0`. -/
def consumePartial (st : AllocState) (key month : String) (available : Int) : AllocState :=
  { st with
      butil := updateAL st.butil key (fun u =>
        { u with
            monthly_consumed := updateAL u.monthly_consumed month (· + available)
            monthly_remaining := setAL u.monthly_remaining month 0 }) }

/-- Step 6 inner-loop body: allocate one (month, project) pair. -/
def processOne (pm : AL Project) (month : String) (st : AllocState)
    (projectId : String) : AllocState :=
  match lookupAL pm projectId with
  | none => st
  | some project =>
    let bucketKey := getBucketKey project.team project.role project.location
    let demand := (lookupAL project.monthly_demand month).getD 0
    let available := readRC st.rc bucketKey month
    if demand = 0 then
      setMS st projectId month { status := "none", demand := 0, allocated := 0, deficit := 0 }
    else if available ≥ demand then
      let st1 := setMS st projectId month
        { status := "staffed", demand := demand, allocated := demand, deficit := 0 }
      let st2 := { st1 with rc := subRC st1.rc bucketKey month demand }
      consumeFull st2 bucketKey month demand
    else if available > 0 then
      let deficit := demand - available
      let st1 := setMS st projectId month
        { status := "partial", demand := demand, allocated := available, deficit := deficit }
      let st2 := { st1 with rc := zeroRC st1.rc bucketKey month }
      let st3 := addDeficit st2 projectId deficit
      consumePartial st3 bucketKey month available
    else
      let st1 := setMS st projectId month
        { status := "unstaffed", demand := demand, allocated := 0, deficit := demand }
      addDeficit st1 projectId demand

/-- Step 6 inner loop: one month, projects in priority order. -/
def allocMonth (pm : AL Project) (priorityOrder : List String)
    (st : AllocState) (month : String) : AllocState :=
  priorityOrder.foldl (processOne pm month) st

/-- The allocation state entering step 6. -/
def initState (ec : AL Bucket) (pm : AL Project) (priorityOrder : List String)
    (months : List String) : AllocState :=
  { rc := initRC ec
    pstat := initPstat pm priorityOrder
    butil := ec.map (fun kv => (kv.1, initUtil months kv.2))
    totalDeficit := 0 }

/-- Step 7 status derivation from a list of monthly-status entries
(`hasAnyStaffed` / `hasAnyUnstaffed` flags folded over the entries). -/
def overallOf (ms : AL MonthEntry) : String :=
  let hasAnyStaffed := ms.any (fun e => e.2.status == "staffed")
  let hasAnyUnstaffed :=
    ms.any (fun e => e.2.status == "partial" || e.2.status == "unstaffed")
  if hasAnyUnstaffed && hasAnyStaffed then "partial"
  else if hasAnyUnstaffed then "unstaffed"
  else "staffed"

/-- Step 7 body: derive `overallStatus` from the monthly statuses. -/
def summarize (ps : ProjStatus) : ProjStatus :=
  { ps with overallStatus := overallOf ps.monthlyStatus }

/-- `Math.round((consumed / capacity) * 100)` computed exactly over ℚ for
`capacity > 0`: `Math.round` is round-half-up, `⌊x + 1/2⌋`, and
`⌊consumed·100/capacity + 1/2⌋ = ⌊(200·consumed + capacity) / (2·capacity)⌋`. -/
def jsRound100 (consumed capacity : Int) : Int :=
  Int.fdiv (200 * consumed + capacity) (2 * capacity)

/-- Effective capacity of bucket `k` in month `m` (0 when the bucket or
month is absent), the view used to state the Aggregator contract. -/
def capAt (ec : AL Bucket) (k m : String) : Int :=
  match lookupAL ec k with
  | some b => (lookupAL b.monthly_capacity m).getD 0
  | none => 0

/-- One month of the final utilization pass
(`capacity > 0 ? round(consumed / capacity * 100) : 0`). -/
def finishUtilStep (ec : AL Bucket) (key : String) (u : BucketUtil)
    (month : String) : BucketUtil :=
  let capacity := capAt ec key month
  let consumed := (lookupAL u.monthly_consumed month).getD 0
  { u with
      monthly_utilization :=
        setAL u.monthly_utilization month
          (if 0 < capacity then jsRound100 consumed capacity else 0) }

/-- Final pass over one bucket: fill `monthly_utilization` for every
listed month. -/
def finishUtil (ec : AL Bucket) (months : List String) (key : String)
    (u0 : BucketUtil) : BucketUtil :=
  months.foldl (finishUtilStep ec key) u0

/-- `calculateScenario(baselineCapacity, projects, priorityOrder,
virtualResources, timelineShifts, months)`; `now` models `Date.now()`. -/
def calculateScenario (baselineCapacity : List Bucket) (projects : List Project)
    (priorityOrder : List String) (virtualResources : List VirtualResource)
    (timelineShifts : AL Int) (months : List String) (now : Nat) : ScenarioResult :=
  let effectiveCapacity := calculateEffectiveCapacity baselineCapacity virtualResources months now
  let shiftedProjects := applyTimelineShifts projects timelineShifts months
  let projectMap := buildProjectMap shiftedProjects
  let st0 := initState effectiveCapacity projectMap priorityOrder months
  let stF := months.foldl (allocMonth projectMap priorityOrder) st0
  { effectiveCapacity := effectiveCapacity
    bucketUtilization := stF.butil.map (fun kv => (kv.1, finishUtil effectiveCapacity months kv.1 kv.2))
    projectStatus := stF.pstat.map (fun kv => (kv.1, summarize kv.2))
    totalDeficit := stF.totalDeficit
    months := months }


/-! ## Concrete sample inputs (used by witness theorems) -/

/-- A small concrete baseline bucket used by witness theorems. -/
def sampleBucket : Bucket :=
  ⟨"b1", "T", "R", "L", [("Jan", 100), ("Feb", 30)], false⟩

/-- A concrete project demanding 60h in Jan and 50h in Feb. -/
def sampleP1 : Project := ⟨"p1", "P one", "T", "R", "L", [("Jan", 60), ("Feb", 50)], none⟩

/-- A concrete project demanding 60h in Jan. -/
def sampleP2 : Project := ⟨"p2", "P two", "T", "R", "L", [("Jan", 60)], none⟩

/-- A concrete scenario run: one bucket, two competing projects, no levers. -/
def sampleResult : ScenarioResult :=
  calculateScenario [sampleBucket] [sampleP1, sampleP2] ["p1", "p2"] [] [] ["Jan", "Feb"] 0

/-- A concrete project with one demand label inside and one outside the month window. -/
def shiftSample : Project := ⟨"p3", "P three", "T", "R", "L", [("Jan", 10), ("Zed", 7)], none⟩

/-- The bucket key targeted by a virtual resource. -/
def vKey (r : VirtualResource) : String := getBucketKey r.team r.role r.location

/-- Whether a demand entry is routed to destination month `dest` by a shift
of `s` (mirrors the branch structure of the shift loop). -/
def mapsTo (months : List String) (s : Int) (dest : String) (e : String × Int) : Bool :=
  match lookupAL (buildMonthIndex months) e.1 with
  | none => false
  | some i =>
    decide (0 ≤ (i : Int) + s) && decide ((i : Int) + s < (months.length : Int))
      && (months.getD ((i : Int) + s).toNat "" == dest)

/-- A virtual resource whose `hoursPerMonth` is the falsy value `0`. -/
def zeroHoursVR : VirtualResource := ⟨"T", "R", "L", some 0⟩

/-- A virtual resource targeting a key with no baseline bucket. -/
def newKeyVR : VirtualResource := ⟨"X", "R", "L", some 40⟩

/-- The shape facts every engine-written monthly-status entry satisfies:
conservation, the status vocabulary, the demand/`none` correspondence,
and agreement of the recorded demand with the (shifted) project demand. -/
def entryOK (pm : AL Project) (q : String) (me : String × MonthEntry) : Prop :=
  me.2.allocated + me.2.deficit = me.2.demand
  ∧ (me.2.status = "none" ∨ me.2.status = "staffed" ∨ me.2.status = "partial"
      ∨ me.2.status = "unstaffed")
  ∧ (me.2.status = "none" ↔ me.2.demand = 0)
  ∧ ∀ p, lookupAL pm q = some p → me.2.demand = (lookupAL p.monthly_demand me.1).getD 0

/-- Every monthly-status entry of every tracked project satisfies `entryOK`. -/
def entriesOK (pm : AL Project) (pstat : AL ProjStatus) : Prop :=
  ∀ q ps, lookupAL pstat q = some ps → ∀ me ∈ ps.monthlyStatus, entryOK pm q me

/-- A monthly-status entry exists for `(pid, mo)`. -/
def hasEntry (pstat : AL ProjStatus) (pid mo : String) : Prop :=
  ∃ ps e, lookupAL pstat pid = some ps ∧ lookupAL ps.monthlyStatus mo = some e

/-- The status record the sample run produces for project p2 (partially
staffed in Jan, no Feb demand, hence overall unstaffed). -/
def sampleP2Status : ProjStatus :=
  { id := "p2", name := "P two", team := "T", role := "R", location := "L",
    monthly_demand := [("Jan", 60)], timelineShift := none, priority := 2,
    monthlyStatus := [("Jan", ⟨"partial", 60, 40, 20⟩), ("Feb", ⟨"none", 0, 0, 0⟩)],
    totalDeficit := 20, bucketKey := "t|r|l", overallStatus := "unstaffed" }

/-- The per-bucket bookkeeping invariant maintained by the allocation
loop: remainingCapacity and bucketUtilization track the same bucket keys,
each utilization record carries its bucket's effective monthly capacity,
and for every listed month consumed + remaining equals that capacity with
both nonnegative, remaining mirroring the remaining-capacity table. -/
def bucketOK (months : List String) (ec : AL Bucket) (st : AllocState) : Prop :=
  (∀ k, (lookupAL st.rc k).isSome = (lookupAL st.butil k).isSome)
  ∧ ∀ k u, lookupAL st.butil k = some u →
      ∀ m ∈ months,
        ∃ c r, lookupAL u.monthly_consumed m = some c
          ∧ lookupAL u.monthly_remaining m = some r
          ∧ c + r = capAt ec k m
          ∧ 0 ≤ c ∧ 0 ≤ r
          ∧ readRC st.rc k m = r

/-- The utilization record the sample run produces for the single bucket
(Jan fully consumed, Feb fully consumed by p1's partial allocation). -/
def sampleUtil : BucketUtil :=
  { id := "b1", team := "T", role := "R", location := "L",
    monthly_capacity := [("Jan", 100), ("Feb", 30)], isVirtual := false,
    monthly_utilization := [("Jan", 100), ("Feb", 100)],
    monthly_consumed := [("Jan", 100), ("Feb", 30)],
    monthly_remaining := [("Jan", 0), ("Feb", 0)] }

/-- The month-`m` view of the remaining-capacity table at bucket `k`
(bucket presence, month presence, and the cell value). -/
def sliceRC (rc : RCap) (k m : String) : Option (Option (Option Int)) :=
  (lookupAL rc k).map (fun mm => lookupAL mm m)

/-- The month-`m` view of one project's status record. -/
def msAt (pstat : AL ProjStatus) (q m : String) : Option (Option MonthEntry) :=
  (lookupAL pstat q).map (fun ps => lookupAL ps.monthlyStatus m)

/-- The month-`m` view of one bucket's consumed/remaining bookkeeping. -/
def buAt (butil : AL BucketUtil) (k m : String) : Option (Option Int × Option Int) :=
  (lookupAL butil k).map
    (fun u => (lookupAL u.monthly_consumed m, lookupAL u.monthly_remaining m))

/-- Two allocation states agree on everything month `m`'s processing can
read or write: key presence everywhere and all month-`m` views. -/
def monthViewEq (m : String) (S T : AllocState) : Prop :=
  (∀ k, (lookupAL S.rc k).isSome = (lookupAL T.rc k).isSome)
  ∧ (∀ k, sliceRC S.rc k m = sliceRC T.rc k m)
  ∧ (∀ q, (lookupAL S.pstat q).isSome = (lookupAL T.pstat q).isSome)
  ∧ (∀ q, msAt S.pstat q m = msAt T.pstat q m)
  ∧ (∀ k, (lookupAL S.butil k).isSome = (lookupAL T.butil k).isSome)
  ∧ (∀ k, buAt S.butil k m = buAt T.butil k m)

/-- The month-`m` remaining-capacity cell update a nonnegative demand `d`
performs: subtract when it fits, clamp to 0 when partially consumed,
freeze a nonpositive cell (the unstaffed branch leaves capacity alone). -/
def gInt (d a : Int) : Int := if a ≥ d then a - d else if a > 0 then 0 else a

/-- `gInt` lifted to a remaining-capacity cell (`NaN` and absent cells are
left untouched by the allocator when demands are nonnegative). -/
def cellF (d : Int) : Option (Option Int) → Option (Option Int)
  | some (some a) => some (some (gInt d a))
  | c => c

/-- The remaining-capacity component of `processOne`: the branch taken and
the capacity written depend only on the capacity table itself. -/
def rcStep (pm : AL Project) (month : String) (rc : RCap) (projectId : String) : RCap :=
  match lookupAL pm projectId with
  | none => rc
  | some project =>
    let bucketKey := getBucketKey project.team project.role project.location
    let demand := (lookupAL project.monthly_demand month).getD 0
    let available := readRC rc bucketKey month
    if demand = 0 then rc
    else if available ≥ demand then subRC rc bucketKey month demand
    else if available > 0 then zeroRC rc bucketKey month
    else rc

/-- Two remaining-capacity tables with identical cell views everywhere. -/
def rcEquiv (rc1 rc2 : RCap) : Prop :=
  ∀ k mo, sliceRC rc1 k mo = sliceRC rc2 k mo

/-- The `totalDeficit` recorded for `pid` (0 when no record exists). -/
def tdAOf (pstat : AL ProjStatus) (pid : String) : Int :=
  ((lookupAL pstat pid).map ProjStatus.totalDeficit).getD 0

/-- The deficit one processing step adds for a project with demand `d`
facing available capacity `a`. -/
def monthDef (d a : Int) : Int :=
  if d = 0 then 0 else if a ≥ d then 0 else if a > 0 then d - a else d

/-- The deficit processing `pid` in `month` adds, read off the
remaining-capacity table entering the step. -/
def dfOf (pm : AL Project) (month : String) (rc : RCap) (pid : String) : Int :=
  match lookupAL pm pid with
  | none => 0
  | some project =>
    monthDef ((lookupAL project.monthly_demand month).getD 0)
      (readRC rc (getBucketKey project.team project.role project.location) month)

/-- Erase the one field of an effective-capacity bucket that embeds
`Date.now()` on synthesized virtual buckets. -/
def eraseId (b : Bucket) : Bucket := { b with id := "" }

/-- Erase the inherited `id` of a bucket-utilization record. -/
def eraseIdU (u : BucketUtil) : BucketUtil := { u with id := "" }

/-- An effective-capacity table up to bucket ids. -/
def stripEC (ec : AL Bucket) : AL Bucket := ec.map (fun kv => (kv.1, eraseId kv.2))

/-- A bucket-utilization table up to bucket ids. -/
def stripBU (bu : AL BucketUtil) : AL BucketUtil := bu.map (fun kv => (kv.1, eraseIdU kv.2))

/-- Two allocation states that agree exactly, except that bucket ids in
the utilization table are ignored. -/
def resEq (st1 st2 : AllocState) : Prop :=
  st1.rc = st2.rc ∧ st1.pstat = st2.pstat ∧ stripBU st1.butil = stripBU st2.butil
    ∧ st1.totalDeficit = st2.totalDeficit

/-- Two effective-capacity buckets are allowed to differ only when both
are buckets synthesized for a virtual resource: then they agree on every
field except `id`, which carries the respective clock reading. -/
def idOK (now1 now2 : Nat) (b1 b2 : Bucket) : Prop :=
  b1 = b2
  ∨ (eraseId b1 = eraseId b2
      ∧ b1.id = "virtual_" ++ toString now1
      ∧ b2.id = "virtual_" ++ toString now2
      ∧ b1.isVirtual = true ∧ b2.isVirtual = true)

/-- Entrywise comparison of two effective-capacity tables: same keys in
the same order, and values identical except for synthesized-bucket ids. -/
def ecMatch (now1 now2 : Nat) (ec1 ec2 : AL Bucket) : Prop :=
  List.Forall₂ (fun kv1 kv2 => kv1.1 = kv2.1 ∧ idOK now1 now2 kv1.2 kv2.2) ec1 ec2

/-- `idOK` for bucket-utilization records (which inherit the bucket's
fields, `id` included). -/
def idOKU (now1 now2 : Nat) (u1 u2 : BucketUtil) : Prop :=
  u1 = u2
  ∨ (eraseIdU u1 = eraseIdU u2
      ∧ u1.id = "virtual_" ++ toString now1
      ∧ u2.id = "virtual_" ++ toString now2
      ∧ u1.isVirtual = true ∧ u2.isVirtual = true)

/-- Entrywise comparison of two bucket-utilization tables. -/
def buMatch (now1 now2 : Nat) (b1 b2 : AL BucketUtil) : Prop :=
  List.Forall₂ (fun kv1 kv2 => kv1.1 = kv2.1 ∧ idOKU now1 now2 kv1.2 kv2.2) b1 b2

/-! # Theorems -/

theorem lookup_setAL {α : Type} (l : AL α) (k k2 : String) (v : α) :
    lookupAL (setAL l k v) k2 = if k = k2 then some v else lookupAL l k2 := by
  induction l with
  | nil => simp [setAL, lookupAL]
  | cons hd tl ih =>
    obtain ⟨k', v'⟩ := hd
    by_cases h1 : k' = k
    · subst h1
      by_cases h2 : k' = k2 <;> simp [setAL, lookupAL, h2]
    · by_cases h2 : k' = k2
      · have h3 : ¬ k = k2 := fun h => h1 (h2.trans h.symm)
        have h4 : ¬ k2 = k := fun h => h3 h.symm
        simp [setAL, lookupAL, h1, h2, h3, h4]
      · simp [setAL, lookupAL, h1, h2, ih]

theorem lookup_updateAL {α : Type} (l : AL α) (k k2 : String) (f : α → α) :
    lookupAL (updateAL l k f) k2 =
      if k = k2 then (lookupAL l k).map f else lookupAL l k2 := by
  induction l with
  | nil => simp [updateAL, lookupAL]
  | cons hd tl ih =>
    obtain ⟨k', v'⟩ := hd
    by_cases h1 : k' = k
    · subst h1
      by_cases h2 : k' = k2 <;> simp [updateAL, lookupAL, h2]
    · by_cases h2 : k' = k2
      · have h3 : ¬ k = k2 := fun h => h1 (h2.trans h.symm)
        have h4 : ¬ k2 = k := fun h => h3 h.symm
        simp [updateAL, lookupAL, h1, h2, h3, h4]
      · simp [updateAL, lookupAL, h1, h2, ih]

theorem lookupAL_mem {α : Type} {l : AL α} {k : String} {v : α}
    (h : lookupAL l k = some v) : (k, v) ∈ l := by
  induction l with
  | nil => simp [lookupAL] at h
  | cons hd tl ih =>
    obtain ⟨k', v'⟩ := hd
    by_cases h1 : k' = k
    · subst h1
      simp [lookupAL] at h
      simp [h]
    · simp [lookupAL, h1] at h
      exact List.mem_cons_of_mem _ (ih h)

/-- Reading a mapped association list whose mapping preserves keys. -/
theorem lookup_mapVal {α β : Type} (l : AL α) (f : String → α → β) (k : String) :
    lookupAL (l.map (fun kv => (kv.1, f kv.1 kv.2))) k = (lookupAL l k).map (f k) := by
  induction l with
  | nil => simp [lookupAL]
  | cons hd tl ih =>
    obtain ⟨k', v'⟩ := hd
    by_cases h1 : k' = k
    · subst h1; simp [lookupAL]
    · simp [lookupAL, h1, ih]


/-! ## getBucketKey structure (claim C7) -/

theorem jsToLower_data (s : String) : (jsToLower s).data = s.data.map Char.toLower := rfl

theorem getBucketKey_data (team role location : String) :
    (getBucketKey team role location).data
      = team.data.map Char.toLower
          ++ '|' :: (role.data.map Char.toLower ++ '|' :: location.data.map Char.toLower) := by
  have hp : ("|" : String).data = ['|'] := rfl
  have hc : Char.toLower '|' = '|' := by decide
  simp [getBucketKey, jsToLower_data, String.data_append, hp, hc]

/-- Splitting a character list at a separator occurring in neither prefix is unambiguous. -/
theorem append_sep_inj :
    ∀ (a b x y : List Char), '|' ∉ a → '|' ∉ b →
      a ++ '|' :: x = b ++ '|' :: y → a = b ∧ x = y := by
  intro a
  induction a with
  | nil =>
    intro b x y _ hb h
    cases b with
    | nil => simpa using h
    | cons c bs =>
      simp at h
      exact absurd (h.1 ▸ List.mem_cons_self c bs) hb
  | cons c as ih =>
    intro b x y ha hb h
    cases b with
    | nil =>
      simp at h
      exact absurd (h.1 ▸ List.mem_cons_self c as) ha
    | cons d bs =>
      simp at h
      obtain ⟨rfl, h2⟩ := h
      have ha2 : '|' ∉ as := fun hm => ha (List.mem_cons_of_mem _ hm)
      have hb2 : '|' ∉ bs := fun hm => hb (List.mem_cons_of_mem _ hm)
      obtain ⟨rfl, h3⟩ := ih bs x y ha2 hb2 h2
      exact ⟨rfl, h3⟩

/-- Claim C7 counterexample: `getBucketKey` is not injective on distinct
(team, role, location) triples — case folding identifies `"A"` and `"a"`. -/
theorem C7_counterexample :
    getBucketKey "A" "b" "c" = getBucketKey "a" "b" "c"
      ∧ (("A", "b", "c") : String × String × String) ≠ ("a", "b", "c") :=
  ⟨by decide, by decide⟩

/-- C7 (amended): `getBucketKey` is total (it is a total function of the
three components) but not injective on arbitrary distinct triples; it is
injective on triples whose components contain no `'|'` separator and are
already lowercase (fixed by character-wise lowercasing). -/
theorem C7_getBucketKey_amended (t1 r1 l1 t2 r2 l2 : String)
    (hp1 : '|' ∉ t1.data ∧ '|' ∉ r1.data ∧ '|' ∉ l1.data)
    (hp2 : '|' ∉ t2.data ∧ '|' ∉ r2.data ∧ '|' ∉ l2.data)
    (hl1 : t1.data.map Char.toLower = t1.data ∧ r1.data.map Char.toLower = r1.data
            ∧ l1.data.map Char.toLower = l1.data)
    (hl2 : t2.data.map Char.toLower = t2.data ∧ r2.data.map Char.toLower = r2.data
            ∧ l2.data.map Char.toLower = l2.data)
    (hk : getBucketKey t1 r1 l1 = getBucketKey t2 r2 l2) :
    t1 = t2 ∧ r1 = r2 ∧ l1 = l2 := by
  have hd := congrArg String.data hk
  rw [getBucketKey_data, getBucketKey_data, hl1.1, hl1.2.1, hl1.2.2,
      hl2.1, hl2.2.1, hl2.2.2] at hd
  obtain ⟨e1, e2⟩ := append_sep_inj _ _ _ _ hp1.1 hp2.1 hd
  obtain ⟨e3, e4⟩ := append_sep_inj _ _ _ _ hp1.2.1 hp2.2.1 e2
  exact ⟨String.ext e1, String.ext e3, String.ext e4⟩

/-- Witness for `C7_getBucketKey_amended` at concrete lowercase, pipe-free
triples. -/
theorem C7_witness :
    (("tm" : String) = "tm" ∧ ("rl" : String) = "rl" ∧ ("lo" : String) = "lo") :=
  C7_getBucketKey_amended "tm" "rl" "lo" "tm" "rl" "lo"
    ⟨by decide, by decide, by decide⟩ ⟨by decide, by decide, by decide⟩
    ⟨by decide, by decide, by decide⟩ ⟨by decide, by decide, by decide⟩ rfl

/-! ## applyTimelineShifts edge cases (claim C10) -/

theorem lookup_setfold_none {β : Type} :
    ∀ (l : List (β × String)) (acc : AL β) (lab : String),
      lookupAL (l.foldl (fun mi p => setAL mi p.2 p.1) acc) lab = none
        ↔ (lab ∉ l.map Prod.snd ∧ lookupAL acc lab = none) := by
  intro l
  induction l with
  | nil => simp
  | cons hd tl ih =>
    intro acc lab
    rw [List.foldl_cons, ih, lookup_setAL]
    by_cases h : hd.2 = lab
    · simp [h]
    · simp [h]
      tauto

theorem lookup_monthIndex_none (months : List String) (lab : String) :
    lookupAL (buildMonthIndex months) lab = none ↔ lab ∉ months := by
  rw [buildMonthIndex, lookup_setfold_none]
  simp [lookupAL]

/-- Demand entries whose label is not a listed month are skipped by the
shift loop. -/
theorem shiftDemand_filter_members (months : List String) (s : Int) (dem : AL Int) :
    shiftDemand months s dem
      = shiftDemand months s (dem.filter (fun e => decide (e.1 ∈ months))) := by
  rw [shiftDemand, shiftDemand]
  generalize ([] : AL Int) = acc
  induction dem generalizing acc with
  | nil => rfl
  | cons e rest ih =>
    by_cases h : e.1 ∈ months
    · have hfil : (e :: rest).filter (fun e => decide (e.1 ∈ months))
          = e :: rest.filter (fun e => decide (e.1 ∈ months)) := by
        simp [List.filter_cons, h]
      rw [hfil, List.foldl_cons, List.foldl_cons]
      exact ih _
    · have hnone : lookupAL (buildMonthIndex months) e.1 = none :=
        (lookup_monthIndex_none months e.1).mpr h
      have hstep : shiftStep months s acc e = acc := by
        rw [shiftStep, hnone]
      have hfil : (e :: rest).filter (fun e => decide (e.1 ∈ months))
          = rest.filter (fun e => decide (e.1 ∈ months)) := by
        simp [List.filter_cons, h]
      rw [hfil, List.foldl_cons, hstep]
      exact ih acc

/-- Claim C10: a falsy (absent or zero) shift returns the identical project
object, preserving even demand entries under labels outside the month
list; a nonzero shift rewrites the demand and drops every entry whose
label does not occur in the month list. -/
theorem C10_shift_edge_cases (ts : AL Int) (months : List String) (p : Project) :
    ((lookupAL ts p.id = none ∨ lookupAL ts p.id = some 0) → shiftProject ts months p = p)
    ∧ (∀ s : Int, lookupAL ts p.id = some s → s ≠ 0 →
        (shiftProject ts months p).monthly_demand
          = shiftDemand months s (p.monthly_demand.filter (fun e => decide (e.1 ∈ months)))) := by
  constructor
  · rintro (h | h) <;> simp [shiftProject, h]
  · intro s hs hs0
    rw [shiftProject, hs]
    simp only [if_neg hs0]
    exact shiftDemand_filter_members months s p.monthly_demand

/-- Witness for `C10_shift_edge_cases`: the falsy-shift identity on a
project with no shift entry, and the label-dropping equation at shift 1. -/
theorem C10_witness :
    shiftProject [] ["Jan"] shiftSample = shiftSample
      ∧ (shiftProject [("p3", 1)] ["Jan"] shiftSample).monthly_demand
          = shiftDemand ["Jan"] 1
              (shiftSample.monthly_demand.filter (fun e => decide (e.1 ∈ ["Jan"]))) :=
  ⟨(C10_shift_edge_cases [] ["Jan"] shiftSample).1 (Or.inl rfl),
   (C10_shift_edge_cases [("p3", 1)] ["Jan"] shiftSample).2 1 rfl (by decide)⟩


/-! ## Capacity Aggregator (claim C5) -/

theorem lookup_setfold_const (v : Int) :
    ∀ (ms : List String) (acc : AL Int) (m : String),
      lookupAL (ms.foldl (fun mc month => setAL mc month v) acc) m
        = if m ∈ ms then some v else lookupAL acc m := by
  intro ms
  induction ms with
  | nil => simp
  | cons mo rest ih =>
    intro acc m
    rw [List.foldl_cons, ih, lookup_setAL]
    by_cases hr : m ∈ rest
    · simp [hr]
    · by_cases hm : mo = m
      · simp [hr, hm]
      · have hm2 : ¬ m = mo := fun hx => hm hx.symm
        simp [hr, hm, hm2]

theorem capAt_addVirtualMonth (key : String) (hv : Int) (ec : AL Bucket)
    (mo k m : String) (hsome : (lookupAL ec key).isSome) :
    capAt (addVirtualMonth key hv ec mo) k m
      = capAt ec k m + (if key = k ∧ mo = m then hv else 0) := by
  rw [capAt, capAt, addVirtualMonth, lookup_updateAL]
  by_cases hk : key = k
  · subst hk
    cases hlook : lookupAL ec key with
    | none => rw [hlook] at hsome; simp at hsome
    | some b =>
      rw [if_pos rfl]
      dsimp only [Option.map]
      rw [lookup_setAL]
      by_cases hmo : mo = m
      · simp [hmo]
      · simp [hmo]
  · rw [if_neg hk]
    simp [hk]

theorem lookup_addVirtualMonth_isSome (key : String) (hv : Int) (ec : AL Bucket)
    (mo k : String) :
    (lookupAL (addVirtualMonth key hv ec mo) k).isSome = (lookupAL ec k).isSome := by
  rw [addVirtualMonth, lookup_updateAL]
  by_cases hk : key = k
  · subst hk
    rw [if_pos rfl]
    cases lookupAL ec key <;> rfl
  · rw [if_neg hk]

theorem updfold_capAt (key : String) (hv : Int) (k m : String) :
    ∀ (ms : List String), ms.Nodup → ∀ ec : AL Bucket, (lookupAL ec key).isSome →
      capAt (ms.foldl (addVirtualMonth key hv) ec) k m
        = capAt ec k m + (if key = k ∧ m ∈ ms then hv else 0) := by
  intro ms
  induction ms with
  | nil =>
    intro _ ec _
    simp
  | cons mo rest ih =>
    intro hnd ec hsome
    obtain ⟨hmo, hrest⟩ := List.nodup_cons.mp hnd
    have hsome2 : (lookupAL (addVirtualMonth key hv ec mo) key).isSome := by
      rw [lookup_addVirtualMonth_isSome]; exact hsome
    rw [List.foldl_cons, ih hrest _ hsome2, capAt_addVirtualMonth key hv ec mo k m hsome]
    by_cases hk : key = k
    · by_cases hm : mo = m
      · subst hm
        simp [hk, hmo, add_assoc]
      · have hm2 : ¬ m = mo := fun hx => hm hx.symm
        simp [hk, hm, hm2, List.mem_cons]
    · simp [hk]

theorem updfold_lookup_other (key : String) (hv : Int) (k : String) (hk : key ≠ k) :
    ∀ (ms : List String) (ec : AL Bucket),
      lookupAL (ms.foldl (addVirtualMonth key hv) ec) k = lookupAL ec k := by
  intro ms
  induction ms with
  | nil => intro ec; rfl
  | cons mo rest ih =>
    intro ec
    rw [List.foldl_cons, ih, addVirtualMonth, lookup_updateAL, if_neg hk]

theorem capAt_addVirtual (months : List String) (now : Nat) (ec : AL Bucket)
    (r : VirtualResource) (k m : String) (hnd : months.Nodup) (hm : m ∈ months) :
    capAt (addVirtual months now ec r) k m
      = capAt ec k m + (if vKey r = k then vHours r else 0) := by
  rw [addVirtual]
  cases hec : lookupAL ec (getBucketKey r.team r.role r.location) with
  | some b =>
    have hsome : (lookupAL ec (getBucketKey r.team r.role r.location)).isSome := by
      rw [hec]; rfl
    simp only [hec]
    rw [updfold_capAt _ _ _ _ months hnd ec hsome]
    simp [vKey, hm]
  | none =>
    simp only [hec]
    rw [capAt, lookup_setAL]
    by_cases hk : getBucketKey r.team r.role r.location = k
    · rw [if_pos hk]
      have hcap : capAt ec k m = 0 := by
        rw [capAt, ← hk, hec]
      rw [hcap]
      simp only []
      rw [lookup_setfold_const, if_pos hm]
      simp [vKey, hk]
    · rw [if_neg hk]
      have : ¬ vKey r = k := hk
      simp [capAt, this]

theorem effcap_capAt (months : List String) (now : Nat) (k m : String)
    (hnd : months.Nodup) (hm : m ∈ months) :
    ∀ (vrs : List VirtualResource) (ec : AL Bucket),
      capAt (vrs.foldl (addVirtual months now) ec) k m
        = capAt ec k m + ((vrs.filter (fun r => vKey r == k)).map vHours).sum := by
  intro vrs
  induction vrs with
  | nil => intro ec; simp
  | cons r rest ih =>
    intro ec
    rw [List.foldl_cons, ih, capAt_addVirtual months now ec r k m hnd hm]
    by_cases hk : vKey r = k
    · simp [List.filter_cons, hk, add_assoc]
    · simp [List.filter_cons, hk]

theorem updfold_isVirtual (key : String) (hv : Int) (k : String) :
    ∀ (ms : List String) (ec : AL Bucket),
      (∃ b, lookupAL ec k = some b ∧ b.isVirtual = true) →
      ∃ b, lookupAL (ms.foldl (addVirtualMonth key hv) ec) k = some b ∧ b.isVirtual = true := by
  intro ms
  induction ms with
  | nil => intro ec h; exact h
  | cons mo rest ih =>
    intro ec h
    rw [List.foldl_cons]
    apply ih
    obtain ⟨b, hb, hbv⟩ := h
    rw [addVirtualMonth, lookup_updateAL]
    by_cases hk : key = k
    · subst hk
      rw [if_pos rfl, hb]
      exact ⟨_, rfl, hbv⟩
    · rw [if_neg hk]
      exact ⟨b, hb, hbv⟩

theorem keepVirtual (months : List String) (now : Nat) (k : String) :
    ∀ (vrs : List VirtualResource) (ec : AL Bucket),
      (∃ b, lookupAL ec k = some b ∧ b.isVirtual = true) →
      ∃ b, lookupAL (vrs.foldl (addVirtual months now) ec) k = some b ∧ b.isVirtual = true := by
  intro vrs
  induction vrs with
  | nil => intro ec h; exact h
  | cons r rest ih =>
    intro ec h
    rw [List.foldl_cons]
    apply ih
    rw [addVirtual]
    cases hec : lookupAL ec (getBucketKey r.team r.role r.location) with
    | some b0 =>
      simp only [hec]
      exact updfold_isVirtual _ _ _ months ec h
    | none =>
      simp only [hec]
      obtain ⟨b, hb, hbv⟩ := h
      by_cases hk : getBucketKey r.team r.role r.location = k
      · rw [hk, hb] at hec
        cases hec
      · rw [lookup_setAL, if_neg hk]
        exact ⟨b, hb, hbv⟩

theorem synthVirtual (months : List String) (now : Nat) (k : String) :
    ∀ (vrs : List VirtualResource) (ec : AL Bucket), lookupAL ec k = none →
      (∃ r ∈ vrs, vKey r = k) →
      ∃ b, lookupAL (vrs.foldl (addVirtual months now) ec) k = some b ∧ b.isVirtual = true := by
  intro vrs
  induction vrs with
  | nil =>
    rintro ec _ ⟨r, hr, _⟩
    cases hr
  | cons r rest ih =>
    intro ec hnone hex
    rw [List.foldl_cons]
    by_cases hk : vKey r = k
    · apply keepVirtual
      rw [addVirtual]
      have hec : lookupAL ec (getBucketKey r.team r.role r.location) = none := by
        have : getBucketKey r.team r.role r.location = vKey r := rfl
        rw [this, hk]; exact hnone
      simp only [hec]
      rw [lookup_setAL]
      have hkk : getBucketKey r.team r.role r.location = k := hk
      rw [if_pos hkk]
      exact ⟨_, rfl, rfl⟩
    · have hnone2 : lookupAL (addVirtual months now ec r) k = none := by
        rw [addVirtual]
        cases hec : lookupAL ec (getBucketKey r.team r.role r.location) with
        | some b0 =>
          simp only [hec]
          have hk2 : getBucketKey r.team r.role r.location ≠ k := hk
          rw [updfold_lookup_other _ _ _ hk2]
          exact hnone
        | none =>
          simp only [hec]
          rw [lookup_setAL, if_neg (show getBucketKey r.team r.role r.location ≠ k from hk)]
          exact hnone
      have hex2 : ∃ r2 ∈ rest, vKey r2 = k := by
        obtain ⟨r2, hr2, hk2⟩ := hex
        rcases List.mem_cons.mp hr2 with heq | hmem
        · exact absurd (heq ▸ hk2) hk
        · exact ⟨r2, hmem, hk2⟩
      exact ih (addVirtual months now ec r) hnone2 hex2

/-- Claim C5 counterexample: a virtual resource with `hoursPerMonth = 0`
(a falsy value) adds the default 160 hours, not its stated 0 — baseline
capacity 100 for Jan becomes 260, not 100 + 0. -/
theorem C5_counterexample :
    capAt (calculateEffectiveCapacity [sampleBucket] [zeroHoursVR] ["Jan"] 0)
        (getBucketKey "T" "R" "L") "Jan" = 260
      ∧ (260 : Int) ≠ 100 + 0 :=
  ⟨by decide, by decide⟩

/-- C5 (amended): for every listed month, the effective capacity of key
`k` is the baseline capacity plus the sum of `hoursPerMonth || 160` over
the virtual resources targeting `k` (so resources accumulate additively,
with a 160-hour default for an absent or zero `hoursPerMonth`); and when
no baseline bucket has key `k` but some virtual resource targets it, a
bucket with `isVirtual = true` is synthesized. -/
theorem C5_aggregator_amended (base : List Bucket) (vrs : List VirtualResource)
    (months : List String) (now : Nat) (k m : String)
    (hnd : months.Nodup) (hm : m ∈ months) :
    capAt (calculateEffectiveCapacity base vrs months now) k m
      = capAt (baseInit base) k m + ((vrs.filter (fun r => vKey r == k)).map vHours).sum
    ∧ (lookupAL (baseInit base) k = none → (∃ r ∈ vrs, vKey r = k) →
        ∃ b, lookupAL (calculateEffectiveCapacity base vrs months now) k = some b
          ∧ b.isVirtual = true) := by
  constructor
  · rw [calculateEffectiveCapacity]
    exact effcap_capAt months now k m hnd hm vrs (baseInit base)
  · intro hnone hex
    rw [calculateEffectiveCapacity]
    exact synthVirtual months now k vrs (baseInit base) hnone hex

/-- Witness for `C5_aggregator_amended`: a baseline bucket plus a virtual
resource on a fresh key yields capacity 40 on the fresh key, via the
additive formula, and the synthesized bucket is virtual. -/
theorem C5_witness :
    capAt (calculateEffectiveCapacity [sampleBucket] [newKeyVR] ["Jan"] 3) (vKey newKeyVR) "Jan" = 40
      ∧ ∃ b, lookupAL (calculateEffectiveCapacity [sampleBucket] [newKeyVR] ["Jan"] 3)
          (vKey newKeyVR) = some b ∧ b.isVirtual = true := by
  have h := C5_aggregator_amended [sampleBucket] [newKeyVR] ["Jan"] 3 (vKey newKeyVR) "Jan"
    (by decide) (by decide)
  refine ⟨?_, h.2 (by decide) ⟨newKeyVR, by decide, rfl⟩⟩
  rw [h.1]
  decide

/-! ## Demand Shifter boundary accounting (claim C6) -/

theorem shiftStep_out (months : List String) (s : Int) (acc : AL Int)
    (lab : String) (h : Int) (i : Nat)
    (hi : lookupAL (buildMonthIndex months) lab = some i)
    (hout : ¬ (0 ≤ (i : Int) + s ∧ (i : Int) + s < (months.length : Int))) :
    shiftStep months s acc (lab, h) = acc := by
  rw [shiftStep]
  simp only [hi]
  rw [if_neg hout]

theorem shiftDemand_drop (months : List String) (s : Int) (d1 d2 : AL Int)
    (lab : String) (h : Int) (i : Nat)
    (hi : lookupAL (buildMonthIndex months) lab = some i)
    (hout : ¬ (0 ≤ (i : Int) + s ∧ (i : Int) + s < (months.length : Int))) :
    shiftDemand months s (d1 ++ (lab, h) :: d2) = shiftDemand months s (d1 ++ d2) := by
  rw [shiftDemand, shiftDemand, List.foldl_append, List.foldl_append, List.foldl_cons,
      shiftStep_out months s _ lab h i hi hout]

theorem shiftDemand_routing (months : List String) (s : Int) (dem : AL Int)
    (dest : String) :
    (lookupAL (shiftDemand months s dem) dest).getD 0
      = ((dem.filter (mapsTo months s dest)).map Prod.snd).sum := by
  rw [shiftDemand]
  have main : ∀ (d : AL Int) (acc : AL Int),
      (lookupAL (d.foldl (shiftStep months s) acc) dest).getD 0
        = (lookupAL acc dest).getD 0 + ((d.filter (mapsTo months s dest)).map Prod.snd).sum := by
    intro d
    induction d with
    | nil => intro acc; simp
    | cons e rest ih =>
      intro acc
      obtain ⟨lab, h⟩ := e
      rw [List.foldl_cons, ih]
      cases hi : lookupAL (buildMonthIndex months) lab with
      | none =>
        have hstep : shiftStep months s acc (lab, h) = acc := by
          rw [shiftStep]; simp only [hi]
        have hmap : mapsTo months s dest (lab, h) = false := by
          rw [mapsTo]; simp only [hi]
        rw [hstep, List.filter_cons, hmap]
        simp
      | some i =>
        by_cases hin : 0 ≤ (i : Int) + s ∧ (i : Int) + s < (months.length : Int)
        · by_cases hde : months.getD ((i : Int) + s).toNat "" = dest
          · have hstep : shiftStep months s acc (lab, h)
                = setAL acc (months.getD ((i : Int) + s).toNat "")
                    ((lookupAL acc (months.getD ((i : Int) + s).toNat "")).getD 0 + h) := by
              rw [shiftStep]; simp only [hi]
              rw [if_pos hin]
            have hmap : mapsTo months s dest (lab, h) = true := by
              rw [mapsTo]; simp only [hi]
              rw [decide_eq_true hin.1, decide_eq_true hin.2]
              simp only [Bool.true_and]
              exact beq_iff_eq.mpr hde
            rw [hstep, lookup_setAL, if_pos hde, List.filter_cons, hmap, hde]
            simp [add_assoc]
          · have hstep : shiftStep months s acc (lab, h)
                = setAL acc (months.getD ((i : Int) + s).toNat "")
                    ((lookupAL acc (months.getD ((i : Int) + s).toNat "")).getD 0 + h) := by
              rw [shiftStep]; simp only [hi]
              rw [if_pos hin]
            have hmap : mapsTo months s dest (lab, h) = false := by
              rw [mapsTo]; simp only [hi]
              rw [decide_eq_true hin.1, decide_eq_true hin.2]
              simp only [Bool.true_and]
              exact beq_eq_false_iff_ne.mpr hde
            rw [hstep, lookup_setAL, if_neg hde, List.filter_cons, hmap]
            simp
        · have hstep : shiftStep months s acc (lab, h) = acc :=
            shiftStep_out months s acc lab h i hi hin
          have hmap : mapsTo months s dest (lab, h) = false := by
            rw [mapsTo]; simp only [hi]
            rcases not_and_or.mp hin with hA | hB
            · simp only [decide_eq_false hA, Bool.false_and]
            · simp only [decide_eq_false hB, Bool.and_false, Bool.false_and]
          rw [hstep, List.filter_cons, hmap]
          simp
  have base0 : (lookupAL ([] : AL Int) dest).getD 0 = 0 := rfl
  rw [main dem [], base0, zero_add]

/-- Claim C6: demand that a nonzero timeline shift moves outside the month
window is dropped entirely — deleting such an entry leaves the whole
scenario result unchanged (so the hours appear in no shifted demand, no
allocation, no deficit, no consumed hours and no total) — while in-range
entries are routed additively: the shifted demand of each destination
month is the sum of all source entries mapping to it. -/
theorem C6_lossy_shift
    (base : List Bucket) (order : List String) (vrs : List VirtualResource)
    (ts : AL Int) (months : List String) (now : Nat)
    (pre post : List Project) (p : Project)
    (s : Int) (i : Nat) (lab : String) (h : Int) (d1 d2 : AL Int)
    (hs : lookupAL ts p.id = some s) (hs0 : s ≠ 0)
    (hdem : p.monthly_demand = d1 ++ (lab, h) :: d2)
    (hi : lookupAL (buildMonthIndex months) lab = some i)
    (hout : ¬ (0 ≤ (i : Int) + s ∧ (i : Int) + s < (months.length : Int))) :
    calculateScenario base (pre ++ p :: post) order vrs ts months now
      = calculateScenario base (pre ++ { p with monthly_demand := d1 ++ d2 } :: post)
          order vrs ts months now
    ∧ ∀ dest : String,
        (lookupAL (shiftDemand months s p.monthly_demand) dest).getD 0
          = ((p.monthly_demand.filter (mapsTo months s dest)).map Prod.snd).sum := by
  refine ⟨?_, fun dest => shiftDemand_routing months s p.monthly_demand dest⟩
  have hsp : shiftProject ts months p
      = shiftProject ts months { p with monthly_demand := d1 ++ d2 } := by
    rw [shiftProject, shiftProject]
    simp only [hs]
    rw [if_neg hs0, if_neg hs0, hdem,
        shiftDemand_drop months s d1 d2 lab h i hi hout]
  have hmap : applyTimelineShifts (pre ++ p :: post) ts months
      = applyTimelineShifts (pre ++ { p with monthly_demand := d1 ++ d2 } :: post) ts months := by
    rw [applyTimelineShifts, applyTimelineShifts, List.map_append, List.map_append,
        List.map_cons, List.map_cons, hsp]
  rw [calculateScenario, calculateScenario, hmap]

/-- Witness for `C6_lossy_shift`: shifting a one-month window forward by 1
drops the Jan demand; removing that entry changes nothing in the result. -/
theorem C6_witness :
    calculateScenario [sampleBucket] ([] ++ shiftSample :: []) ["p3"] [] [("p3", 1)] ["Jan"] 0
      = calculateScenario [sampleBucket]
          ([] ++ { shiftSample with monthly_demand := [] ++ [("Zed", 7)] } :: [])
          ["p3"] [] [("p3", 1)] ["Jan"] 0 :=
  (C6_lossy_shift [sampleBucket] ["p3"] [] [("p3", 1)] ["Jan"] 0 [] [] shiftSample
    1 0 "Jan" 10 [] [("Zed", 7)] rfl (by decide) rfl (by decide) (by decide)).1

/-! ## Determinism up to the synthesized id (claim C2) -/

/-- Claim C2 counterexample: two invocations on identical inputs are not
identical in every field — the id of a synthesized virtual bucket embeds
the invocation time (`Date.now()`), here modelled by the clock values 0
and 1. -/
theorem C2_counterexample :
    calculateScenario [] [] [] [newKeyVR] [] ["Jan"] 0
      ≠ calculateScenario [] [] [] [newKeyVR] [] ["Jan"] 1 := by
  decide


/-! ## Generic fold and state-projection lemmas -/

theorem foldl_preserve {α β : Type} (P : α → Prop) (f : α → β → α)
    (hf : ∀ a b, P a → P (f a b)) : ∀ (l : List β) (a : α), P a → P (l.foldl f a) := by
  intro l
  induction l with
  | nil => intro a h; exact h
  | cons b tl ih => intro a h; exact ih _ (hf a b h)

theorem lookup_updateAL_isSome {α : Type} (l : AL α) (k q : String) (f : α → α) :
    (lookupAL (updateAL l k f) q).isSome = (lookupAL l q).isSome := by
  rw [lookup_updateAL]
  by_cases h : k = q
  · rw [if_pos h, h]
    cases lookupAL l q <;> rfl
  · rw [if_neg h]

theorem mem_setAL {α : Type} {l : AL α} {k : String} {v : α} {x : String × α}
    (h : x ∈ setAL l k v) : x = (k, v) ∨ x ∈ l := by
  induction l with
  | nil => simpa [setAL] using h
  | cons hd tl ih =>
    obtain ⟨k', v'⟩ := hd
    by_cases hk : k' = k
    · rw [setAL, if_pos hk] at h
      rcases List.mem_cons.mp h with h1 | h1
      · exact Or.inl h1
      · exact Or.inr (List.mem_cons_of_mem _ h1)
    · rw [setAL, if_neg hk] at h
      rcases List.mem_cons.mp h with h1 | h1
      · exact Or.inr (h1 ▸ List.mem_cons_self _ _)
      · rcases ih h1 with h2 | h2
        · exact Or.inl h2
        · exact Or.inr (List.mem_cons_of_mem _ h2)

theorem lookup_mapVal2 {α β : Type} (f : α → β) (l : AL α) (k : String) :
    lookupAL (l.map (fun kv => (kv.1, f kv.2))) k = (lookupAL l k).map f := by
  induction l with
  | nil => simp [lookupAL]
  | cons hd tl ih =>
    obtain ⟨k', v'⟩ := hd
    by_cases h1 : k' = k
    · subst h1; simp [lookupAL]
    · simp [lookupAL, h1, ih]

theorem setMS_pstat (st : AllocState) (pid mo : String) (e : MonthEntry) :
    (setMS st pid mo e).pstat
      = updateAL st.pstat pid (fun ps => { ps with monthlyStatus := setAL ps.monthlyStatus mo e }) :=
  rfl

theorem addDeficit_pstat (st : AllocState) (pid : String) (d : Int) :
    (addDeficit st pid d).pstat
      = updateAL st.pstat pid (fun ps => { ps with totalDeficit := ps.totalDeficit + d }) :=
  rfl

theorem consumeFull_pstat (st : AllocState) (k mo : String) (d : Int) :
    (consumeFull st k mo d).pstat = st.pstat := rfl

theorem consumePartial_pstat (st : AllocState) (k mo : String) (av : Int) :
    (consumePartial st k mo av).pstat = st.pstat := rfl

theorem setMS_rc (st : AllocState) (pid mo : String) (e : MonthEntry) :
    (setMS st pid mo e).rc = st.rc := rfl

theorem addDeficit_rc (st : AllocState) (pid : String) (d : Int) :
    (addDeficit st pid d).rc = st.rc := rfl

theorem consumeFull_rc (st : AllocState) (k mo : String) (d : Int) :
    (consumeFull st k mo d).rc = st.rc := rfl

theorem consumePartial_rc (st : AllocState) (k mo : String) (av : Int) :
    (consumePartial st k mo av).rc = st.rc := rfl

theorem setMS_butil (st : AllocState) (pid mo : String) (e : MonthEntry) :
    (setMS st pid mo e).butil = st.butil := rfl

theorem addDeficit_butil (st : AllocState) (pid : String) (d : Int) :
    (addDeficit st pid d).butil = st.butil := rfl

theorem setMS_td (st : AllocState) (pid mo : String) (e : MonthEntry) :
    (setMS st pid mo e).totalDeficit = st.totalDeficit := rfl

theorem consumeFull_td (st : AllocState) (k mo : String) (d : Int) :
    (consumeFull st k mo d).totalDeficit = st.totalDeficit := rfl

theorem consumePartial_td (st : AllocState) (k mo : String) (av : Int) :
    (consumePartial st k mo av).totalDeficit = st.totalDeficit := rfl

theorem addDeficit_td (st : AllocState) (pid : String) (d : Int) :
    (addDeficit st pid d).totalDeficit = st.totalDeficit + d := rfl

/-! ## processOne: projectStatus bookkeeping -/

theorem processOne_pstat_isSome (pm : AL Project) (mo : String) (st : AllocState)
    (pid q : String) :
    (lookupAL (processOne pm mo st pid).pstat q).isSome
      = (lookupAL st.pstat q).isSome := by
  rw [processOne]
  cases hp : lookupAL pm pid with
  | none => rfl
  | some project =>
    simp only []
    split_ifs <;>
      simp only [consumeFull_pstat, consumePartial_pstat, setMS_pstat, addDeficit_pstat,
        lookup_updateAL_isSome]

theorem processOne_pstat_other (pm : AL Project) (mo : String) (st : AllocState)
    (pid q : String) (hq : pid ≠ q) :
    lookupAL (processOne pm mo st pid).pstat q = lookupAL st.pstat q := by
  rw [processOne]
  cases hp : lookupAL pm pid with
  | none => rfl
  | some project =>
    simp only []
    split_ifs <;>
      simp only [consumeFull_pstat, consumePartial_pstat, setMS_pstat, addDeficit_pstat,
        lookup_updateAL, if_neg hq]

/-- Looking up the written project after `setMS`. -/
theorem lookup_after_write (stx : AllocState) (pid mo : String) (e : MonthEntry)
    (ps : ProjStatus) (h1 : lookupAL stx.pstat pid = some ps) :
    lookupAL (setMS stx pid mo e).pstat pid
      = some { ps with monthlyStatus := setAL ps.monthlyStatus mo e } := by
  rw [setMS_pstat, lookup_updateAL, if_pos rfl, h1]
  rfl

/-- Looking up the written project after `addDeficit`. -/
theorem lookup_after_adddef (stx : AllocState) (pid : String) (d : Int)
    (ps : ProjStatus) (h1 : lookupAL stx.pstat pid = some ps) :
    lookupAL (addDeficit stx pid d).pstat pid
      = some { ps with totalDeficit := ps.totalDeficit + d } := by
  rw [addDeficit_pstat, lookup_updateAL, if_pos rfl, h1]
  rfl

/-- When the processed id has a record, its status record gets exactly one
monthly entry written at the processed month (the four branches differ
only in the entry and the deficit bookkeeping). -/
theorem processOne_self_write (pm : AL Project) (mo : String) (st : AllocState)
    (pid : String) (project : Project) (hp : lookupAL pm pid = some project) :
    ∃ e : MonthEntry, ∀ ps, lookupAL st.pstat pid = some ps →
      ∃ ps', lookupAL (processOne pm mo st pid).pstat pid = some ps'
        ∧ ps'.monthlyStatus = setAL ps.monthlyStatus mo e := by
  rw [processOne]
  simp only [hp]
  split_ifs with hd hav hpos
  · exact ⟨_, fun ps h1 => ⟨_, lookup_after_write st pid mo _ ps h1, rfl⟩⟩
  · exact ⟨_, fun ps h1 => ⟨_, lookup_after_write st pid mo _ ps h1, rfl⟩⟩
  · exact ⟨_, fun ps h1 =>
      ⟨_, lookup_after_adddef _ pid _ _ (lookup_after_write st pid mo _ ps h1), rfl⟩⟩
  · exact ⟨_, fun ps h1 =>
      ⟨_, lookup_after_adddef _ pid _ _ (lookup_after_write st pid mo _ ps h1), rfl⟩⟩


/-! ## Entry invariants of the allocation loop (claims C1, C8) -/

theorem entriesOK_write (pm : AL Project) (st : AllocState) (pid mo : String)
    (e : MonthEntry) (h : entriesOK pm st.pstat) (he : entryOK pm pid (mo, e)) :
    entriesOK pm (setMS st pid mo e).pstat := by
  intro q ps hq me hme
  rw [setMS_pstat, lookup_updateAL] at hq
  by_cases hpq : pid = q
  · subst hpq
    rw [if_pos rfl] at hq
    cases hps : lookupAL st.pstat pid with
    | none => rw [hps] at hq; cases hq
    | some ps0 =>
      rw [hps] at hq
      have hq2 : some { ps0 with monthlyStatus := setAL ps0.monthlyStatus mo e } = some ps := hq
      obtain rfl := (Option.some.inj hq2).symm
      rcases mem_setAL hme with h2 | h2
      · rw [h2]; exact he
      · exact h pid ps0 hps me h2
  · rw [if_neg hpq] at hq
    exact h q ps hq me hme

theorem entriesOK_adddef (pm : AL Project) (stx : AllocState) (pid : String) (d : Int)
    (h : entriesOK pm stx.pstat) : entriesOK pm (addDeficit stx pid d).pstat := by
  intro q ps hq me hme
  rw [addDeficit_pstat, lookup_updateAL] at hq
  by_cases hpq : pid = q
  · subst hpq
    cases hps : lookupAL stx.pstat pid with
    | none => rw [if_pos rfl, hps] at hq; cases hq
    | some ps0 =>
      rw [if_pos rfl, hps] at hq
      have hq2 : some { ps0 with totalDeficit := ps0.totalDeficit + d } = some ps := hq
      obtain rfl := (Option.some.inj hq2).symm
      exact h pid ps0 hps me hme
  · rw [if_neg hpq] at hq
    exact h q ps hq me hme

theorem entryOK_mk (pm : AL Project) (q : String) (mo : String) (e : MonthEntry)
    (h1 : e.allocated + e.deficit = e.demand)
    (h2 : e.status = "none" ∨ e.status = "staffed" ∨ e.status = "partial"
        ∨ e.status = "unstaffed")
    (h3 : e.status = "none" ↔ e.demand = 0)
    (h4 : ∀ p, lookupAL pm q = some p → e.demand = (lookupAL p.monthly_demand mo).getD 0) :
    entryOK pm q (mo, e) :=
  ⟨h1, h2, h3, h4⟩

theorem add_sub_self_int (a b : Int) : a + (b - a) = b := by omega

theorem entriesOK_processOne (pm : AL Project) (mo : String) (st : AllocState)
    (pid : String) (h : entriesOK pm st.pstat) :
    entriesOK pm (processOne pm mo st pid).pstat := by
  rw [processOne]
  cases hp : lookupAL pm pid with
  | none => exact h
  | some project =>
    simp only []
    split_ifs with hd hav hpos
    · refine entriesOK_write pm st pid mo _ h
        (entryOK_mk pm pid mo _ (add_zero _) (Or.inl rfl) (iff_of_true rfl rfl) ?_)
      intro p hpp
      rw [hp] at hpp
      obtain rfl := Option.some.inj hpp
      exact hd.symm
    · refine entriesOK_write pm st pid mo _ h
        (entryOK_mk pm pid mo _ (add_zero _) (Or.inr (Or.inl rfl))
          (iff_of_false (show ¬ "staffed" = "none" by decide) hd) ?_)
      intro p hpp
      rw [hp] at hpp
      obtain rfl := Option.some.inj hpp
      rfl
    · refine entriesOK_adddef pm _ pid _ (entriesOK_write pm st pid mo _ h
        (entryOK_mk pm pid mo _ (add_sub_self_int _ _) (Or.inr (Or.inr (Or.inl rfl)))
          (iff_of_false (show ¬ "partial" = "none" by decide) hd) ?_))
      intro p hpp
      rw [hp] at hpp
      obtain rfl := Option.some.inj hpp
      rfl
    · refine entriesOK_adddef pm _ pid _ (entriesOK_write pm st pid mo _ h
        (entryOK_mk pm pid mo _ (zero_add _) (Or.inr (Or.inr (Or.inr rfl)))
          (iff_of_false (show ¬ "unstaffed" = "none" by decide) hd) ?_))
      intro p hpp
      rw [hp] at hpp
      obtain rfl := Option.some.inj hpp
      rfl

theorem lookup_initPstat_fold (pm : AL Project) (q : String) (ps : ProjStatus) :
    ∀ (l : List (Nat × String)) (acc : AL ProjStatus),
      lookupAL (l.foldl (initPstatStep pm) acc) q = some ps →
      (∃ project priority, lookupAL pm q = some project ∧ ps = initialStatus project priority)
        ∨ lookupAL acc q = some ps := by
  intro l
  induction l with
  | nil => intro acc h; exact Or.inr h
  | cons hd tl ih =>
    intro acc h
    rw [List.foldl_cons] at h
    rcases ih _ h with hC | hacc
    · exact Or.inl hC
    · rw [initPstatStep] at hacc
      cases hpp : lookupAL pm hd.2 with
      | none => rw [hpp] at hacc; exact Or.inr hacc
      | some project =>
        rw [hpp] at hacc
        rw [lookup_setAL] at hacc
        by_cases hq : hd.2 = q
        · rw [if_pos hq] at hacc
          exact Or.inl ⟨project, hd.1, hq ▸ hpp, (Option.some.inj hacc).symm⟩
        · rw [if_neg hq] at hacc
          exact Or.inr hacc

theorem entriesOK_init (pm : AL Project) (order : List String) :
    entriesOK pm (initPstat pm order) := by
  intro q ps hq me hme
  rw [initPstat] at hq
  rcases lookup_initPstat_fold pm q ps _ [] hq with ⟨project, prio, hpq, rfl⟩ | hacc
  · cases hme
  · cases hacc

theorem entriesOK_allocFold (pm : AL Project) (order : List String)
    (months : List String) (st : AllocState) (h : entriesOK pm st.pstat) :
    entriesOK pm ((months.foldl (allocMonth pm order) st)).pstat := by
  refine foldl_preserve (fun stx : AllocState => entriesOK pm stx.pstat) _ ?_ months st h
  intro a mo ha
  rw [allocMonth]
  exact foldl_preserve (fun stx : AllocState => entriesOK pm stx.pstat) _
    (fun a2 pid ha2 => entriesOK_processOne pm mo a2 pid ha2) order a ha


/-! ## Entry existence in the allocation loop -/

theorem lookup_setAL_isSome_of {α : Type} (l : AL α) (k : String) (v : α) (q : String)
    (h : (lookupAL l q).isSome = true) : (lookupAL (setAL l k v) q).isSome = true := by
  rw [lookup_setAL]
  by_cases hk : k = q
  · rw [if_pos hk]; rfl
  · rw [if_neg hk]; exact h

theorem initPstat_isSome (pm : AL Project) (order : List String) (pid : String)
    (hp : (lookupAL pm pid).isSome = true) (hmem : pid ∈ order) :
    (lookupAL (initPstat pm order) pid).isSome = true := by
  rw [initPstat]
  have main : ∀ (l : List (Nat × String)) (acc : AL ProjStatus),
      ((lookupAL acc pid).isSome = true ∨ pid ∈ l.map Prod.snd) →
      (lookupAL (l.foldl (initPstatStep pm) acc) pid).isSome = true := by
    intro l
    induction l with
    | nil =>
      rintro acc (h | h)
      · exact h
      · cases h
    | cons hd tl ih =>
      rintro acc (h | h)
      · refine ih _ (Or.inl ?_)
        rw [initPstatStep]
        cases hhd : lookupAL pm hd.2 with
        | none => exact h
        | some project => exact lookup_setAL_isSome_of _ _ _ _ h
      · rw [List.map_cons] at h
        rcases List.mem_cons.mp h with h1 | h1
        · refine ih _ (Or.inl ?_)
          rw [initPstatStep]
          cases hhd : lookupAL pm hd.2 with
          | none =>
            rw [h1] at hp
            rw [hhd] at hp
            simp at hp
          | some project =>
            rw [lookup_setAL, if_pos h1.symm]
            rfl
        · exact ih _ (Or.inr h1)
  exact main order.enum [] (Or.inr (by rw [List.enum_map_snd]; exact hmem))

theorem hasEntry_processOne (pm : AL Project) (mo2 : String) (st : AllocState)
    (pid2 pid mo : String) (h : hasEntry st.pstat pid mo) :
    hasEntry (processOne pm mo2 st pid2).pstat pid mo := by
  obtain ⟨ps, e, h1, h2⟩ := h
  by_cases hq : pid2 = pid
  · subst hq
    cases hp : lookupAL pm pid2 with
    | none =>
      rw [processOne, hp]
      exact ⟨ps, e, h1, h2⟩
    | some project =>
      obtain ⟨e2, hw⟩ := processOne_self_write pm mo2 st pid2 project hp
      obtain ⟨ps2, h12, hms⟩ := hw ps h1
      by_cases hmo : mo2 = mo
      · exact ⟨ps2, e2, h12, by rw [hms, lookup_setAL, if_pos hmo]⟩
      · exact ⟨ps2, e, h12, by rw [hms, lookup_setAL, if_neg hmo]; exact h2⟩
  · refine ⟨ps, e, ?_, h2⟩
    rw [processOne_pstat_other pm mo2 st pid2 pid hq]
    exact h1


theorem processOne_creates (pm : AL Project) (mo : String) (st : AllocState)
    (pid : String) (project : Project) (hp : lookupAL pm pid = some project)
    (hpres : (lookupAL st.pstat pid).isSome = true) :
    hasEntry (processOne pm mo st pid).pstat pid mo := by
  obtain ⟨ps, h1⟩ := Option.isSome_iff_exists.mp hpres
  obtain ⟨e2, hw⟩ := processOne_self_write pm mo st pid project hp
  obtain ⟨ps2, h12, hms⟩ := hw ps h1
  exact ⟨ps2, e2, h12, by rw [hms, lookup_setAL, if_pos rfl]⟩

theorem allocMonth_creates (pm : AL Project) (order : List String) (st : AllocState)
    (mo : String) (pid : String) (project : Project) (hmem : pid ∈ order)
    (hp : lookupAL pm pid = some project)
    (hpres : (lookupAL st.pstat pid).isSome = true) :
    hasEntry (allocMonth pm order st mo).pstat pid mo := by
  obtain ⟨l1, l2, rfl⟩ := List.append_of_mem hmem
  rw [allocMonth, List.foldl_append, List.foldl_cons]
  have hpres2 : (lookupAL (l1.foldl (processOne pm mo) st).pstat pid).isSome = true := by
    refine foldl_preserve (fun stx : AllocState => (lookupAL stx.pstat pid).isSome = true) _ ?_ l1 st hpres
    intro a b ha
    rw [processOne_pstat_isSome]
    exact ha
  have hstep := processOne_creates pm mo _ pid project hp hpres2
  exact foldl_preserve (fun stx : AllocState => hasEntry stx.pstat pid mo) _
    (fun a b ha => hasEntry_processOne pm mo a b pid mo ha) l2 _ hstep

theorem month_entry_exists (pm : AL Project) (order : List String)
    (months : List String) (st : AllocState) (pid : String) (project : Project)
    (m : String) (hmem : pid ∈ order) (hp : lookupAL pm pid = some project)
    (hpres : (lookupAL st.pstat pid).isSome = true) (hm : m ∈ months) :
    hasEntry ((months.foldl (allocMonth pm order) st)).pstat pid m := by
  obtain ⟨m1, m2, rfl⟩ := List.append_of_mem hm
  rw [List.foldl_append, List.foldl_cons]
  have hpres2 : (lookupAL ((m1.foldl (allocMonth pm order) st)).pstat pid).isSome = true := by
    refine foldl_preserve (fun stx : AllocState => (lookupAL stx.pstat pid).isSome = true) _ ?_ m1 st hpres
    intro a mo ha
    rw [allocMonth]
    refine foldl_preserve (fun stx : AllocState => (lookupAL stx.pstat pid).isSome = true) _ ?_ order a ha
    intro a2 pid2 ha2
    rw [processOne_pstat_isSome]
    exact ha2
  have hcreate := allocMonth_creates pm order _ m pid project hmem hp hpres2
  refine foldl_preserve (fun stx : AllocState => hasEntry stx.pstat pid m) _ ?_ m2 _ hcreate
  intro a mo ha
  rw [allocMonth]
  exact foldl_preserve (fun stx : AllocState => hasEntry stx.pstat pid m) _
    (fun a2 pid2 ha2 => hasEntry_processOne pm mo a2 pid2 pid m ha2) order a ha

/-! ## Component views of calculateScenario (definitional) -/

theorem scenario_projectStatus (base : List Bucket) (projects : List Project)
    (order : List String) (vrs : List VirtualResource) (ts : AL Int)
    (months : List String) (now : Nat) :
    (calculateScenario base projects order vrs ts months now).projectStatus
      = ((months.foldl
            (allocMonth (buildProjectMap (applyTimelineShifts projects ts months)) order)
            (initState (calculateEffectiveCapacity base vrs months now)
              (buildProjectMap (applyTimelineShifts projects ts months)) order months)).pstat).map
          (fun kv => (kv.1, summarize kv.2)) := rfl

theorem scenario_totalDeficit (base : List Bucket) (projects : List Project)
    (order : List String) (vrs : List VirtualResource) (ts : AL Int)
    (months : List String) (now : Nat) :
    (calculateScenario base projects order vrs ts months now).totalDeficit
      = (months.foldl
          (allocMonth (buildProjectMap (applyTimelineShifts projects ts months)) order)
          (initState (calculateEffectiveCapacity base vrs months now)
            (buildProjectMap (applyTimelineShifts projects ts months)) order months)).totalDeficit := rfl

theorem scenario_bucketUtilization (base : List Bucket) (projects : List Project)
    (order : List String) (vrs : List VirtualResource) (ts : AL Int)
    (months : List String) (now : Nat) :
    (calculateScenario base projects order vrs ts months now).bucketUtilization
      = ((months.foldl
            (allocMonth (buildProjectMap (applyTimelineShifts projects ts months)) order)
            (initState (calculateEffectiveCapacity base vrs months now)
              (buildProjectMap (applyTimelineShifts projects ts months)) order months)).butil).map
          (fun kv => (kv.1, finishUtil (calculateEffectiveCapacity base vrs months now) months kv.1 kv.2)) := rfl

theorem initState_pstat (ec : AL Bucket) (pm : AL Project) (order : List String)
    (months : List String) :
    (initState ec pm order months).pstat = initPstat pm order := rfl

theorem summarize_monthlyStatus (ps : ProjStatus) :
    (summarize ps).monthlyStatus = ps.monthlyStatus := rfl

theorem summarize_totalDeficit (ps : ProjStatus) :
    (summarize ps).totalDeficit = ps.totalDeficit := rfl

theorem summarize_overallStatus (ps : ProjStatus) :
    (summarize ps).overallStatus = overallOf ps.monthlyStatus := rfl


/-- Claim C1 (conservation): for every project id in the priority order
with a matching (shifted) project record and every listed month, the
per-month record in the result satisfies `allocated + deficit = demand`,
where the recorded demand is the project's shifted demand for that month
(0 when the month is absent from the shifted demand mapping). -/
theorem C1_conservation (base : List Bucket) (projects : List Project)
    (order : List String) (vrs : List VirtualResource) (ts : AL Int)
    (months : List String) (now : Nat) (pid m : String) (p : Project)
    (hmem : pid ∈ order) (hm : m ∈ months)
    (hp : lookupAL (buildProjectMap (applyTimelineShifts projects ts months)) pid = some p) :
    ∃ ps e,
      lookupAL (calculateScenario base projects order vrs ts months now).projectStatus pid
          = some ps
      ∧ lookupAL ps.monthlyStatus m = some e
      ∧ e.demand = (lookupAL p.monthly_demand m).getD 0
      ∧ e.allocated + e.deficit = e.demand := by
  have hpres : (lookupAL (initState (calculateEffectiveCapacity base vrs months now)
      (buildProjectMap (applyTimelineShifts projects ts months)) order months).pstat pid).isSome
        = true := by
    rw [initState_pstat]
    exact initPstat_isSome _ order pid (by rw [hp]; rfl) hmem
  have hex := month_entry_exists (buildProjectMap (applyTimelineShifts projects ts months))
    order months _ pid p m hmem hp hpres hm
  have hOK : entriesOK (buildProjectMap (applyTimelineShifts projects ts months))
      ((months.foldl
        (allocMonth (buildProjectMap (applyTimelineShifts projects ts months)) order)
        (initState (calculateEffectiveCapacity base vrs months now)
          (buildProjectMap (applyTimelineShifts projects ts months)) order months)).pstat) := by
    refine entriesOK_allocFold _ order months _ ?_
    rw [initState_pstat]
    exact entriesOK_init _ order
  obtain ⟨ps0, e, h1, h2⟩ := hex
  have hok := hOK pid ps0 h1 (m, e) (lookupAL_mem h2)
  refine ⟨summarize ps0, e, ?_, ?_, ?_, ?_⟩
  · rw [scenario_projectStatus, lookup_mapVal2 summarize, h1]
    rfl
  · rw [summarize_monthlyStatus]
    exact h2
  · exact hok.2.2.2 p hp
  · exact hok.1

/-- Witness for `C1_conservation` at the concrete two-project sample:
project p2 is partially staffed in Jan with allocated 40, deficit 20,
demand 60. -/
theorem C1_witness :
    (∃ ps e,
      lookupAL (calculateScenario [sampleBucket] [sampleP1, sampleP2] ["p1", "p2"] [] []
          ["Jan", "Feb"] 0).projectStatus "p2" = some ps
      ∧ lookupAL ps.monthlyStatus "Jan" = some e
      ∧ e.demand = (lookupAL sampleP2.monthly_demand "Jan").getD 0
      ∧ e.allocated + e.deficit = e.demand) :=
  C1_conservation [sampleBucket] [sampleP1, sampleP2] ["p1", "p2"] [] [] ["Jan", "Feb"] 0
    "p2" "Jan" sampleP2 (by decide) (by decide) (by decide)


/-! ## Status Summarizer (claim C8) -/

theorem any_filter_not_none (p : String × MonthEntry → Bool)
    (hp : ∀ e : String × MonthEntry, e.2.status = "none" → p e = false) :
    ∀ ms : AL MonthEntry,
      (ms.filter (fun e => !(e.2.status == "none"))).any p = ms.any p := by
  intro ms
  induction ms with
  | nil => rfl
  | cons e rest ih =>
    by_cases hn : e.2.status = "none"
    · simp [List.filter_cons, List.any_cons, hn, hp e hn, ih]
    · simp [List.filter_cons, List.any_cons, hn, ih]

theorem overallOf_filter_none (ms : AL MonthEntry) :
    overallOf (ms.filter (fun e => !(e.2.status == "none"))) = overallOf ms := by
  have h1 := any_filter_not_none (fun e => e.2.status == "staffed")
    (fun e he => by simp [he]) ms
  have h2 := any_filter_not_none
    (fun e => e.2.status == "partial" || e.2.status == "unstaffed")
    (fun e he => by simp [he]) ms
  rw [overallOf, overallOf, h1, h2]

/-- Claim C8: a project's overall status is `staffed` when every
nonzero-demand month is staffed, `unstaffed` when additionally no month is
staffed, `partial` otherwise; months with status `none` never influence
the overall status (it equals the status computed after discarding them). -/
theorem C8_status_summarizer (base : List Bucket) (projects : List Project)
    (order : List String) (vrs : List VirtualResource) (ts : AL Int)
    (months : List String) (now : Nat) (pid : String) (ps : ProjStatus)
    (h : lookupAL (calculateScenario base projects order vrs ts months now).projectStatus pid
          = some ps) :
    ((∀ me ∈ ps.monthlyStatus, (me : String × MonthEntry).2.demand ≠ 0
          → me.2.status = "staffed") → ps.overallStatus = "staffed")
    ∧ ((¬ ∀ me ∈ ps.monthlyStatus, (me : String × MonthEntry).2.demand ≠ 0
          → me.2.status = "staffed")
        → (∀ me ∈ ps.monthlyStatus, (me : String × MonthEntry).2.status ≠ "staffed")
        → ps.overallStatus = "unstaffed")
    ∧ ((¬ ∀ me ∈ ps.monthlyStatus, (me : String × MonthEntry).2.demand ≠ 0
          → me.2.status = "staffed")
        → (¬ ∀ me ∈ ps.monthlyStatus, (me : String × MonthEntry).2.status ≠ "staffed")
        → ps.overallStatus = "partial")
    ∧ ps.overallStatus
        = overallOf (ps.monthlyStatus.filter (fun e => !(e.2.status == "none"))) := by
  rw [scenario_projectStatus, lookup_mapVal2 summarize] at h
  cases hx : lookupAL ((months.foldl
      (allocMonth (buildProjectMap (applyTimelineShifts projects ts months)) order)
      (initState (calculateEffectiveCapacity base vrs months now)
        (buildProjectMap (applyTimelineShifts projects ts months)) order months)).pstat) pid with
  | none => rw [hx] at h; cases h
  | some ps0 =>
    rw [hx] at h
    have hps : ps = summarize ps0 := (Option.some.inj h).symm
    subst hps
    have hOK : entriesOK (buildProjectMap (applyTimelineShifts projects ts months))
        ((months.foldl
          (allocMonth (buildProjectMap (applyTimelineShifts projects ts months)) order)
          (initState (calculateEffectiveCapacity base vrs months now)
            (buildProjectMap (applyTimelineShifts projects ts months)) order months)).pstat) := by
      refine entriesOK_allocFold _ order months _ ?_
      rw [initState_pstat]
      exact entriesOK_init _ order
    have hfacts : ∀ me ∈ ps0.monthlyStatus,
        entryOK (buildProjectMap (applyTimelineShifts projects ts months)) pid me :=
      fun me hme => hOK pid ps0 hx me hme
    have hAS_iff : (ps0.monthlyStatus.any (fun e => e.2.status == "staffed") = true)
        ↔ ¬ (∀ me ∈ (summarize ps0).monthlyStatus,
              (me : String × MonthEntry).2.status ≠ "staffed") := by
      rw [summarize_monthlyStatus, List.any_eq_true]
      constructor
      · rintro ⟨me, hme, hpred⟩ hB
        exact hB me hme (by simpa using hpred)
      · intro hB
        push_neg at hB
        obtain ⟨me, hme, hst⟩ := hB
        exact ⟨me, hme, by simpa using hst⟩
    have hAU_iff : (ps0.monthlyStatus.any
          (fun e => e.2.status == "partial" || e.2.status == "unstaffed") = true)
        ↔ ¬ (∀ me ∈ (summarize ps0).monthlyStatus,
              (me : String × MonthEntry).2.demand ≠ 0 → me.2.status = "staffed") := by
      rw [summarize_monthlyStatus, List.any_eq_true]
      constructor
      · rintro ⟨me, hme, hpred⟩ hA
        have hf := hfacts me hme
        have hst : me.2.status = "partial" ∨ me.2.status = "unstaffed" := by
          simpa using hpred
        have hdemand : me.2.demand ≠ 0 := by
          intro h0
          have hnone := hf.2.2.1.mpr h0
          rcases hst with h2 | h2 <;> rw [h2] at hnone <;> exact absurd hnone (by decide)
        have hstf := hA me hme hdemand
        rcases hst with h2 | h2 <;> rw [hstf] at h2 <;> exact absurd h2 (by decide)
      · intro hA
        push_neg at hA
        obtain ⟨me, hme, hd0, hnst⟩ := hA
        have hf := hfacts me hme
        have hnn : me.2.status ≠ "none" := fun hx2 => hd0 (hf.2.2.1.mp hx2)
        refine ⟨me, hme, ?_⟩
        rcases hf.2.1 with h2 | h2 | h2 | h2
        · exact absurd h2 hnn
        · exact absurd h2 hnst
        · simp [h2]
        · simp [h2]
    refine ⟨?_, ?_, ?_, ?_⟩
    · intro hA
      have hAUf : ps0.monthlyStatus.any
          (fun e => e.2.status == "partial" || e.2.status == "unstaffed") = false := by
        cases hb : ps0.monthlyStatus.any
            (fun e => e.2.status == "partial" || e.2.status == "unstaffed") with
        | false => rfl
        | true => exact absurd hA (hAU_iff.mp hb)
      rw [summarize_overallStatus]
      simp [overallOf, hAUf]
    · intro hnA hB
      have hAUt := hAU_iff.mpr hnA
      have hASf : ps0.monthlyStatus.any (fun e => e.2.status == "staffed") = false := by
        cases hb : ps0.monthlyStatus.any (fun e => e.2.status == "staffed") with
        | false => rfl
        | true => exact absurd hB (hAS_iff.mp hb)
      rw [summarize_overallStatus]
      simp [overallOf, hAUt, hASf]
    · intro hnA hnB
      have hAUt := hAU_iff.mpr hnA
      have hASt : ps0.monthlyStatus.any (fun e => e.2.status == "staffed") = true := by
        cases hb : ps0.monthlyStatus.any (fun e => e.2.status == "staffed") with
        | true => rfl
        | false =>
          exfalso
          apply hnB
          intro me hme hst
          have : ps0.monthlyStatus.any (fun e => e.2.status == "staffed") = true := by
            rw [summarize_monthlyStatus] at hme
            rw [List.any_eq_true]
            exact ⟨me, hme, by simpa using hst⟩
          rw [hb] at this
          cases this
      rw [summarize_overallStatus]
      simp [overallOf, hAUt, hASt]
    · rw [summarize_overallStatus, summarize_monthlyStatus,
        overallOf_filter_none ps0.monthlyStatus]

/-- Witness for `C8_status_summarizer`: in the sample run, project p2 has
a nonzero-demand month that is not staffed and no staffed month, so its
overall status is `unstaffed`. -/
theorem C8_witness : sampleP2Status.overallStatus = "unstaffed" := by
  have h := C8_status_summarizer [sampleBucket] [sampleP1, sampleP2] ["p1", "p2"] [] []
    ["Jan", "Feb"] 0 "p2" sampleP2Status (by decide)
  exact h.2.1 (by decide) (by decide)


/-! ## Bucket bookkeeping invariant (claim C9) -/

theorem lookup_getD_nonneg (l : AL Int) (m : String) (h : ∀ e ∈ l, 0 ≤ e.2) :
    0 ≤ (lookupAL l m).getD 0 := by
  cases hl : lookupAL l m with
  | none => exact le_refl 0
  | some v => exact h (m, v) (lookupAL_mem hl)

theorem lookup_setfold_g (g : String → Int) :
    ∀ (ms : List String) (acc : AL Int) (m : String),
      lookupAL (ms.foldl (fun mc mo => setAL mc mo (g mo)) acc) m
        = if m ∈ ms then some (g m) else lookupAL acc m := by
  intro ms
  induction ms with
  | nil => simp
  | cons mo rest ih =>
    intro acc m
    rw [List.foldl_cons, ih, lookup_setAL]
    by_cases hr : m ∈ rest
    · simp [hr]
    · by_cases hm : mo = m
      · simp [hr, hm]
      · have hm2 : ¬ m = mo := fun hx => hm hx.symm
        simp [hr, hm, hm2]

theorem initUtil_capacity (months : List String) (b : Bucket) :
    (initUtil months b).monthly_capacity = b.monthly_capacity := rfl

theorem initUtil_consumed (months : List String) (b : Bucket) (m : String) :
    lookupAL (initUtil months b).monthly_consumed m
      = if m ∈ months then some 0 else none := by
  have h := lookup_setfold_g (fun _ => (0 : Int)) months [] m
  simpa [initUtil, lookupAL] using h

theorem initUtil_remaining (months : List String) (b : Bucket) (m : String) :
    lookupAL (initUtil months b).monthly_remaining m
      = if m ∈ months then some ((lookupAL b.monthly_capacity m).getD 0) else none := by
  have h := lookup_setfold_g (fun mo => (lookupAL b.monthly_capacity mo).getD 0) months [] m
  simpa [initUtil, lookupAL] using h

theorem initState_rc (ec : AL Bucket) (pm : AL Project) (order : List String)
    (months : List String) : (initState ec pm order months).rc = initRC ec := rfl

theorem initState_butil (ec : AL Bucket) (pm : AL Project) (order : List String)
    (months : List String) :
    (initState ec pm order months).butil
      = ec.map (fun kv => (kv.1, initUtil months kv.2)) := rfl

theorem initRC_lookup (ec : AL Bucket) (k : String) :
    lookupAL (initRC ec) k
      = (lookupAL ec k).map
          (fun b => b.monthly_capacity.map (fun mv => (mv.1, some mv.2))) := by
  rw [initRC]
  exact lookup_mapVal2
    (fun b : Bucket => b.monthly_capacity.map (fun mv => (mv.1, some mv.2))) ec k

theorem readRC_initRC (ec : AL Bucket) (k m : String) (b : Bucket)
    (hk : lookupAL ec k = some b) :
    readRC (initRC ec) k m = (lookupAL b.monthly_capacity m).getD 0 := by
  have h1 : lookupAL (initRC ec) k
      = some (b.monthly_capacity.map (fun mv => (mv.1, some mv.2))) := by
    rw [initRC_lookup, hk]
    rfl
  simp only [readRC, h1, lookup_mapVal2 some b.monthly_capacity m]
  cases hm : lookupAL b.monthly_capacity m <;> simp [hm]

theorem readRC_update_other (rc : RCap) (bk k m : String) (f : AL (Option Int) → AL (Option Int))
    (hk : bk ≠ k) : readRC (updateAL rc bk f) k m = readRC rc k m := by
  rw [readRC, readRC, lookup_updateAL, if_neg hk]

theorem readRC_pos_shape (rc : RCap) (k m : String) (h : 0 < readRC rc k m) :
    ∃ mm, lookupAL rc k = some mm ∧ lookupAL mm m = some (some (readRC rc k m)) := by
  cases hk : lookupAL rc k with
  | none => simp only [readRC, hk] at h; omega
  | some mm =>
    cases hm : lookupAL mm m with
    | none => simp only [readRC, hk, hm] at h; omega
    | some ov =>
      cases ov with
      | none => simp only [readRC, hk, hm] at h; omega
      | some v =>
        have hv : readRC rc k m = v := by simp only [readRC, hk, hm]
        rw [hv]
        exact ⟨mm, rfl, hm⟩

theorem readRC_subRC_same (rc : RCap) (bk m : String) (d : Int) (mm : AL (Option Int))
    (v : Int) (hk : lookupAL rc bk = some mm) (hm : lookupAL mm m = some (some v)) :
    readRC (subRC rc bk m d) bk m = v - d := by
  have h1 : lookupAL (subRC rc bk m d) bk = some (setAL mm m (some (v - d))) := by
    rw [subRC, lookup_updateAL, if_pos rfl, hk]
    simp only [Option.map, hm]
  simp [readRC, h1, lookup_setAL]

theorem readRC_zeroRC_same (rc : RCap) (bk m : String) (mm : AL (Option Int))
    (hk : lookupAL rc bk = some mm) :
    readRC (zeroRC rc bk m) bk m = 0 := by
  have h1 : lookupAL (zeroRC rc bk m) bk = some (setAL mm m (some 0)) := by
    rw [zeroRC, lookup_updateAL, if_pos rfl, hk]
    simp only [Option.map]
  simp [readRC, h1, lookup_setAL]

theorem readRC_subRC_month_ne (rc : RCap) (bk k m m2 : String) (d : Int) (hne : m ≠ m2) :
    readRC (subRC rc bk m d) k m2 = readRC rc k m2 := by
  by_cases hk : bk = k
  · subst hk
    cases hmb : lookupAL rc bk with
    | none =>
      have h1 : lookupAL (subRC rc bk m d) bk = none := by
        rw [subRC, lookup_updateAL, if_pos rfl, hmb]
        rfl
      simp only [readRC, h1, hmb]
    | some mm =>
      cases hmm : lookupAL mm m with
      | none =>
        have h1 : lookupAL (subRC rc bk m d) bk = some (setAL mm m none) := by
          rw [subRC, lookup_updateAL, if_pos rfl, hmb]
          simp only [Option.map, hmm]
        simp [readRC, h1, hmb, lookup_setAL, hne]
      | some ov =>
        cases ov with
        | none =>
          have h1 : lookupAL (subRC rc bk m d) bk = some (setAL mm m none) := by
            rw [subRC, lookup_updateAL, if_pos rfl, hmb]
            simp only [Option.map, hmm]
          simp [readRC, h1, hmb, lookup_setAL, hne]
        | some v =>
          have h1 : lookupAL (subRC rc bk m d) bk = some (setAL mm m (some (v - d))) := by
            rw [subRC, lookup_updateAL, if_pos rfl, hmb]
            simp only [Option.map, hmm]
          simp [readRC, h1, hmb, lookup_setAL, hne]
  · exact readRC_update_other rc bk k m2 _ hk

theorem readRC_zeroRC_month_ne (rc : RCap) (bk k m m2 : String) (hne : m ≠ m2) :
    readRC (zeroRC rc bk m) k m2 = readRC rc k m2 := by
  by_cases hk : bk = k
  · subst hk
    cases hmb : lookupAL rc bk with
    | none =>
      have h1 : lookupAL (zeroRC rc bk m) bk = none := by
        rw [zeroRC, lookup_updateAL, if_pos rfl, hmb]
        rfl
      simp only [readRC, h1, hmb]
    | some mm =>
      have h1 : lookupAL (zeroRC rc bk m) bk = some (setAL mm m (some 0)) := by
        rw [zeroRC, lookup_updateAL, if_pos rfl, hmb]
        simp only [Option.map]
      simp [readRC, h1, hmb, lookup_setAL, hne]
  · exact readRC_update_other rc bk k m2 _ hk

theorem subRC_isSome (rc : RCap) (bk m : String) (d : Int) (k : String) :
    (lookupAL (subRC rc bk m d) k).isSome = (lookupAL rc k).isSome :=
  lookup_updateAL_isSome rc bk k _

theorem zeroRC_isSome (rc : RCap) (bk m : String) (k : String) :
    (lookupAL (zeroRC rc bk m) k).isSome = (lookupAL rc k).isSome :=
  lookup_updateAL_isSome rc bk k _

theorem consumeFull_butil (st : AllocState) (k mo : String) (d : Int) :
    (consumeFull st k mo d).butil
      = updateAL st.butil k (fun u =>
          { u with
              monthly_consumed := updateAL u.monthly_consumed mo (· + d)
              monthly_remaining := updateAL u.monthly_remaining mo (· - d) }) := rfl

theorem consumePartial_butil (st : AllocState) (k mo : String) (av : Int) :
    (consumePartial st k mo av).butil
      = updateAL st.butil k (fun u =>
          { u with
              monthly_consumed := updateAL u.monthly_consumed mo (· + av)
              monthly_remaining := setAL u.monthly_remaining mo 0 }) := rfl

theorem jsRound100_le_100 (c cap : Int) (hc : c ≤ cap) (hpos : 0 < cap) :
    jsRound100 c cap ≤ 100 := by
  rw [jsRound100, Int.fdiv_eq_ediv _ (by omega : (0 : Int) ≤ 2 * cap)]
  by_contra hgt
  push_neg at hgt
  have h2 : (101 : Int) ≤ (200 * c + cap) / (2 * cap) := hgt
  have h3 := (Int.le_ediv_iff_mul_le (by omega : (0 : Int) < 2 * cap)).mp h2
  omega


theorem readRC_subRC_other (rc : RCap) (bk k mo m : String) (d : Int) (hk : bk ≠ k) :
    readRC (subRC rc bk mo d) k m = readRC rc k m :=
  readRC_update_other rc bk k m _ hk

theorem readRC_zeroRC_other (rc : RCap) (bk k mo m : String) (hk : bk ≠ k) :
    readRC (zeroRC rc bk mo) k m = readRC rc k m :=
  readRC_update_other rc bk k m _ hk

theorem bucketOK_ext (months : List String) (ec : AL Bucket) (st st2 : AllocState)
    (hrc : st2.rc = st.rc) (hbu : st2.butil = st.butil) (h : bucketOK months ec st) :
    bucketOK months ec st2 := by
  rw [bucketOK, hrc, hbu]
  exact h

theorem bucketOK_init (months : List String) (ec : AL Bucket) (pm : AL Project)
    (order : List String)
    (hec : ∀ kb ∈ ec, ∀ e ∈ kb.2.monthly_capacity, 0 ≤ e.2) :
    bucketOK months ec (initState ec pm order months) := by
  constructor
  · intro k
    rw [initState_rc, initState_butil, initRC_lookup,
      lookup_mapVal2 (initUtil months) ec k]
    cases lookupAL ec k <;> rfl
  · intro k u hu
    rw [initState_butil, lookup_mapVal2 (initUtil months) ec k] at hu
    cases hk : lookupAL ec k with
    | none => rw [hk] at hu; cases hu
    | some b =>
      rw [hk] at hu
      have hub : u = initUtil months b := (Option.some.inj hu).symm
      subst hub
      intro m hm
      refine ⟨0, (lookupAL b.monthly_capacity m).getD 0, ?_, ?_, ?_, le_refl 0, ?_, ?_⟩
      · rw [initUtil_consumed, if_pos hm]
      · rw [initUtil_remaining, if_pos hm]
      · rw [zero_add]
        simp [capAt, hk]
      · exact lookup_getD_nonneg _ _ (hec (k, b) (lookupAL_mem hk))
      · rw [initState_rc]
        exact readRC_initRC ec k m b hk

theorem bucketOK_processOne (months : List String) (ec : AL Bucket) (pm : AL Project)
    (mo : String) (st : AllocState) (pid : String)
    (hpm : ∀ q p, lookupAL pm q = some p → ∀ e ∈ p.monthly_demand, 0 ≤ e.2)
    (h : bucketOK months ec st) : bucketOK months ec (processOne pm mo st pid) := by
  rw [processOne]
  cases hp : lookupAL pm pid with
  | none => exact h
  | some project =>
    simp only []
    have hdemnn : 0 ≤ (lookupAL project.monthly_demand mo).getD 0 :=
      lookup_getD_nonneg _ _ (hpm pid project hp)
    split_ifs with hd hav hpos
    · exact bucketOK_ext months ec st _ rfl rfl h
    · -- staffed branch
      have hdpos : 0 < (lookupAL project.monthly_demand mo).getD 0 :=
        lt_of_le_of_ne hdemnn (Ne.symm hd)
      have havpos :
          0 < readRC st.rc (getBucketKey project.team project.role project.location) mo :=
        lt_of_lt_of_le hdpos hav
      obtain ⟨mm, hkmm, hmmv⟩ := readRC_pos_shape st.rc _ mo havpos
      constructor
      · intro k
        simp only [consumeFull_rc, consumeFull_butil, setMS_rc, setMS_butil]
        rw [subRC_isSome, lookup_updateAL_isSome]
        exact h.1 k
      · intro k u hu
        simp only [consumeFull_rc, consumeFull_butil, setMS_rc, setMS_butil] at hu ⊢
        rw [lookup_updateAL] at hu
        by_cases hbk : getBucketKey project.team project.role project.location = k
        · subst hbk
          rw [if_pos rfl] at hu
          cases hu0 : lookupAL st.butil (getBucketKey project.team project.role project.location) with
          | none => rw [hu0] at hu; cases hu
          | some u0 =>
            rw [hu0] at hu
            have hufu : u = { u0 with
                monthly_consumed := updateAL u0.monthly_consumed mo
                  (· + (lookupAL project.monthly_demand mo).getD 0)
                monthly_remaining := updateAL u0.monthly_remaining mo
                  (· - (lookupAL project.monthly_demand mo).getD 0) } :=
              (Option.some.inj hu).symm
            subst hufu
            have hmon0 := h.2 _ u0 hu0
            intro m hm
            obtain ⟨c, r, hc, hr, hsum, hc0, hr0, hread⟩ := hmon0 m hm
            by_cases hm2 : mo = m
            · subst hm2
              refine ⟨c + (lookupAL project.monthly_demand mo).getD 0,
                r - (lookupAL project.monthly_demand mo).getD 0, ?_, ?_, ?_, ?_, ?_, ?_⟩
              · rw [lookup_updateAL, if_pos rfl, hc]
                rfl
              · rw [lookup_updateAL, if_pos rfl, hr]
                rfl
              · omega
              · omega
              · omega
              · have hveq := hmmv
                rw [hread] at hveq
                exact readRC_subRC_same st.rc _ mo _ mm r hkmm hveq
            · refine ⟨c, r, ?_, ?_, hsum, hc0, hr0, ?_⟩
              · rw [lookup_updateAL, if_neg hm2, hc]
              · rw [lookup_updateAL, if_neg hm2, hr]
              · rw [readRC_subRC_month_ne _ _ _ _ _ _ hm2]
                exact hread
        · rw [if_neg hbk] at hu
          have hmon0 := h.2 k u hu
          intro m hm
          obtain ⟨c, r, hc, hr, hsum, hc0, hr0, hread⟩ := hmon0 m hm
          refine ⟨c, r, hc, hr, hsum, hc0, hr0, ?_⟩
          rw [readRC_subRC_other _ _ _ _ _ _ hbk]
          exact hread
    · -- partial branch
      obtain ⟨mm, hkmm, hmmv⟩ := readRC_pos_shape st.rc _ mo hpos
      constructor
      · intro k
        simp only [consumePartial_rc, consumePartial_butil, addDeficit_rc, addDeficit_butil,
          setMS_rc, setMS_butil]
        rw [zeroRC_isSome, lookup_updateAL_isSome]
        exact h.1 k
      · intro k u hu
        simp only [consumePartial_rc, consumePartial_butil, addDeficit_rc, addDeficit_butil,
          setMS_rc, setMS_butil] at hu ⊢
        rw [lookup_updateAL] at hu
        by_cases hbk : getBucketKey project.team project.role project.location = k
        · subst hbk
          rw [if_pos rfl] at hu
          cases hu0 : lookupAL st.butil (getBucketKey project.team project.role project.location) with
          | none => rw [hu0] at hu; cases hu
          | some u0 =>
            rw [hu0] at hu
            have hufu : u = { u0 with
                monthly_consumed := updateAL u0.monthly_consumed mo
                  (· + readRC st.rc (getBucketKey project.team project.role project.location) mo)
                monthly_remaining := setAL u0.monthly_remaining mo 0 } :=
              (Option.some.inj hu).symm
            subst hufu
            have hmon0 := h.2 _ u0 hu0
            intro m hm
            obtain ⟨c, r, hc, hr, hsum, hc0, hr0, hread⟩ := hmon0 m hm
            by_cases hm2 : mo = m
            · subst hm2
              refine ⟨c + readRC st.rc (getBucketKey project.team project.role project.location) mo,
                0, ?_, ?_, ?_, ?_, le_refl 0, ?_⟩
              · rw [lookup_updateAL, if_pos rfl, hc]
                rfl
              · rw [lookup_setAL, if_pos rfl]
              · omega
              · omega
              · exact readRC_zeroRC_same st.rc _ mo mm hkmm
            · refine ⟨c, r, ?_, ?_, hsum, hc0, hr0, ?_⟩
              · rw [lookup_updateAL, if_neg hm2, hc]
              · rw [lookup_setAL, if_neg hm2, hr]
              · rw [readRC_zeroRC_month_ne _ _ _ _ _ hm2]
                exact hread
        · rw [if_neg hbk] at hu
          have hmon0 := h.2 k u hu
          intro m hm
          obtain ⟨c, r, hc, hr, hsum, hc0, hr0, hread⟩ := hmon0 m hm
          refine ⟨c, r, hc, hr, hsum, hc0, hr0, ?_⟩
          rw [readRC_zeroRC_other _ _ _ _ _ hbk]
          exact hread
    · exact bucketOK_ext months ec st _ rfl rfl h


/-! ## Nonnegativity of demands and capacities -/

theorem vHours_nonneg (r : VirtualResource)
    (h : ∀ hh : Int, r.hoursPerMonth = some hh → 0 ≤ hh) : 0 ≤ vHours r := by
  rw [vHours]
  cases hr : r.hoursPerMonth with
  | none => decide
  | some hh =>
    simp only []
    by_cases h0 : hh = 0
    · rw [if_pos h0]; decide
    · rw [if_neg h0]; exact h hh hr

theorem mem_updateAL {α : Type} {l : AL α} {k : String} {f : α → α} {x : String × α}
    (h : x ∈ updateAL l k f) : x ∈ l ∨ ∃ v, (x.1, v) ∈ l ∧ x = (x.1, f v) := by
  induction l with
  | nil => simp [updateAL] at h
  | cons hd tl ih =>
    obtain ⟨k2, v2⟩ := hd
    by_cases hk : k2 = k
    · rw [updateAL, if_pos hk] at h
      rcases List.mem_cons.mp h with h1 | h1
      · exact Or.inr ⟨v2, by rw [h1]; exact List.mem_cons_self _ _, by rw [h1]⟩
      · exact Or.inl (List.mem_cons_of_mem _ h1)
    · rw [updateAL, if_neg hk] at h
      rcases List.mem_cons.mp h with h1 | h1
      · exact Or.inl (h1 ▸ List.mem_cons_self _ _)
      · rcases ih h1 with h2 | ⟨v, hv, hx⟩
        · exact Or.inl (List.mem_cons_of_mem _ h2)
        · exact Or.inr ⟨v, List.mem_cons_of_mem _ hv, hx⟩

theorem mem_setfold_const {v : Int} :
    ∀ (ms : List String) (acc : AL Int) {x : String × Int},
      x ∈ ms.foldl (fun mc month => setAL mc month v) acc →
      x.2 = v ∨ x ∈ acc := by
  intro ms
  induction ms with
  | nil => intro acc x h; exact Or.inr h
  | cons mo rest ih =>
    intro acc x h
    rw [List.foldl_cons] at h
    rcases ih _ h with h1 | h1
    · exact Or.inl h1
    · rcases mem_setAL h1 with h2 | h2
      · rw [h2]
        exact Or.inl rfl
      · exact Or.inr h2

theorem baseInit_nonneg (base : List Bucket)
    (hb : ∀ b ∈ base, ∀ e ∈ b.monthly_capacity, 0 ≤ e.2) :
    ∀ kb ∈ baseInit base, ∀ e ∈ kb.2.monthly_capacity, 0 ≤ e.2 := by
  rw [baseInit]
  have main : ∀ (l : List Bucket) (acc : AL Bucket),
      (∀ b ∈ l, ∀ e ∈ b.monthly_capacity, 0 ≤ e.2) →
      (∀ kb ∈ acc, ∀ e ∈ kb.2.monthly_capacity, 0 ≤ e.2) →
      ∀ kb ∈ l.foldl
        (fun ec bucket => setAL ec (getBucketKey bucket.team bucket.role bucket.location) bucket)
        acc, ∀ e ∈ kb.2.monthly_capacity, 0 ≤ e.2 := by
    intro l
    induction l with
    | nil => intro acc _ hacc kb hkb; exact hacc kb hkb
    | cons b0 rest ih =>
      intro acc hl hacc kb hkb
      rw [List.foldl_cons] at hkb
      refine ih _ (fun b hb2 => hl b (List.mem_cons_of_mem _ hb2)) ?_ kb hkb
      intro kb2 hkb2
      rcases mem_setAL hkb2 with h1 | h1
      · rw [h1]
        exact hl b0 (List.mem_cons_self _ _)
      · exact hacc kb2 h1
  exact main base [] hb (by intro kb h; cases h)

theorem addVirtual_nonneg (months : List String) (now : Nat) (ec : AL Bucket)
    (r : VirtualResource) (hvr : 0 ≤ vHours r)
    (hec : ∀ kb ∈ ec, ∀ e ∈ kb.2.monthly_capacity, 0 ≤ e.2) :
    ∀ kb ∈ addVirtual months now ec r, ∀ e ∈ kb.2.monthly_capacity, 0 ≤ e.2 := by
  rw [addVirtual]
  cases hk : lookupAL ec (getBucketKey r.team r.role r.location) with
  | some b0 =>
    simp only []
    have main : ∀ (ms : List String) (acc : AL Bucket),
        (∀ kb ∈ acc, ∀ e ∈ kb.2.monthly_capacity, 0 ≤ e.2) →
        ∀ kb ∈ ms.foldl (addVirtualMonth (getBucketKey r.team r.role r.location) (vHours r)) acc,
          ∀ e ∈ kb.2.monthly_capacity, 0 ≤ e.2 := by
      intro ms
      induction ms with
      | nil => intro acc hacc kb hkb; exact hacc kb hkb
      | cons mo rest ih =>
        intro acc hacc kb hkb
        rw [List.foldl_cons] at hkb
        refine ih _ ?_ kb hkb
        intro kb2 hkb2 e he
        rcases mem_updateAL hkb2 with h1 | ⟨v, hv, hx⟩
        · exact hacc kb2 h1 e he
        · rw [hx] at he
          simp only [] at he
          rcases mem_setAL he with h2 | h2
          · rw [h2]
            have := lookup_getD_nonneg v.monthly_capacity mo (fun e2 he2 => hacc (kb2.1, v) hv e2 he2)
            simp only []
            omega
          · exact hacc (kb2.1, v) hv e h2
    exact main months ec hec
  | none =>
    simp only []
    intro kb hkb e he
    rcases mem_setAL hkb with h1 | h1
    · rw [h1] at he
      simp only [] at he
      rcases mem_setfold_const months [] he with h2 | h2
      · rw [h2]; exact hvr
      · cases h2
    · exact hec kb h1 e he

theorem effcap_nonneg (base : List Bucket) (vrs : List VirtualResource)
    (months : List String) (now : Nat)
    (hb : ∀ b ∈ base, ∀ e ∈ b.monthly_capacity, 0 ≤ e.2)
    (hv : ∀ r ∈ vrs, ∀ hh : Int, r.hoursPerMonth = some hh → 0 ≤ hh) :
    ∀ kb ∈ calculateEffectiveCapacity base vrs months now,
      ∀ e ∈ kb.2.monthly_capacity, 0 ≤ e.2 := by
  rw [calculateEffectiveCapacity]
  have main : ∀ (l : List VirtualResource) (acc : AL Bucket),
      (∀ r ∈ l, ∀ hh : Int, r.hoursPerMonth = some hh → 0 ≤ hh) →
      (∀ kb ∈ acc, ∀ e ∈ kb.2.monthly_capacity, 0 ≤ e.2) →
      ∀ kb ∈ l.foldl (addVirtual months now) acc, ∀ e ∈ kb.2.monthly_capacity, 0 ≤ e.2 := by
    intro l
    induction l with
    | nil => intro acc _ hacc kb h; exact hacc kb h
    | cons r rest ih =>
      intro acc hl hacc kb h
      rw [List.foldl_cons] at h
      refine ih _ (fun r2 hr2 => hl r2 (List.mem_cons_of_mem _ hr2)) ?_ kb h
      exact addVirtual_nonneg months now acc r
        (vHours_nonneg r (hl r (List.mem_cons_self _ _))) hacc
  exact main vrs _ hv (baseInit_nonneg base hb)

theorem shiftDemand_nonneg (months : List String) (sh : Int) (dem : AL Int)
    (h : ∀ e ∈ dem, 0 ≤ e.2) : ∀ e ∈ shiftDemand months sh dem, 0 ≤ e.2 := by
  rw [shiftDemand]
  have main : ∀ (d : AL Int) (acc : AL Int),
      (∀ e ∈ d, 0 ≤ e.2) → (∀ e ∈ acc, 0 ≤ e.2) →
      ∀ e ∈ d.foldl (shiftStep months sh) acc, 0 ≤ e.2 := by
    intro d
    induction d with
    | nil => intro acc _ hacc e he; exact hacc e he
    | cons e0 rest ih =>
      intro acc hd hacc e he
      rw [List.foldl_cons] at he
      refine ih _ (fun e2 he2 => hd e2 (List.mem_cons_of_mem _ he2)) ?_ e he
      intro e2 he2
      rw [shiftStep] at he2
      cases hidx : lookupAL (buildMonthIndex months) e0.1 with
      | none =>
        rw [hidx] at he2
        exact hacc e2 he2
      | some i =>
        rw [hidx] at he2
        simp only [] at he2
        by_cases hin : 0 ≤ (i : Int) + sh ∧ (i : Int) + sh < (months.length : Int)
        · rw [if_pos hin] at he2
          rcases mem_setAL he2 with h2 | h2
          · rw [h2]
            simp only []
            have h3 := lookup_getD_nonneg acc (months.getD ((i : Int) + sh).toNat "") hacc
            have h4 := hd e0 (List.mem_cons_self _ _)
            omega
          · exact hacc e2 h2
        · rw [if_neg hin] at he2
          exact hacc e2 he2
  exact main dem [] h (by intro e he; cases he)

theorem shiftProject_nonneg (ts : AL Int) (months : List String) (p : Project)
    (h : ∀ e ∈ p.monthly_demand, 0 ≤ e.2) :
    ∀ e ∈ (shiftProject ts months p).monthly_demand, 0 ≤ e.2 := by
  rw [shiftProject]
  cases hs : lookupAL ts p.id with
  | none => exact h
  | some sh =>
    simp only []
    by_cases h0 : sh = 0
    · rw [if_pos h0]
      exact h
    · rw [if_neg h0]
      exact shiftDemand_nonneg months sh p.monthly_demand h

theorem lookup_setAL_cases {α : Type} {l : AL α} {k : String} {v : α} {q : String} {p : α}
    (h : lookupAL (setAL l k v) q = some p) : p = v ∨ lookupAL l q = some p := by
  rw [lookup_setAL] at h
  by_cases hk : k = q
  · rw [if_pos hk] at h
    exact Or.inl (Option.some.inj h).symm
  · rw [if_neg hk] at h
    exact Or.inr h

theorem lookup_buildPM (ps : List Project) (q : String) (p : Project)
    (h : lookupAL (buildProjectMap ps) q = some p) : p ∈ ps := by
  rw [buildProjectMap] at h
  have main : ∀ (l : List Project) (acc : AL Project),
      lookupAL (l.foldl (fun m pr => setAL m pr.id pr) acc) q = some p →
      p ∈ l ∨ lookupAL acc q = some p := by
    intro l
    induction l with
    | nil => intro acc h2; exact Or.inr h2
    | cons p0 rest ih =>
      intro acc h2
      rw [List.foldl_cons] at h2
      rcases ih _ h2 with h3 | h3
      · exact Or.inl (List.mem_cons_of_mem _ h3)
      · rcases lookup_setAL_cases h3 with h4 | h4
        · exact Or.inl (h4 ▸ List.mem_cons_self _ _)
        · exact Or.inr h4
  rcases main ps [] h with h2 | h2
  · exact h2
  · cases h2

theorem pm_nonneg (projects : List Project) (ts : AL Int) (months : List String)
    (hd : ∀ p ∈ projects, ∀ e ∈ p.monthly_demand, 0 ≤ e.2) :
    ∀ q p, lookupAL (buildProjectMap (applyTimelineShifts projects ts months)) q = some p →
      ∀ e ∈ p.monthly_demand, 0 ≤ e.2 := by
  intro q p h
  have hmem := lookup_buildPM _ q p h
  rw [applyTimelineShifts] at hmem
  obtain ⟨p0, hp0, hpeq⟩ := List.mem_map.mp hmem
  rw [← hpeq]
  exact shiftProject_nonneg ts months p0 (hd p0 hp0)


/-! ## Final utilization pass -/

theorem finishUtilStep_consumed (ec : AL Bucket) (key : String) (u : BucketUtil)
    (mo : String) : (finishUtilStep ec key u mo).monthly_consumed = u.monthly_consumed := rfl

theorem finishUtilStep_remaining (ec : AL Bucket) (key : String) (u : BucketUtil)
    (mo : String) : (finishUtilStep ec key u mo).monthly_remaining = u.monthly_remaining := rfl

theorem finishUtil_consumed (ec : AL Bucket) (key : String) :
    ∀ (ms : List String) (u : BucketUtil),
      ((ms.foldl (finishUtilStep ec key) u)).monthly_consumed = u.monthly_consumed := by
  intro ms
  induction ms with
  | nil => intro u; rfl
  | cons mo rest ih =>
    intro u
    rw [List.foldl_cons, ih, finishUtilStep_consumed]

theorem finishUtil_remaining (ec : AL Bucket) (key : String) :
    ∀ (ms : List String) (u : BucketUtil),
      ((ms.foldl (finishUtilStep ec key) u)).monthly_remaining = u.monthly_remaining := by
  intro ms
  induction ms with
  | nil => intro u; rfl
  | cons mo rest ih =>
    intro u
    rw [List.foldl_cons, ih, finishUtilStep_remaining]

theorem finishUtil_util_stable (ec : AL Bucket) (key : String) (m : String) :
    ∀ (ms : List String) (u : BucketUtil), m ∉ ms →
      lookupAL ((ms.foldl (finishUtilStep ec key) u)).monthly_utilization m
        = lookupAL u.monthly_utilization m := by
  intro ms
  induction ms with
  | nil => intro u _; rfl
  | cons mo rest ih =>
    intro u hm
    rw [List.foldl_cons, ih _ (fun hx => hm (List.mem_cons_of_mem _ hx))]
    rw [finishUtilStep]
    simp only []
    have hne : ¬ mo = m := fun hx => hm (List.mem_cons.mpr (Or.inl hx.symm))
    rw [lookup_setAL, if_neg hne]

theorem finishUtil_util_lookup (ec : AL Bucket) (key : String) :
    ∀ (ms : List String) (u : BucketUtil) (m : String), m ∈ ms →
      lookupAL ((ms.foldl (finishUtilStep ec key) u)).monthly_utilization m
        = some (if 0 < capAt ec key m
            then jsRound100 ((lookupAL u.monthly_consumed m).getD 0) (capAt ec key m)
            else 0) := by
  intro ms
  induction ms with
  | nil => intro u m hm; cases hm
  | cons mo rest ih =>
    intro u m hm
    rw [List.foldl_cons]
    by_cases hmr : m ∈ rest
    · rw [ih _ m hmr, finishUtilStep_consumed]
    · have hmo : mo = m := by
        rcases List.mem_cons.mp hm with h1 | h1
        · exact h1.symm
        · exact absurd h1 hmr
      subst hmo
      rw [finishUtil_util_stable ec key mo rest _ hmr]
      rw [finishUtilStep]
      simp only []
      rw [lookup_setAL, if_pos rfl]

theorem lookup_map_finishUtil (ec : AL Bucket) (months : List String)
    (l : AL BucketUtil) (k : String) :
    lookupAL (l.map (fun kv => (kv.1, finishUtil ec months kv.1 kv.2))) k
      = (lookupAL l k).map (finishUtil ec months k) := by
  induction l with
  | nil => simp [lookupAL]
  | cons hd tl ih =>
    obtain ⟨k2, v2⟩ := hd
    by_cases h1 : k2 = k
    · subst h1; simp [lookupAL]
    · simp [lookupAL, h1, ih]

theorem bucketOK_allocFold (months : List String) (ec : AL Bucket) (pm : AL Project)
    (order : List String) (ms : List String) (st : AllocState)
    (hpm : ∀ q p, lookupAL pm q = some p → ∀ e ∈ p.monthly_demand, 0 ≤ e.2)
    (h : bucketOK months ec st) :
    bucketOK months ec (ms.foldl (allocMonth pm order) st) := by
  refine foldl_preserve (bucketOK months ec) _ ?_ ms st h
  intro a mo ha
  rw [allocMonth]
  exact foldl_preserve (bucketOK months ec) _
    (fun a2 pid ha2 => bucketOK_processOne months ec pm mo a2 pid hpm ha2) order a ha

/-- Claim C9: with nonnegative baseline capacities, virtual hours and
demands, every result bucket satisfies consumed + remaining = effective
capacity and consumed ≤ capacity for every listed month, so the reported
utilization percentage never exceeds 100. -/
theorem C9_utilization_invariant
    (base : List Bucket) (projects : List Project) (order : List String)
    (vrs : List VirtualResource) (ts : AL Int) (months : List String) (now : Nat)
    (hb : ∀ b ∈ base, ∀ e ∈ b.monthly_capacity, 0 ≤ e.2)
    (hv : ∀ r ∈ vrs, ∀ hh : Int, r.hoursPerMonth = some hh → 0 ≤ hh)
    (hdm : ∀ p ∈ projects, ∀ e ∈ p.monthly_demand, 0 ≤ e.2)
    (k m : String) (u : BucketUtil) (hm : m ∈ months)
    (hu : lookupAL
        (calculateScenario base projects order vrs ts months now).bucketUtilization k
          = some u) :
    (lookupAL u.monthly_consumed m).getD 0 + (lookupAL u.monthly_remaining m).getD 0
        = capAt (calculateEffectiveCapacity base vrs months now) k m
    ∧ (lookupAL u.monthly_consumed m).getD 0
        ≤ capAt (calculateEffectiveCapacity base vrs months now) k m
    ∧ (lookupAL u.monthly_utilization m).getD 0 ≤ 100 := by
  rw [scenario_bucketUtilization, lookup_map_finishUtil] at hu
  have hOK : bucketOK months (calculateEffectiveCapacity base vrs months now)
      (months.foldl
        (allocMonth (buildProjectMap (applyTimelineShifts projects ts months)) order)
        (initState (calculateEffectiveCapacity base vrs months now)
          (buildProjectMap (applyTimelineShifts projects ts months)) order months)) := by
    refine bucketOK_allocFold months _ _ order months _ (pm_nonneg projects ts months hdm) ?_
    exact bucketOK_init months _ _ order (effcap_nonneg base vrs months now hb hv)
  cases hx : lookupAL (months.foldl
      (allocMonth (buildProjectMap (applyTimelineShifts projects ts months)) order)
      (initState (calculateEffectiveCapacity base vrs months now)
        (buildProjectMap (applyTimelineShifts projects ts months)) order months)).butil k with
  | none => rw [hx] at hu; cases hu
  | some u0 =>
    rw [hx] at hu
    have hueq : u = finishUtil (calculateEffectiveCapacity base vrs months now) months k u0 :=
      (Option.some.inj hu).symm
    subst hueq
    obtain ⟨c, r, hc, hr, hsum, hc0, hr0, _⟩ := hOK.2 k u0 hx m hm
    have hcons : lookupAL (finishUtil (calculateEffectiveCapacity base vrs months now)
        months k u0).monthly_consumed m = some c := by
      rw [finishUtil, finishUtil_consumed]
      exact hc
    have hrem : lookupAL (finishUtil (calculateEffectiveCapacity base vrs months now)
        months k u0).monthly_remaining m = some r := by
      rw [finishUtil, finishUtil_remaining]
      exact hr
    refine ⟨?_, ?_, ?_⟩
    · rw [hcons, hrem]
      simpa using hsum
    · rw [hcons]
      simp only [Option.getD_some]
      omega
    · rw [finishUtil, finishUtil_util_lookup _ _ months u0 m hm]
      by_cases hcap : 0 < capAt (calculateEffectiveCapacity base vrs months now) k m
      · rw [if_pos hcap]
        simp only [Option.getD_some]
        refine jsRound100_le_100 _ _ ?_ hcap
        rw [hc]
        simp only [Option.getD_some]
        omega
      · rw [if_neg hcap]
        simp only [Option.getD_some]
        omega

/-- Witness for `C9_utilization_invariant` at the sample run: the single
bucket in Jan has consumed 100, remaining 0 and utilization 100. -/
theorem C9_witness :
    ((lookupAL sampleUtil.monthly_consumed "Jan").getD 0
        + (lookupAL sampleUtil.monthly_remaining "Jan").getD 0
      = capAt (calculateEffectiveCapacity [sampleBucket] [] ["Jan", "Feb"] 0)
          (getBucketKey "T" "R" "L") "Jan")
    ∧ (lookupAL sampleUtil.monthly_consumed "Jan").getD 0
        ≤ capAt (calculateEffectiveCapacity [sampleBucket] [] ["Jan", "Feb"] 0)
            (getBucketKey "T" "R" "L") "Jan"
    ∧ (lookupAL sampleUtil.monthly_utilization "Jan").getD 0 ≤ 100 :=
  C9_utilization_invariant [sampleBucket] [sampleP1, sampleP2] ["p1", "p2"] [] []
    ["Jan", "Feb"] 0 (by decide) (by decide) (by decide)
    (getBucketKey "T" "R" "L") "Jan" sampleUtil (by decide) (by decide)


/-! ## Month views (claim C3) -/

theorem monthViewEq_refl (m : String) (S : AllocState) : monthViewEq m S S :=
  ⟨fun _ => rfl, fun _ => rfl, fun _ => rfl, fun _ => rfl, fun _ => rfl, fun _ => rfl⟩

theorem monthViewEq_trans {m : String} {S T U : AllocState}
    (h1 : monthViewEq m S T) (h2 : monthViewEq m T U) : monthViewEq m S U :=
  ⟨fun k => (h1.1 k).trans (h2.1 k),
   fun k => (h1.2.1 k).trans (h2.2.1 k),
   fun q => (h1.2.2.1 q).trans (h2.2.2.1 q),
   fun q => (h1.2.2.2.1 q).trans (h2.2.2.2.1 q),
   fun k => (h1.2.2.2.2.1 k).trans (h2.2.2.2.2.1 k),
   fun k => (h1.2.2.2.2.2 k).trans (h2.2.2.2.2.2 k)⟩

theorem readRC_of_slice (rc : RCap) (k m : String) :
    readRC rc k m
      = (match sliceRC rc k m with
          | some (some (some v)) => v
          | _ => 0) := by
  rw [readRC, sliceRC]
  cases hk : lookupAL rc k with
  | none => rfl
  | some mm =>
    have hmap : Option.map (fun x => lookupAL x m) (some mm) = some (lookupAL mm m) := rfl
    rw [hmap]
    simp only []
    cases hm : lookupAL mm m with
    | none => rfl
    | some ov =>
      cases ov with
      | none => rfl
      | some v => rfl

theorem readRC_congr {rc1 rc2 : RCap} {k m : String}
    (h : sliceRC rc1 k m = sliceRC rc2 k m) : readRC rc1 k m = readRC rc2 k m := by
  rw [readRC_of_slice, readRC_of_slice, h]

theorem sliceRC_subRC_self (rc : RCap) (bk k m : String) (d : Int) :
    sliceRC (subRC rc bk m d) k m
      = if bk = k then
          (sliceRC rc k m).map (fun inner =>
            some (match inner with
              | some (some v) => some (v - d)
              | _ => none))
        else sliceRC rc k m := by
  by_cases hk : bk = k
  · subst hk
    rw [if_pos rfl, sliceRC, sliceRC, subRC, lookup_updateAL, if_pos rfl]
    cases hmb : lookupAL rc bk with
    | none => rfl
    | some mm =>
      simp only [Option.map]
      cases hmm : lookupAL mm m with
      | none => rw [lookup_setAL, if_pos rfl]
      | some ov =>
        cases ov with
        | none => rw [lookup_setAL, if_pos rfl]
        | some v => rw [lookup_setAL, if_pos rfl]
  · rw [if_neg hk, sliceRC, sliceRC, subRC, lookup_updateAL, if_neg hk]

theorem sliceRC_zeroRC_self (rc : RCap) (bk k m : String) :
    sliceRC (zeroRC rc bk m) k m
      = if bk = k then (sliceRC rc k m).map (fun _ => some (some 0))
        else sliceRC rc k m := by
  by_cases hk : bk = k
  · subst hk
    rw [if_pos rfl, sliceRC, sliceRC, zeroRC, lookup_updateAL, if_pos rfl]
    cases hmb : lookupAL rc bk with
    | none => rfl
    | some mm =>
      simp only [Option.map]
      rw [lookup_setAL, if_pos rfl]
  · rw [if_neg hk, sliceRC, sliceRC, zeroRC, lookup_updateAL, if_neg hk]

theorem sliceRC_subRC_ne (rc : RCap) (bk k mo m : String) (d : Int) (hne : mo ≠ m) :
    sliceRC (subRC rc bk mo d) k m = sliceRC rc k m := by
  by_cases hk : bk = k
  · subst hk
    rw [sliceRC, sliceRC, subRC, lookup_updateAL, if_pos rfl]
    cases hmb : lookupAL rc bk with
    | none => rfl
    | some mm =>
      simp only [Option.map]
      cases hmm : lookupAL mm mo with
      | none => rw [lookup_setAL, if_neg hne]
      | some ov =>
        cases ov with
        | none => rw [lookup_setAL, if_neg hne]
        | some v => rw [lookup_setAL, if_neg hne]
  · rw [sliceRC, sliceRC, subRC, lookup_updateAL, if_neg hk]

theorem sliceRC_zeroRC_ne (rc : RCap) (bk k mo m : String) (hne : mo ≠ m) :
    sliceRC (zeroRC rc bk mo) k m = sliceRC rc k m := by
  by_cases hk : bk = k
  · subst hk
    rw [sliceRC, sliceRC, zeroRC, lookup_updateAL, if_pos rfl]
    cases hmb : lookupAL rc bk with
    | none => rfl
    | some mm =>
      simp only [Option.map]
      rw [lookup_setAL, if_neg hne]
  · rw [sliceRC, sliceRC, zeroRC, lookup_updateAL, if_neg hk]

theorem msAt_setMS_self (S : AllocState) (pid : String) (m : String) (e : MonthEntry)
    (q : String) :
    msAt (setMS S pid m e).pstat q m
      = if pid = q then (lookupAL S.pstat q).map (fun _ => some e)
        else msAt S.pstat q m := by
  rw [msAt, setMS_pstat, lookup_updateAL]
  by_cases hq : pid = q
  · subst hq
    rw [if_pos rfl, if_pos rfl]
    cases lookupAL S.pstat pid with
    | none => rfl
    | some ps =>
      simp only [Option.map]
      rw [lookup_setAL, if_pos rfl]
  · rw [if_neg hq, if_neg hq, msAt]

theorem msAt_setMS_ne (S : AllocState) (pid : String) (mo m : String) (e : MonthEntry)
    (q : String) (hne : mo ≠ m) :
    msAt (setMS S pid mo e).pstat q m = msAt S.pstat q m := by
  rw [msAt, setMS_pstat, lookup_updateAL]
  by_cases hq : pid = q
  · subst hq
    rw [if_pos rfl, msAt]
    cases lookupAL S.pstat pid with
    | none => rfl
    | some ps =>
      simp only [Option.map]
      rw [lookup_setAL, if_neg hne]
  · rw [if_neg hq, msAt]

theorem msAt_addDeficit (S : AllocState) (pid : String) (d : Int) (q m : String) :
    msAt (addDeficit S pid d).pstat q m = msAt S.pstat q m := by
  rw [msAt, addDeficit_pstat, lookup_updateAL]
  by_cases hq : pid = q
  · subst hq
    rw [if_pos rfl, msAt]
    cases lookupAL S.pstat pid with
    | none => rfl
    | some ps => simp only [Option.map]
  · rw [if_neg hq, msAt]

theorem buAt_consumeFull_self (S : AllocState) (bk m : String) (d : Int) (k : String) :
    buAt (consumeFull S bk m d).butil k m
      = if bk = k then
          (buAt S.butil k m).map (fun pr => (pr.1.map (· + d), pr.2.map (· - d)))
        else buAt S.butil k m := by
  rw [buAt, consumeFull_butil, lookup_updateAL]
  by_cases hk : bk = k
  · subst hk
    rw [if_pos rfl, if_pos rfl, buAt]
    cases lookupAL S.butil bk with
    | none => rfl
    | some u =>
      simp only [Option.map]
      rw [lookup_updateAL, if_pos rfl, lookup_updateAL, if_pos rfl]
      cases lookupAL u.monthly_consumed m with
      | none =>
        cases lookupAL u.monthly_remaining m with
        | none => rfl
        | some r => rfl
      | some c =>
        cases lookupAL u.monthly_remaining m with
        | none => rfl
        | some r => rfl
  · rw [if_neg hk, if_neg hk, buAt]

theorem buAt_consumeFull_ne (S : AllocState) (bk mo m : String) (d : Int) (k : String)
    (hne : mo ≠ m) :
    buAt (consumeFull S bk mo d).butil k m = buAt S.butil k m := by
  rw [buAt, consumeFull_butil, lookup_updateAL]
  by_cases hk : bk = k
  · subst hk
    rw [if_pos rfl, buAt]
    cases lookupAL S.butil bk with
    | none => rfl
    | some u =>
      simp only [Option.map]
      rw [lookup_updateAL, if_neg hne, lookup_updateAL, if_neg hne]
  · rw [if_neg hk, buAt]

theorem buAt_consumePartial_self (S : AllocState) (bk m : String) (av : Int) (k : String) :
    buAt (consumePartial S bk m av).butil k m
      = if bk = k then
          (buAt S.butil k m).map (fun pr => (pr.1.map (· + av), some 0))
        else buAt S.butil k m := by
  rw [buAt, consumePartial_butil, lookup_updateAL]
  by_cases hk : bk = k
  · subst hk
    rw [if_pos rfl, if_pos rfl, buAt]
    cases lookupAL S.butil bk with
    | none => rfl
    | some u =>
      simp only [Option.map]
      rw [lookup_updateAL, if_pos rfl, lookup_setAL, if_pos rfl]
      cases lookupAL u.monthly_consumed m with
      | none => rfl
      | some c => rfl
  · rw [if_neg hk, if_neg hk, buAt]

theorem buAt_consumePartial_ne (S : AllocState) (bk mo m : String) (av : Int) (k : String)
    (hne : mo ≠ m) :
    buAt (consumePartial S bk mo av).butil k m = buAt S.butil k m := by
  rw [buAt, consumePartial_butil, lookup_updateAL]
  by_cases hk : bk = k
  · subst hk
    rw [if_pos rfl, buAt]
    cases lookupAL S.butil bk with
    | none => rfl
    | some u =>
      simp only [Option.map]
      rw [lookup_updateAL, if_neg hne, lookup_setAL, if_neg hne]
  · rw [if_neg hk, buAt]

theorem map_const_congr {α β : Type} {x y : Option α} (c : β)
    (h : x.isSome = y.isSome) : x.map (fun _ => c) = y.map (fun _ => c) := by
  cases x <;> cases y <;> simp at h ⊢


theorem viewEq_setMS_same {m : String} {S T : AllocState} (h : monthViewEq m S T)
    (pid : String) (e : MonthEntry) :
    monthViewEq m (setMS S pid m e) (setMS T pid m e) := by
  obtain ⟨h1, h2, h3, h4, h5, h6⟩ := h
  refine ⟨h1, h2, ?_, ?_, h5, h6⟩
  · intro q
    rw [setMS_pstat, setMS_pstat, lookup_updateAL_isSome, lookup_updateAL_isSome]
    exact h3 q
  · intro q
    rw [msAt_setMS_self, msAt_setMS_self]
    by_cases hq : pid = q
    · rw [if_pos hq, if_pos hq]
      exact map_const_congr _ (h3 q)
    · rw [if_neg hq, if_neg hq]
      exact h4 q

theorem viewEq_addDeficit_same {m : String} {S T : AllocState} (h : monthViewEq m S T)
    (pid : String) (d : Int) :
    monthViewEq m (addDeficit S pid d) (addDeficit T pid d) := by
  obtain ⟨h1, h2, h3, h4, h5, h6⟩ := h
  refine ⟨h1, h2, ?_, ?_, h5, h6⟩
  · intro q
    rw [addDeficit_pstat, addDeficit_pstat, lookup_updateAL_isSome, lookup_updateAL_isSome]
    exact h3 q
  · intro q
    rw [msAt_addDeficit, msAt_addDeficit]
    exact h4 q

theorem viewEq_rcSub_same {m : String} {S T : AllocState} (h : monthViewEq m S T)
    (bk : String) (d : Int) :
    monthViewEq m { S with rc := subRC S.rc bk m d } { T with rc := subRC T.rc bk m d } := by
  obtain ⟨h1, h2, h3, h4, h5, h6⟩ := h
  refine ⟨?_, ?_, h3, h4, h5, h6⟩
  · intro k
    rw [subRC_isSome, subRC_isSome]
    exact h1 k
  · intro k
    rw [sliceRC_subRC_self, sliceRC_subRC_self]
    by_cases hbk : bk = k
    · rw [if_pos hbk, if_pos hbk]
      exact congrArg _ (h2 k)
    · rw [if_neg hbk, if_neg hbk]
      exact h2 k

theorem viewEq_rcZero_same {m : String} {S T : AllocState} (h : monthViewEq m S T)
    (bk : String) :
    monthViewEq m { S with rc := zeroRC S.rc bk m } { T with rc := zeroRC T.rc bk m } := by
  obtain ⟨h1, h2, h3, h4, h5, h6⟩ := h
  refine ⟨?_, ?_, h3, h4, h5, h6⟩
  · intro k
    rw [zeroRC_isSome, zeroRC_isSome]
    exact h1 k
  · intro k
    rw [sliceRC_zeroRC_self, sliceRC_zeroRC_self]
    by_cases hbk : bk = k
    · rw [if_pos hbk, if_pos hbk]
      exact congrArg _ (h2 k)
    · rw [if_neg hbk, if_neg hbk]
      exact h2 k

theorem viewEq_consumeFull_same {m : String} {S T : AllocState} (h : monthViewEq m S T)
    (bk : String) (d : Int) :
    monthViewEq m (consumeFull S bk m d) (consumeFull T bk m d) := by
  obtain ⟨h1, h2, h3, h4, h5, h6⟩ := h
  refine ⟨h1, h2, h3, h4, ?_, ?_⟩
  · intro k
    rw [consumeFull_butil, consumeFull_butil, lookup_updateAL_isSome, lookup_updateAL_isSome]
    exact h5 k
  · intro k
    rw [buAt_consumeFull_self, buAt_consumeFull_self]
    by_cases hbk : bk = k
    · rw [if_pos hbk, if_pos hbk]
      exact congrArg _ (h6 k)
    · rw [if_neg hbk, if_neg hbk]
      exact h6 k

theorem viewEq_consumePartial_same {m : String} {S T : AllocState} (h : monthViewEq m S T)
    (bk : String) (av : Int) :
    monthViewEq m (consumePartial S bk m av) (consumePartial T bk m av) := by
  obtain ⟨h1, h2, h3, h4, h5, h6⟩ := h
  refine ⟨h1, h2, h3, h4, ?_, ?_⟩
  · intro k
    rw [consumePartial_butil, consumePartial_butil, lookup_updateAL_isSome,
      lookup_updateAL_isSome]
    exact h5 k
  · intro k
    rw [buAt_consumePartial_self, buAt_consumePartial_self]
    by_cases hbk : bk = k
    · rw [if_pos hbk, if_pos hbk]
      exact congrArg _ (h6 k)
    · rw [if_neg hbk, if_neg hbk]
      exact h6 k

theorem viewEq_setMS_ne {mo m : String} (hne : mo ≠ m) (S : AllocState)
    (pid : String) (e : MonthEntry) :
    monthViewEq m (setMS S pid mo e) S := by
  refine ⟨fun _ => rfl, fun _ => rfl, ?_, ?_, fun _ => rfl, fun _ => rfl⟩
  · intro q
    rw [setMS_pstat, lookup_updateAL_isSome]
  · intro q
    exact msAt_setMS_ne S pid mo m e q hne

theorem viewEq_addDeficit_drop (m : String) (S : AllocState) (pid : String) (d : Int) :
    monthViewEq m (addDeficit S pid d) S := by
  refine ⟨fun _ => rfl, fun _ => rfl, ?_, ?_, fun _ => rfl, fun _ => rfl⟩
  · intro q
    rw [addDeficit_pstat, lookup_updateAL_isSome]
  · intro q
    exact msAt_addDeficit S pid d q m

theorem viewEq_rcSub_ne {mo m : String} (hne : mo ≠ m) (S : AllocState)
    (bk : String) (d : Int) :
    monthViewEq m { S with rc := subRC S.rc bk mo d } S := by
  refine ⟨?_, ?_, fun _ => rfl, fun _ => rfl, fun _ => rfl, fun _ => rfl⟩
  · intro k
    rw [subRC_isSome]
  · intro k
    exact sliceRC_subRC_ne S.rc bk k mo m d hne

theorem viewEq_rcZero_ne {mo m : String} (hne : mo ≠ m) (S : AllocState)
    (bk : String) :
    monthViewEq m { S with rc := zeroRC S.rc bk mo } S := by
  refine ⟨?_, ?_, fun _ => rfl, fun _ => rfl, fun _ => rfl, fun _ => rfl⟩
  · intro k
    rw [zeroRC_isSome]
  · intro k
    exact sliceRC_zeroRC_ne S.rc bk k mo m hne

theorem viewEq_consumeFull_ne {mo m : String} (hne : mo ≠ m) (S : AllocState)
    (bk : String) (d : Int) :
    monthViewEq m (consumeFull S bk mo d) S := by
  refine ⟨fun _ => rfl, fun _ => rfl, fun _ => rfl, fun _ => rfl, ?_, ?_⟩
  · intro k
    rw [consumeFull_butil, lookup_updateAL_isSome]
  · intro k
    exact buAt_consumeFull_ne S bk mo m d k hne

theorem viewEq_consumePartial_ne {mo m : String} (hne : mo ≠ m) (S : AllocState)
    (bk : String) (av : Int) :
    monthViewEq m (consumePartial S bk mo av) S := by
  refine ⟨fun _ => rfl, fun _ => rfl, fun _ => rfl, fun _ => rfl, ?_, ?_⟩
  · intro k
    rw [consumePartial_butil, lookup_updateAL_isSome]
  · intro k
    exact buAt_consumePartial_ne S bk mo m av k hne


theorem viewEq_processOne_same {m : String} {S T : AllocState}
    (h : monthViewEq m S T) (pm : AL Project) (pid : String) :
    monthViewEq m (processOne pm m S pid) (processOne pm m T pid) := by
  rw [processOne, processOne]
  cases hp : lookupAL pm pid with
  | none => exact h
  | some project =>
    simp only []
    have hav : readRC S.rc (getBucketKey project.team project.role project.location) m
        = readRC T.rc (getBucketKey project.team project.role project.location) m :=
      readRC_congr (h.2.1 _)
    rw [hav]
    by_cases hd : (lookupAL project.monthly_demand m).getD 0 = 0
    · rw [if_pos hd, if_pos hd]
      exact viewEq_setMS_same h pid _
    · rw [if_neg hd, if_neg hd]
      by_cases hge : readRC T.rc (getBucketKey project.team project.role project.location) m
          ≥ (lookupAL project.monthly_demand m).getD 0
      · rw [if_pos hge, if_pos hge]
        exact viewEq_consumeFull_same (viewEq_rcSub_same (viewEq_setMS_same h pid _) _ _) _ _
      · rw [if_neg hge, if_neg hge]
        by_cases hgt : readRC T.rc (getBucketKey project.team project.role project.location) m > 0
        · rw [if_pos hgt, if_pos hgt]
          exact viewEq_consumePartial_same
            (viewEq_addDeficit_same (viewEq_rcZero_same (viewEq_setMS_same h pid _) _) pid _) _ _
        · rw [if_neg hgt, if_neg hgt]
          exact viewEq_addDeficit_same (viewEq_setMS_same h pid _) pid _

theorem viewEq_processOne_ne {mo m : String} (hne : mo ≠ m) (pm : AL Project)
    (S : AllocState) (pid : String) :
    monthViewEq m (processOne pm mo S pid) S := by
  rw [processOne]
  cases hp : lookupAL pm pid with
  | none => exact monthViewEq_refl m S
  | some project =>
    simp only []
    by_cases hd : (lookupAL project.monthly_demand mo).getD 0 = 0
    · rw [if_pos hd]
      exact viewEq_setMS_ne hne S pid _
    · rw [if_neg hd]
      by_cases hge : readRC S.rc (getBucketKey project.team project.role project.location) mo
          ≥ (lookupAL project.monthly_demand mo).getD 0
      · rw [if_pos hge]
        exact monthViewEq_trans (viewEq_consumeFull_ne hne _ _ _)
          (monthViewEq_trans (viewEq_rcSub_ne hne _ _ _) (viewEq_setMS_ne hne S pid _))
      · rw [if_neg hge]
        by_cases hgt : readRC S.rc (getBucketKey project.team project.role project.location) mo > 0
        · rw [if_pos hgt]
          exact monthViewEq_trans (viewEq_consumePartial_ne hne _ _ _)
            (monthViewEq_trans (viewEq_addDeficit_drop m _ pid _)
              (monthViewEq_trans (viewEq_rcZero_ne hne _ _) (viewEq_setMS_ne hne S pid _)))
        · rw [if_neg hgt]
          exact monthViewEq_trans (viewEq_addDeficit_drop m _ pid _)
            (viewEq_setMS_ne hne S pid _)

theorem viewEq_allocMonth_same {m : String} (pm : AL Project) (order : List String) :
    ∀ (S T : AllocState), monthViewEq m S T →
      monthViewEq m (allocMonth pm order S m) (allocMonth pm order T m) := by
  have hfold : ∀ (l : List String) (S T : AllocState), monthViewEq m S T →
      monthViewEq m (l.foldl (processOne pm m) S) (l.foldl (processOne pm m) T) := by
    intro l
    induction l with
    | nil => intro S T h; exact h
    | cons pid rest ih =>
      intro S T h
      rw [List.foldl_cons, List.foldl_cons]
      exact ih _ _ (viewEq_processOne_same h pm pid)
  intro S T h
  rw [allocMonth, allocMonth]
  exact hfold order S T h

theorem viewEq_allocMonth_ne {mo m : String} (hne : mo ≠ m) (pm : AL Project)
    (order : List String) :
    ∀ S : AllocState, monthViewEq m (allocMonth pm order S mo) S := by
  have hfold : ∀ (l : List String) (S : AllocState),
      monthViewEq m (l.foldl (processOne pm mo) S) S := by
    intro l
    induction l with
    | nil => intro S; exact monthViewEq_refl m S
    | cons pid rest ih =>
      intro S
      rw [List.foldl_cons]
      exact monthViewEq_trans (ih (processOne pm mo S pid)) (viewEq_processOne_ne hne pm S pid)
  intro S
  rw [allocMonth]
  exact hfold order S

theorem viewEq_months_ne {m : String} (pm : AL Project) (order : List String) :
    ∀ (ms : List String), (∀ mo ∈ ms, mo ≠ m) → ∀ S : AllocState,
      monthViewEq m (ms.foldl (allocMonth pm order) S) S := by
  intro ms
  induction ms with
  | nil => intro _ S; exact monthViewEq_refl m S
  | cons mo rest ih =>
    intro hall S
    rw [List.foldl_cons]
    exact monthViewEq_trans
      (ih (fun x hx => hall x (List.mem_cons_of_mem mo hx)) (allocMonth pm order S mo))
      (viewEq_allocMonth_ne (hall mo (List.mem_cons_self mo rest)) pm order S)


theorem monthSlice_foldl (pm : AL Project) (order : List String) (st0 : AllocState)
    (pre post : List String) (m : String)
    (hpre : ∀ mo ∈ pre, mo ≠ m) (hpost : ∀ mo ∈ post, mo ≠ m) :
    monthViewEq m ((pre ++ m :: post).foldl (allocMonth pm order) st0)
      (allocMonth pm order st0 m) := by
  rw [List.foldl_append, List.foldl_cons]
  exact monthViewEq_trans (viewEq_months_ne pm order post hpost _)
    (viewEq_allocMonth_same pm order _ _ (viewEq_months_ne pm order pre hpre st0))

theorem msAt_summarized (pstat : AL ProjStatus) (pid m : String) :
    (lookupAL (pstat.map (fun kv => (kv.1, summarize kv.2))) pid).map
        (fun ps => lookupAL ps.monthlyStatus m)
      = msAt pstat pid m := by
  rw [lookup_mapVal _ (fun x ps => summarize ps) pid, msAt]
  cases lookupAL pstat pid with
  | none => rfl
  | some ps => rfl

theorem buAt_finished (ec : AL Bucket) (ms : List String) (butil : AL BucketUtil)
    (k m : String) :
    (lookupAL (butil.map (fun kv => (kv.1, finishUtil ec ms kv.1 kv.2))) k).map
        (fun u => (lookupAL u.monthly_consumed m, lookupAL u.monthly_remaining m))
      = buAt butil k m := by
  rw [lookup_mapVal _ (fun x u => finishUtil ec ms x u) k, buAt]
  cases lookupAL butil k with
  | none => rfl
  | some u =>
    simp only [Option.map]
    rw [finishUtil, finishUtil_consumed, finishUtil_remaining]

/-- C3: no cross-month banking. With distinct month labels, the monthly
status every project carries for a month `m` of the run, and every
bucket's consumed/remaining hours for `m`, are exactly what a run of
month `m`'s allocation pass alone from the freshly initialized state
produces: processing the other months (in particular, how much of their
capacity went unused) has no effect on month `m`'s outputs, because each
month's remaining capacity starts from that month's effective capacity. -/
theorem C3_no_cross_month_banking (base : List Bucket) (projects : List Project)
    (order : List String) (vrs : List VirtualResource) (ts : AL Int)
    (months : List String) (now : Nat) (m : String)
    (hnd : months.Nodup) (hm : m ∈ months) :
    (∀ pid,
      (lookupAL (calculateScenario base projects order vrs ts months now).projectStatus pid).map
          (fun ps => lookupAL ps.monthlyStatus m)
        = msAt (allocMonth (buildProjectMap (applyTimelineShifts projects ts months)) order
            (initState (calculateEffectiveCapacity base vrs months now)
              (buildProjectMap (applyTimelineShifts projects ts months)) order months) m).pstat
            pid m)
    ∧ (∀ k,
      (lookupAL (calculateScenario base projects order vrs ts months now).bucketUtilization k).map
          (fun u => (lookupAL u.monthly_consumed m, lookupAL u.monthly_remaining m))
        = buAt (allocMonth (buildProjectMap (applyTimelineShifts projects ts months)) order
            (initState (calculateEffectiveCapacity base vrs months now)
              (buildProjectMap (applyTimelineShifts projects ts months)) order months) m).butil
            k m) := by
  obtain ⟨pre, post, rfl⟩ := List.append_of_mem hm
  rw [List.nodup_append] at hnd
  obtain ⟨-, hnd2, hdisj⟩ := hnd
  rw [List.nodup_cons] at hnd2
  obtain ⟨hmpost, -⟩ := hnd2
  have hpre : ∀ mo ∈ pre, mo ≠ m := by
    intro mo hmo heq
    exact hdisj hmo (by rw [heq]; exact List.mem_cons_self m post)
  have hpost : ∀ mo ∈ post, mo ≠ m := by
    intro mo hmo heq
    exact hmpost (heq ▸ hmo)
  have hF := monthSlice_foldl
    (buildProjectMap (applyTimelineShifts projects ts (pre ++ m :: post))) order
    (initState (calculateEffectiveCapacity base vrs (pre ++ m :: post) now)
      (buildProjectMap (applyTimelineShifts projects ts (pre ++ m :: post))) order
      (pre ++ m :: post))
    pre post m hpre hpost
  constructor
  · intro pid
    rw [scenario_projectStatus, msAt_summarized]
    exact hF.2.2.2.1 pid
  · intro k
    rw [scenario_bucketUtilization, buAt_finished]
    exact hF.2.2.2.2.2 k

/-- Witness for `C3_no_cross_month_banking` at the sample run, month Feb,
project p2: its Feb status in the full two-month run equals the one from
running Feb's allocation alone from the initial state. -/
theorem C3_witness :
    (lookupAL (calculateScenario [sampleBucket] [sampleP1, sampleP2] ["p1", "p2"] [] []
        ["Jan", "Feb"] 0).projectStatus "p2").map
        (fun ps => lookupAL ps.monthlyStatus "Feb")
      = msAt (allocMonth
          (buildProjectMap (applyTimelineShifts [sampleP1, sampleP2] [] ["Jan", "Feb"]))
          ["p1", "p2"]
          (initState (calculateEffectiveCapacity [sampleBucket] [] ["Jan", "Feb"] 0)
            (buildProjectMap (applyTimelineShifts [sampleP1, sampleP2] [] ["Jan", "Feb"]))
            ["p1", "p2"] ["Jan", "Feb"]) "Feb").pstat "p2" "Feb" :=
  (C3_no_cross_month_banking [sampleBucket] [sampleP1, sampleP2] ["p1", "p2"] [] []
    ["Jan", "Feb"] 0 "Feb" (by decide) (by decide)).1 "p2"


/-! ## Remaining-capacity evolution (claim C4) -/

theorem gInt_zero (a : Int) : gInt 0 a = a := by
  rw [gInt]
  by_cases h : a ≥ 0
  · rw [if_pos h]
    omega
  · rw [if_neg h, if_neg (by omega : ¬ a > 0)]

theorem gInt_comm (d1 d2 a : Int) (h1 : 0 ≤ d1) (h2 : 0 ≤ d2) :
    gInt d1 (gInt d2 a) = gInt d2 (gInt d1 a) := by
  simp only [gInt]
  split_ifs <;> omega

theorem cellF_zero (c : Option (Option Int)) : cellF 0 c = c := by
  cases c with
  | none => rfl
  | some oc =>
    cases oc with
    | none => rfl
    | some a =>
      rw [cellF, gInt_zero]

theorem cellF_comm (d1 d2 : Int) (h1 : 0 ≤ d1) (h2 : 0 ≤ d2)
    (c : Option (Option Int)) : cellF d1 (cellF d2 c) = cellF d2 (cellF d1 c) := by
  cases c with
  | none => rfl
  | some oc =>
    cases oc with
    | none => rfl
    | some a =>
      rw [cellF, cellF, cellF, cellF, gInt_comm d1 d2 a h1 h2]

theorem map_cellF_zero (sl : Option (Option (Option Int))) : sl.map (cellF 0) = sl := by
  cases sl with
  | none => rfl
  | some c =>
    rw [Option.map]
    rw [cellF_zero]

theorem rcEquiv_refl (rc : RCap) : rcEquiv rc rc := fun _ _ => rfl

theorem rcEquiv_symm {rc1 rc2 : RCap} (h : rcEquiv rc1 rc2) : rcEquiv rc2 rc1 :=
  fun k mo => (h k mo).symm

theorem rcEquiv_trans {rc1 rc2 rc3 : RCap} (h1 : rcEquiv rc1 rc2)
    (h2 : rcEquiv rc2 rc3) : rcEquiv rc1 rc3 :=
  fun k mo => (h1 k mo).trans (h2 k mo)

theorem processOne_rc (pm : AL Project) (m : String) (st : AllocState) (pid : String) :
    (processOne pm m st pid).rc = rcStep pm m st.rc pid := by
  rw [processOne, rcStep]
  cases hp : lookupAL pm pid with
  | none => rfl
  | some project =>
    simp only []
    by_cases hd : (lookupAL project.monthly_demand m).getD 0 = 0
    · rw [if_pos hd, if_pos hd]
      rfl
    · rw [if_neg hd, if_neg hd]
      by_cases hge : readRC st.rc (getBucketKey project.team project.role project.location) m
          ≥ (lookupAL project.monthly_demand m).getD 0
      · rw [if_pos hge, if_pos hge]
        rfl
      · rw [if_neg hge, if_neg hge]
        by_cases hgt : readRC st.rc (getBucketKey project.team project.role project.location) m > 0
        · rw [if_pos hgt, if_pos hgt]
          rfl
        · rw [if_neg hgt, if_neg hgt]
          rfl

theorem procFold_rc (pm : AL Project) (m : String) :
    ∀ (l : List String) (st : AllocState),
      (l.foldl (processOne pm m) st).rc = l.foldl (rcStep pm m) st.rc := by
  intro l
  induction l with
  | nil => intro st; rfl
  | cons pid rest ih =>
    intro st
    rw [List.foldl_cons, List.foldl_cons, ih, processOne_rc]

theorem allocMonth_rc (pm : AL Project) (order : List String) (st : AllocState)
    (m : String) : (allocMonth pm order st m).rc = order.foldl (rcStep pm m) st.rc := by
  rw [allocMonth, procFold_rc]


theorem sliceRC_rcStep (pm : AL Project) (m : String) (rc : RCap) (pid : String)
    (project : Project) (hp : lookupAL pm pid = some project)
    (hd : 0 ≤ (lookupAL project.monthly_demand m).getD 0) (k mo : String) :
    sliceRC (rcStep pm m rc pid) k mo
      = if getBucketKey project.team project.role project.location = k ∧ mo = m
          then (sliceRC rc k mo).map (cellF ((lookupAL project.monthly_demand m).getD 0))
          else sliceRC rc k mo := by
  rw [rcStep, hp]
  simp only []
  by_cases hd0 : (lookupAL project.monthly_demand m).getD 0 = 0
  · rw [if_pos hd0]
    by_cases hc : getBucketKey project.team project.role project.location = k ∧ mo = m
    · rw [if_pos hc, hd0, map_cellF_zero]
    · rw [if_neg hc]
  · rw [if_neg hd0]
    by_cases hge : readRC rc (getBucketKey project.team project.role project.location) m
        ≥ (lookupAL project.monthly_demand m).getD 0
    · rw [if_pos hge]
      by_cases hc : getBucketKey project.team project.role project.location = k ∧ mo = m
      · obtain ⟨hbk, hmo⟩ := hc
        subst hmo
        subst hbk
        rw [if_pos ⟨rfl, rfl⟩, sliceRC_subRC_self, if_pos rfl]
        have hread := readRC_of_slice rc (getBucketKey project.team project.role project.location) mo
        cases hsl : sliceRC rc (getBucketKey project.team project.role project.location) mo with
        | none => rfl
        | some inner =>
          rw [hsl] at hread
          cases inner with
          | none =>
            exfalso
            have h0 : readRC rc (getBucketKey project.team project.role project.location) mo = 0 := by
              rw [hread]
            rw [h0] at hge
            omega
          | some oc =>
            cases oc with
            | none =>
              exfalso
              have h0 : readRC rc (getBucketKey project.team project.role project.location) mo = 0 := by
                rw [hread]
              rw [h0] at hge
              omega
            | some a =>
              have ha : readRC rc (getBucketKey project.team project.role project.location) mo = a := by
                rw [hread]
              rw [ha] at hge
              simp only [Option.map, cellF, gInt]
              rw [if_pos hge]
      · rw [if_neg hc]
        by_cases hmo : mo = m
        · subst hmo
          have hbk : ¬ getBucketKey project.team project.role project.location = k :=
            fun h => hc ⟨h, rfl⟩
          rw [sliceRC_subRC_self, if_neg hbk]
        · rw [sliceRC_subRC_ne _ _ _ _ _ _ (fun h => hmo h.symm)]
    · rw [if_neg hge]
      by_cases hgt : readRC rc (getBucketKey project.team project.role project.location) m > 0
      · rw [if_pos hgt]
        by_cases hc : getBucketKey project.team project.role project.location = k ∧ mo = m
        · obtain ⟨hbk, hmo⟩ := hc
          subst hmo
          subst hbk
          rw [if_pos ⟨rfl, rfl⟩, sliceRC_zeroRC_self, if_pos rfl]
          have hread := readRC_of_slice rc (getBucketKey project.team project.role project.location) mo
          cases hsl : sliceRC rc (getBucketKey project.team project.role project.location) mo with
          | none => rfl
          | some inner =>
            rw [hsl] at hread
            cases inner with
            | none =>
              exfalso
              have h0 : readRC rc (getBucketKey project.team project.role project.location) mo = 0 := by
                rw [hread]
              rw [h0] at hgt
              omega
            | some oc =>
              cases oc with
              | none =>
                exfalso
                have h0 : readRC rc (getBucketKey project.team project.role project.location) mo = 0 := by
                  rw [hread]
                rw [h0] at hgt
                omega
              | some a =>
                have ha : readRC rc (getBucketKey project.team project.role project.location) mo = a := by
                  rw [hread]
                rw [ha] at hge
                rw [ha] at hgt
                simp only [Option.map, cellF, gInt]
                rw [if_neg hge, if_pos hgt]
        · rw [if_neg hc]
          by_cases hmo : mo = m
          · subst hmo
            have hbk : ¬ getBucketKey project.team project.role project.location = k :=
              fun h => hc ⟨h, rfl⟩
            rw [sliceRC_zeroRC_self, if_neg hbk]
          · rw [sliceRC_zeroRC_ne _ _ _ _ _ (fun h => hmo h.symm)]
      · rw [if_neg hgt]
        by_cases hc : getBucketKey project.team project.role project.location = k ∧ mo = m
        · obtain ⟨hbk, hmo⟩ := hc
          subst hmo
          subst hbk
          rw [if_pos ⟨rfl, rfl⟩]
          have hread := readRC_of_slice rc (getBucketKey project.team project.role project.location) mo
          cases hsl : sliceRC rc (getBucketKey project.team project.role project.location) mo with
          | none => rfl
          | some inner =>
            rw [hsl] at hread
            cases inner with
            | none => rfl
            | some oc =>
              cases oc with
              | none => rfl
              | some a =>
                have ha : readRC rc (getBucketKey project.team project.role project.location) mo = a := by
                  rw [hread]
                rw [ha] at hge
                rw [ha] at hgt
                simp only [Option.map, cellF, gInt]
                rw [if_neg hge, if_neg hgt]
        · rw [if_neg hc]

theorem rcStep_skip (pm : AL Project) (m : String) (rc : RCap) (pid : String)
    (hp : lookupAL pm pid = none) : rcStep pm m rc pid = rc := by
  rw [rcStep, hp]


theorem rcStep_congr (pm : AL Project) (m : String)
    (hpm : ∀ q p, lookupAL pm q = some p → ∀ e ∈ p.monthly_demand, 0 ≤ e.2)
    {rc1 rc2 : RCap} (h : rcEquiv rc1 rc2) (pid : String) :
    rcEquiv (rcStep pm m rc1 pid) (rcStep pm m rc2 pid) := by
  intro k mo
  cases hp : lookupAL pm pid with
  | none =>
    rw [rcStep_skip pm m rc1 pid hp, rcStep_skip pm m rc2 pid hp]
    exact h k mo
  | some project =>
    have hd : 0 ≤ (lookupAL project.monthly_demand m).getD 0 :=
      lookup_getD_nonneg _ _ (hpm pid project hp)
    rw [sliceRC_rcStep pm m rc1 pid project hp hd k mo,
      sliceRC_rcStep pm m rc2 pid project hp hd k mo]
    by_cases hc : getBucketKey project.team project.role project.location = k ∧ mo = m
    · rw [if_pos hc, if_pos hc, h k mo]
    · rw [if_neg hc, if_neg hc]
      exact h k mo

theorem rcStep_comm (pm : AL Project) (m : String)
    (hpm : ∀ q p, lookupAL pm q = some p → ∀ e ∈ p.monthly_demand, 0 ≤ e.2)
    (rc : RCap) (p q : String) :
    rcEquiv (rcStep pm m (rcStep pm m rc p) q) (rcStep pm m (rcStep pm m rc q) p) := by
  intro k mo
  cases hp : lookupAL pm p with
  | none =>
    rw [rcStep_skip pm m rc p hp, rcStep_skip pm m (rcStep pm m rc q) p hp]
  | some projP =>
    cases hq : lookupAL pm q with
    | none =>
      rw [rcStep_skip pm m (rcStep pm m rc p) q hq, rcStep_skip pm m rc q hq]
    | some projQ =>
      have hdp : 0 ≤ (lookupAL projP.monthly_demand m).getD 0 :=
        lookup_getD_nonneg _ _ (hpm p projP hp)
      have hdq : 0 ≤ (lookupAL projQ.monthly_demand m).getD 0 :=
        lookup_getD_nonneg _ _ (hpm q projQ hq)
      rw [sliceRC_rcStep pm m (rcStep pm m rc p) q projQ hq hdq k mo,
        sliceRC_rcStep pm m rc p projP hp hdp k mo,
        sliceRC_rcStep pm m (rcStep pm m rc q) p projP hp hdp k mo,
        sliceRC_rcStep pm m rc q projQ hq hdq k mo]
      by_cases hcp : getBucketKey projP.team projP.role projP.location = k ∧ mo = m
      · by_cases hcq : getBucketKey projQ.team projQ.role projQ.location = k ∧ mo = m
        · simp only [if_pos hcp, if_pos hcq, Option.map_map]
          exact congrArg (fun g => Option.map g (sliceRC rc k mo))
            (funext fun c => cellF_comm _ _ hdq hdp c)
        · simp only [if_pos hcp, if_neg hcq]
      · by_cases hcq : getBucketKey projQ.team projQ.role projQ.location = k ∧ mo = m
        · simp only [if_neg hcp, if_pos hcq]
        · simp only [if_neg hcp, if_neg hcq]

theorem gInt_le (d a : Int) (hd : 0 ≤ d) : gInt d a ≤ a := by
  rw [gInt]
  split_ifs <;> omega

theorem readRC_rcStep_le (pm : AL Project) (m : String)
    (hpm : ∀ q p, lookupAL pm q = some p → ∀ e ∈ p.monthly_demand, 0 ≤ e.2)
    (rc : RCap) (pid : String) (k : String) :
    readRC (rcStep pm m rc pid) k m ≤ readRC rc k m := by
  cases hp : lookupAL pm pid with
  | none =>
    rw [rcStep_skip pm m rc pid hp]
  | some project =>
    have hd : 0 ≤ (lookupAL project.monthly_demand m).getD 0 :=
      lookup_getD_nonneg _ _ (hpm pid project hp)
    rw [readRC_of_slice, readRC_of_slice, sliceRC_rcStep pm m rc pid project hp hd k m]
    by_cases hbk : getBucketKey project.team project.role project.location = k
    · rw [if_pos ⟨hbk, rfl⟩]
      cases sliceRC rc k m with
      | none => exact le_refl _
      | some inner =>
        cases inner with
        | none => exact le_refl _
        | some oc =>
          cases oc with
          | none => exact le_refl _
          | some a =>
            show gInt ((lookupAL project.monthly_demand m).getD 0) a ≤ a
            exact gInt_le _ a hd
    · rw [if_neg (fun hh => hbk hh.1)]

theorem rcEquiv_fold (pm : AL Project) (m : String)
    (hpm : ∀ q p, lookupAL pm q = some p → ∀ e ∈ p.monthly_demand, 0 ≤ e.2) :
    ∀ (l : List String) {rc1 rc2 : RCap}, rcEquiv rc1 rc2 →
      rcEquiv (l.foldl (rcStep pm m) rc1) (l.foldl (rcStep pm m) rc2) := by
  intro l
  induction l with
  | nil => intro rc1 rc2 h; exact h
  | cons pid rest ih =>
    intro rc1 rc2 h
    rw [List.foldl_cons, List.foldl_cons]
    exact ih (rcStep_congr pm m hpm h pid)

theorem readRC_fold_le (pm : AL Project) (m : String)
    (hpm : ∀ q p, lookupAL pm q = some p → ∀ e ∈ p.monthly_demand, 0 ≤ e.2) :
    ∀ (l : List String) (rc : RCap) (k : String),
      readRC (l.foldl (rcStep pm m) rc) k m ≤ readRC rc k m := by
  intro l
  induction l with
  | nil => intro rc k; exact le_refl _
  | cons pid rest ih =>
    intro rc k
    rw [List.foldl_cons]
    exact le_trans (ih (rcStep pm m rc pid) k) (readRC_rcStep_le pm m hpm rc pid k)

theorem rcStep_bubble (pm : AL Project) (m : String)
    (hpm : ∀ q p, lookupAL pm q = some p → ∀ e ∈ p.monthly_demand, 0 ≤ e.2)
    (A : String) :
    ∀ (l : List String) (rc : RCap),
      rcEquiv (l.foldl (rcStep pm m) (rcStep pm m rc A))
        (rcStep pm m (l.foldl (rcStep pm m) rc) A) := by
  intro l
  induction l with
  | nil => intro rc; exact rcEquiv_refl _
  | cons q rest ih =>
    intro rc
    rw [List.foldl_cons, List.foldl_cons]
    exact rcEquiv_trans (rcEquiv_fold pm m hpm rest (rcStep_comm pm m hpm rc A q))
      (ih (rcStep pm m rc q))


theorem monthDef_antitone (d a1 a2 : Int) (hd : 0 ≤ d) (h : a1 ≤ a2) :
    monthDef d a2 ≤ monthDef d a1 := by
  rw [monthDef, monthDef]
  split_ifs <;> omega

theorem tdA_processOne_self (pm : AL Project) (m : String) (st : AllocState) (A : String) :
    tdAOf (processOne pm m st A).pstat A
      = tdAOf st.pstat A
        + (if (lookupAL st.pstat A).isSome = true then dfOf pm m st.rc A else 0) := by
  rw [processOne, dfOf]
  cases hp : lookupAL pm A with
  | none =>
    simp only []
    by_cases hps : (lookupAL st.pstat A).isSome = true
    · rw [if_pos hps]
      omega
    · rw [if_neg hps]
      omega
  | some project =>
    simp only []
    by_cases hps : (lookupAL st.pstat A).isSome = true
    · have hlk : ∃ ps, lookupAL st.pstat A = some ps := by
        cases hx : lookupAL st.pstat A with
        | none => rw [hx] at hps; simp at hps
        | some ps => exact ⟨ps, rfl⟩
      obtain ⟨ps, hlk⟩ := hlk
      rw [if_pos hps, monthDef]
      split_ifs with hd hav hpos
      · rw [tdAOf, tdAOf, setMS_pstat, lookup_updateAL, if_pos rfl, hlk]
        simp only [Option.map, Option.getD_some]
        omega
      · rw [tdAOf, tdAOf, consumeFull_pstat]
        simp only []
        rw [setMS_pstat, lookup_updateAL, if_pos rfl, hlk]
        simp only [Option.map, Option.getD_some]
        omega
      · rw [tdAOf, tdAOf, consumePartial_pstat, addDeficit_pstat, lookup_updateAL,
          if_pos rfl]
        simp only []
        rw [setMS_pstat, lookup_updateAL, if_pos rfl, hlk]
        simp only [Option.map, Option.getD_some]
      · rw [tdAOf, tdAOf, addDeficit_pstat, lookup_updateAL, if_pos rfl, setMS_pstat,
          lookup_updateAL, if_pos rfl, hlk]
        simp only [Option.map, Option.getD_some]
    · have habs : lookupAL st.pstat A = none := by
        cases hx : lookupAL st.pstat A with
        | none => rfl
        | some ps => rw [hx] at hps; simp at hps
      rw [if_neg hps]
      split_ifs with hd hav hpos
      · rw [tdAOf, tdAOf, setMS_pstat, lookup_updateAL, if_pos rfl, habs]
        show (0 : Int) = 0 + 0
        omega
      · rw [tdAOf, tdAOf, consumeFull_pstat]
        simp only []
        rw [setMS_pstat, lookup_updateAL, if_pos rfl, habs]
        show (0 : Int) = 0 + 0
        omega
      · rw [tdAOf, tdAOf, consumePartial_pstat, addDeficit_pstat, lookup_updateAL,
          if_pos rfl]
        simp only []
        rw [setMS_pstat, lookup_updateAL, if_pos rfl, habs]
        show (0 : Int) = 0 + 0
        omega
      · rw [tdAOf, tdAOf, addDeficit_pstat, lookup_updateAL, if_pos rfl, setMS_pstat,
          lookup_updateAL, if_pos rfl, habs]
        show (0 : Int) = 0 + 0
        omega

theorem lookupA_fold_other (pm : AL Project) (m : String) (A : String) :
    ∀ (l : List String), A ∉ l → ∀ st : AllocState,
      lookupAL ((l.foldl (processOne pm m) st)).pstat A = lookupAL st.pstat A := by
  intro l
  induction l with
  | nil => intro _ st; rfl
  | cons pid rest ih =>
    intro hA st
    rw [List.foldl_cons,
      ih (fun hx => hA (List.mem_cons_of_mem pid hx)) (processOne pm m st pid),
      processOne_pstat_other pm m st pid A
        (fun he => hA (List.mem_cons.mpr (Or.inl he.symm)))]

theorem tdA_mapped (pstat : AL ProjStatus) (A : String) :
    tdAOf (pstat.map (fun kv => (kv.1, summarize kv.2))) A = tdAOf pstat A := by
  rw [tdAOf, tdAOf, lookup_mapVal _ (fun x ps => summarize ps) A]
  cases lookupAL pstat A with
  | none => rfl
  | some ps => rfl

theorem initPstat_td (pm : AL Project) (A : String) :
    ∀ (l : List (Nat × String)) (ps0 : AL ProjStatus), tdAOf ps0 A = 0 →
      tdAOf (l.foldl (initPstatStep pm) ps0) A = 0 := by
  intro l
  induction l with
  | nil => intro ps0 h0; exact h0
  | cons pr rest ih =>
    intro ps0 h0
    rw [List.foldl_cons]
    refine ih (initPstatStep pm ps0 pr) ?_
    rw [initPstatStep]
    cases hp : lookupAL pm pr.2 with
    | none => exact h0
    | some project =>
      simp only []
      rw [tdAOf, lookup_setAL]
      by_cases hpa : pr.2 = A
      · rw [if_pos hpa]
        rfl
      · rw [if_neg hpa]
        rw [tdAOf] at h0
        exact h0

theorem initPstat_presence (pm : AL Project) (A : String) :
    ∀ (l : List (Nat × String)) (ps0 : AL ProjStatus),
      (lookupAL (l.foldl (initPstatStep pm) ps0) A).isSome
        = ((lookupAL ps0 A).isSome
            || (l.any (fun pr => pr.2 == A) && (lookupAL pm A).isSome)) := by
  intro l
  induction l with
  | nil => intro ps0; simp
  | cons pr rest ih =>
    intro ps0
    rw [List.foldl_cons, ih, List.any_cons, initPstatStep]
    cases hp : lookupAL pm pr.2 with
    | none =>
      by_cases hpa : pr.2 = A
      · rw [hpa] at hp
        rw [hp]
        simp
      · have hb : (pr.2 == A) = false := beq_eq_false_iff_ne.mpr hpa
        rw [hb]
        simp
    | some project =>
      simp only []
      by_cases hpa : pr.2 = A
      · rw [lookup_setAL, if_pos hpa]
        rw [hpa] at hp
        rw [hp]
        have hb : (pr.2 == A) = true := by rw [hpa]; exact beq_self_eq_true A
        rw [hb]
        simp
      · rw [lookup_setAL, if_neg hpa]
        have hb : (pr.2 == A) = false := beq_eq_false_iff_ne.mpr hpa
        rw [hb, Bool.false_or]

theorem enum_any_of_mem (order : List String) (A : String) (h : A ∈ order) :
    order.enum.any (fun pr => pr.2 == A) = true := by
  have h2 : A ∈ order.enum.map Prod.snd := by
    rw [List.enum_map_snd]
    exact h
  obtain ⟨pr, hpr, hpr2⟩ := List.mem_map.mp h2
  rw [List.any_eq_true]
  refine ⟨pr, hpr, ?_⟩
  rw [hpr2]
  exact beq_self_eq_true A

theorem procFold_pstat_isSome (pm : AL Project) (m : String) (q : String) :
    ∀ (l : List String) (st : AllocState),
      (lookupAL (l.foldl (processOne pm m) st).pstat q).isSome
        = (lookupAL st.pstat q).isSome := by
  intro l
  induction l with
  | nil => intro st; rfl
  | cons pid rest ih =>
    intro st
    rw [List.foldl_cons, ih, processOne_pstat_isSome]

theorem monthsFold_pstat_isSome (pm : AL Project) (order : List String) (q : String) :
    ∀ (ms : List String) (st : AllocState),
      (lookupAL (ms.foldl (allocMonth pm order) st).pstat q).isSome
        = (lookupAL st.pstat q).isSome := by
  intro ms
  induction ms with
  | nil => intro st; rfl
  | cons mo rest ih =>
    intro st
    rw [List.foldl_cons, ih, allocMonth, procFold_pstat_isSome]


theorem C4_step (pm : AL Project)
    (hpm : ∀ q p, lookupAL pm q = some p → ∀ e ∈ p.monthly_demand, 0 ≤ e.2)
    (A : String) (l1 l2 l3 : List String)
    (hA1 : A ∉ l1) (hA2 : A ∉ l2) (hA3 : A ∉ l3)
    (m : String) (S1 S2 : AllocState)
    (he : rcEquiv S1.rc S2.rc)
    (hs : (lookupAL S1.pstat A).isSome = (lookupAL S2.pstat A).isSome)
    (ht : tdAOf S2.pstat A ≤ tdAOf S1.pstat A) :
    rcEquiv (allocMonth pm (l1 ++ l2 ++ A :: l3) S1 m).rc
        (allocMonth pm (l1 ++ A :: l2 ++ l3) S2 m).rc
      ∧ tdAOf (allocMonth pm (l1 ++ A :: l2 ++ l3) S2 m).pstat A
          ≤ tdAOf (allocMonth pm (l1 ++ l2 ++ A :: l3) S1 m).pstat A := by
  have e1 : allocMonth pm (l1 ++ l2 ++ A :: l3) S1 m
      = l3.foldl (processOne pm m)
          (processOne pm m
            (l2.foldl (processOne pm m) (l1.foldl (processOne pm m) S1)) A) := by
    rw [allocMonth, List.foldl_append, List.foldl_append, List.foldl_cons]
  have e2 : allocMonth pm (l1 ++ A :: l2 ++ l3) S2 m
      = l3.foldl (processOne pm m)
          (l2.foldl (processOne pm m)
            (processOne pm m (l1.foldl (processOne pm m) S2) A)) := by
    rw [allocMonth, List.foldl_append, List.foldl_append, List.foldl_cons]
  have hW : rcEquiv (l1.foldl (rcStep pm m) S1.rc) (l1.foldl (rcStep pm m) S2.rc) :=
    rcEquiv_fold pm m hpm l1 he
  constructor
  · have hrc1 : (allocMonth pm (l1 ++ l2 ++ A :: l3) S1 m).rc
        = l3.foldl (rcStep pm m)
            (rcStep pm m
              (l2.foldl (rcStep pm m) (l1.foldl (rcStep pm m) S1.rc)) A) := by
      rw [e1, procFold_rc, processOne_rc, procFold_rc, procFold_rc]
    have hrc2 : (allocMonth pm (l1 ++ A :: l2 ++ l3) S2 m).rc
        = l3.foldl (rcStep pm m)
            (l2.foldl (rcStep pm m)
              (rcStep pm m (l1.foldl (rcStep pm m) S2.rc) A)) := by
      rw [e2, procFold_rc, procFold_rc, processOne_rc, procFold_rc]
    rw [hrc1, hrc2]
    exact rcEquiv_trans
      (rcEquiv_fold pm m hpm l3
        (rcStep_congr pm m hpm (rcEquiv_fold pm m hpm l2 hW) A))
      (rcEquiv_symm
        (rcEquiv_fold pm m hpm l3
          (rcStep_bubble pm m hpm A l2 (l1.foldl (rcStep pm m) S2.rc))))
  · have tdf1 : ∀ X : AllocState,
        tdAOf ((l1.foldl (processOne pm m) X)).pstat A = tdAOf X.pstat A := by
      intro X
      rw [tdAOf, lookupA_fold_other pm m A l1 hA1 X, tdAOf]
    have tdf2 : ∀ X : AllocState,
        tdAOf ((l2.foldl (processOne pm m) X)).pstat A = tdAOf X.pstat A := by
      intro X
      rw [tdAOf, lookupA_fold_other pm m A l2 hA2 X, tdAOf]
    have tdf3 : ∀ X : AllocState,
        tdAOf ((l3.foldl (processOne pm m) X)).pstat A = tdAOf X.pstat A := by
      intro X
      rw [tdAOf, lookupA_fold_other pm m A l3 hA3 X, tdAOf]
    rw [e1, e2, tdf3, tdf3, tdf2, tdA_processOne_self, tdA_processOne_self, tdf2,
      tdf1, tdf1, procFold_pstat_isSome, procFold_pstat_isSome, procFold_pstat_isSome,
      procFold_rc, procFold_rc, procFold_rc, hs]
    have hdf : dfOf pm m (l1.foldl (rcStep pm m) S2.rc) A
        ≤ dfOf pm m (l2.foldl (rcStep pm m) (l1.foldl (rcStep pm m) S1.rc)) A := by
      rw [dfOf, dfOf]
      cases hpA : lookupAL pm A with
      | none =>
        simp only []
        exact le_refl 0
      | some project =>
        simp only []
        refine monthDef_antitone _ _ _ (lookup_getD_nonneg _ _ (hpm A project hpA)) ?_
        calc readRC (l2.foldl (rcStep pm m) (l1.foldl (rcStep pm m) S1.rc))
              (getBucketKey project.team project.role project.location) m
            ≤ readRC (l1.foldl (rcStep pm m) S1.rc)
                (getBucketKey project.team project.role project.location) m :=
              readRC_fold_le pm m hpm l2 _ _
          _ = readRC (l1.foldl (rcStep pm m) S2.rc)
                (getBucketKey project.team project.role project.location) m :=
              readRC_congr (hW _ m)
    by_cases hpres : (lookupAL S2.pstat A).isSome = true
    · rw [if_pos hpres, if_pos hpres]
      omega
    · rw [if_neg hpres, if_neg hpres]
      omega

theorem C4_months (pm : AL Project)
    (hpm : ∀ q p, lookupAL pm q = some p → ∀ e ∈ p.monthly_demand, 0 ≤ e.2)
    (A : String) (l1 l2 l3 : List String)
    (hA1 : A ∉ l1) (hA2 : A ∉ l2) (hA3 : A ∉ l3) :
    ∀ (ms : List String) (S1 S2 : AllocState),
      rcEquiv S1.rc S2.rc →
      (lookupAL S1.pstat A).isSome = (lookupAL S2.pstat A).isSome →
      tdAOf S2.pstat A ≤ tdAOf S1.pstat A →
      tdAOf ((ms.foldl (allocMonth pm (l1 ++ A :: l2 ++ l3)) S2)).pstat A
        ≤ tdAOf ((ms.foldl (allocMonth pm (l1 ++ l2 ++ A :: l3)) S1)).pstat A := by
  intro ms
  induction ms with
  | nil => intro S1 S2 _ _ h3; exact h3
  | cons mo rest ih =>
    intro S1 S2 h1 h2 h3
    rw [List.foldl_cons, List.foldl_cons]
    obtain ⟨c1, c2⟩ := C4_step pm hpm A l1 l2 l3 hA1 hA2 hA3 mo S1 S2 h1 h2 h3
    have hpres : (lookupAL (allocMonth pm (l1 ++ l2 ++ A :: l3) S1 mo).pstat A).isSome
        = (lookupAL (allocMonth pm (l1 ++ A :: l2 ++ l3) S2 mo).pstat A).isSome := by
      rw [allocMonth, allocMonth, procFold_pstat_isSome, procFold_pstat_isSome, h2]
    exact ih _ _ c1 hpres c2

/-- C4: priority monotonicity. With nonnegative demands, moving a project
`A` strictly earlier in the priority order while every other project keeps
its relative position (from `l1 ++ l2 ++ A :: l3` to `l1 ++ A :: l2 ++ l3`)
never increases the `totalDeficit` the result records for `A`: the
projects in `l2` can only consume capacity before `A` is served, and `A`'s
per-month deficit is antitone in the capacity available when it is
processed. -/
theorem C4_priority_monotonicity (base : List Bucket) (projects : List Project)
    (vrs : List VirtualResource) (ts : AL Int) (months : List String) (now : Nat)
    (A : String) (l1 l2 l3 : List String)
    (hdm : ∀ p ∈ projects, ∀ e ∈ p.monthly_demand, 0 ≤ e.2)
    (hA1 : A ∉ l1) (hA2 : A ∉ l2) (hA3 : A ∉ l3) :
    tdAOf (calculateScenario base projects (l1 ++ A :: l2 ++ l3) vrs ts months
        now).projectStatus A
      ≤ tdAOf (calculateScenario base projects (l1 ++ l2 ++ A :: l3) vrs ts months
          now).projectStatus A := by
  have hpm := pm_nonneg projects ts months hdm
  rw [scenario_projectStatus, scenario_projectStatus, tdA_mapped, tdA_mapped]
  have hmem1 : A ∈ l1 ++ l2 ++ A :: l3 := by simp
  have hmem2 : A ∈ l1 ++ A :: l2 ++ l3 := by simp
  have hpres1 : (lookupAL (initState (calculateEffectiveCapacity base vrs months now)
      (buildProjectMap (applyTimelineShifts projects ts months))
      (l1 ++ l2 ++ A :: l3) months).pstat A).isSome
      = (lookupAL (buildProjectMap (applyTimelineShifts projects ts months)) A).isSome := by
    rw [initState_pstat, initPstat, initPstat_presence,
      enum_any_of_mem (l1 ++ l2 ++ A :: l3) A hmem1]
    simp [lookupAL]
  have hpres2 : (lookupAL (initState (calculateEffectiveCapacity base vrs months now)
      (buildProjectMap (applyTimelineShifts projects ts months))
      (l1 ++ A :: l2 ++ l3) months).pstat A).isSome
      = (lookupAL (buildProjectMap (applyTimelineShifts projects ts months)) A).isSome := by
    rw [initState_pstat, initPstat, initPstat_presence,
      enum_any_of_mem (l1 ++ A :: l2 ++ l3) A hmem2]
    simp [lookupAL]
  have htd1 : tdAOf (initState (calculateEffectiveCapacity base vrs months now)
      (buildProjectMap (applyTimelineShifts projects ts months))
      (l1 ++ l2 ++ A :: l3) months).pstat A = 0 := by
    rw [initState_pstat, initPstat]
    exact initPstat_td _ A _ [] rfl
  have htd2 : tdAOf (initState (calculateEffectiveCapacity base vrs months now)
      (buildProjectMap (applyTimelineShifts projects ts months))
      (l1 ++ A :: l2 ++ l3) months).pstat A = 0 := by
    rw [initState_pstat, initPstat]
    exact initPstat_td _ A _ [] rfl
  refine C4_months (buildProjectMap (applyTimelineShifts projects ts months)) hpm
    A l1 l2 l3 hA1 hA2 hA3 months _ _ (rcEquiv_refl _) (hpres1.trans hpres2.symm) ?_
  rw [htd1, htd2]

/-- Witness for `C4_priority_monotonicity` at the sample run: moving p2
ahead of p1 (both competing for the same 100h Jan bucket with 60h demands)
drops p2's total deficit from 20 to 0, in particular never raises it. -/
theorem C4_witness :
    tdAOf (calculateScenario [sampleBucket] [sampleP1, sampleP2]
        ([] ++ "p2" :: ["p1"] ++ []) [] [] ["Jan", "Feb"] 0).projectStatus "p2"
      ≤ tdAOf (calculateScenario [sampleBucket] [sampleP1, sampleP2]
          ([] ++ ["p1"] ++ "p2" :: []) [] [] ["Jan", "Feb"] 0).projectStatus "p2" :=
  C4_priority_monotonicity [sampleBucket] [sampleP1, sampleP2] [] [] ["Jan", "Feb"] 0
    "p2" [] ["p1"] [] (by decide) (by decide) (by decide) (by decide)


/-! ## Determinism up to synthesized ids (claim C2) -/

theorem map_setAL {α β : Type} (g : α → β) :
    ∀ (l : AL α) (k : String) (v : α),
      (setAL l k v).map (fun kv => (kv.1, g kv.2))
        = setAL (l.map (fun kv => (kv.1, g kv.2))) k (g v) := by
  intro l
  induction l with
  | nil => intro k v; rfl
  | cons hd tl ih =>
    intro k v
    obtain ⟨k2, v2⟩ := hd
    rw [setAL]
    by_cases hk : k2 = k
    · rw [if_pos hk, List.map_cons, List.map_cons, setAL]
      simp only []
      rw [if_pos hk]
    · rw [if_neg hk, List.map_cons, List.map_cons, setAL]
      simp only []
      rw [if_neg hk, ih]

theorem map_updateAL {α β : Type} (g : α → β) (f : α → α) (f2 : β → β)
    (hc : ∀ a, g (f a) = f2 (g a)) :
    ∀ (l : AL α) (k : String),
      (updateAL l k f).map (fun kv => (kv.1, g kv.2))
        = updateAL (l.map (fun kv => (kv.1, g kv.2))) k f2 := by
  intro l
  induction l with
  | nil => intro k; rfl
  | cons hd tl ih =>
    intro k
    obtain ⟨k2, v2⟩ := hd
    rw [updateAL]
    by_cases hk : k2 = k
    · rw [if_pos hk, List.map_cons, List.map_cons, updateAL]
      simp only []
      rw [if_pos hk, hc]
    · rw [if_neg hk, List.map_cons, List.map_cons, updateAL]
      simp only []
      rw [if_neg hk, ih]

theorem lookup_stripEC (ec : AL Bucket) (k : String) :
    lookupAL (stripEC ec) k = (lookupAL ec k).map eraseId := by
  rw [stripEC]
  exact lookup_mapVal ec (fun x b => eraseId b) k

theorem strip_addVirtualMonth (key : String) (h : Int) (ec : AL Bucket) (mo : String) :
    stripEC (addVirtualMonth key h ec mo) = addVirtualMonth key h (stripEC ec) mo := by
  rw [stripEC, stripEC, addVirtualMonth, addVirtualMonth]
  exact map_updateAL eraseId
    (fun b =>
      { b with monthly_capacity :=
          setAL b.monthly_capacity mo ((lookupAL b.monthly_capacity mo).getD 0 + h) })
    (fun b =>
      { b with monthly_capacity :=
          setAL b.monthly_capacity mo ((lookupAL b.monthly_capacity mo).getD 0 + h) })
    (fun b => rfl) ec key

theorem strip_avm_fold (key : String) (h : Int) :
    ∀ (ms : List String) (ec : AL Bucket),
      stripEC (ms.foldl (addVirtualMonth key h) ec)
        = ms.foldl (addVirtualMonth key h) (stripEC ec) := by
  intro ms
  induction ms with
  | nil => intro ec; rfl
  | cons mo rest ih =>
    intro ec
    rw [List.foldl_cons, List.foldl_cons, ih, strip_addVirtualMonth]

theorem strip_addVirtual (months : List String) (now1 now2 : Nat)
    {ec1 ec2 : AL Bucket} (h : stripEC ec1 = stripEC ec2) (r : VirtualResource) :
    stripEC (addVirtual months now1 ec1 r) = stripEC (addVirtual months now2 ec2 r) := by
  rw [addVirtual, addVirtual]
  have hlk : (lookupAL ec1 (getBucketKey r.team r.role r.location)).map eraseId
      = (lookupAL ec2 (getBucketKey r.team r.role r.location)).map eraseId := by
    rw [← lookup_stripEC, ← lookup_stripEC, h]
  cases h1 : lookupAL ec1 (getBucketKey r.team r.role r.location) with
  | none =>
    cases h2 : lookupAL ec2 (getBucketKey r.team r.role r.location) with
    | none =>
      simp only []
      rw [stripEC, stripEC, map_setAL eraseId, map_setAL eraseId, ← stripEC, ← stripEC, h]
      rfl
    | some b2 =>
      rw [h1, h2] at hlk
      cases hlk
  | some b1 =>
    cases h2 : lookupAL ec2 (getBucketKey r.team r.role r.location) with
    | none =>
      rw [h1, h2] at hlk
      cases hlk
    | some b2 =>
      simp only []
      rw [strip_avm_fold, strip_avm_fold, h]

theorem strip_effcap (months : List String) (now1 now2 : Nat) :
    ∀ (vrs : List VirtualResource) {ec1 ec2 : AL Bucket},
      stripEC ec1 = stripEC ec2 →
      stripEC (vrs.foldl (addVirtual months now1) ec1)
        = stripEC (vrs.foldl (addVirtual months now2) ec2) := by
  intro vrs
  induction vrs with
  | nil => intro ec1 ec2 h; exact h
  | cons r rest ih =>
    intro ec1 ec2 h
    rw [List.foldl_cons, List.foldl_cons]
    exact ih (strip_addVirtual months now1 now2 h r)

theorem effcap_now (base : List Bucket) (vrs : List VirtualResource)
    (months : List String) (now1 now2 : Nat) :
    stripEC (calculateEffectiveCapacity base vrs months now1)
      = stripEC (calculateEffectiveCapacity base vrs months now2) := by
  rw [calculateEffectiveCapacity, calculateEffectiveCapacity]
  exact strip_effcap months now1 now2 vrs rfl

theorem capAt_congr {ec1 ec2 : AL Bucket} (h : stripEC ec1 = stripEC ec2)
    (k m : String) : capAt ec1 k m = capAt ec2 k m := by
  have hlk : (lookupAL ec1 k).map eraseId = (lookupAL ec2 k).map eraseId := by
    rw [← lookup_stripEC, ← lookup_stripEC, h]
  rw [capAt, capAt]
  cases h1 : lookupAL ec1 k with
  | none =>
    cases h2 : lookupAL ec2 k with
    | none => rfl
    | some b2 => rw [h1, h2] at hlk; cases hlk
  | some b1 =>
    cases h2 : lookupAL ec2 k with
    | none => rw [h1, h2] at hlk; cases hlk
    | some b2 =>
      rw [h1, h2] at hlk
      have hb : eraseId b1 = eraseId b2 := Option.some.inj hlk
      have hcap := congrArg Bucket.monthly_capacity hb
      show (lookupAL b1.monthly_capacity m).getD 0 = (lookupAL b2.monthly_capacity m).getD 0
      rw [show b1.monthly_capacity = b2.monthly_capacity from hcap]

theorem initRC_strip (ec : AL Bucket) : initRC (stripEC ec) = initRC ec := by
  rw [initRC, initRC, stripEC, List.map_map]
  exact congrArg (fun f => List.map f ec) (funext fun kv => rfl)

theorem stripBU_initUtil (ec : AL Bucket) (months : List String) :
    stripBU (ec.map (fun kv => (kv.1, initUtil months kv.2)))
      = (stripEC ec).map (fun kv => (kv.1, initUtil months kv.2)) := by
  rw [stripBU, stripEC, List.map_map, List.map_map]
  exact congrArg (fun f => List.map f ec) (funext fun kv => rfl)


theorem stripBU_consumeFull (st : AllocState) (k mo : String) (d : Int) :
    stripBU (consumeFull st k mo d).butil
      = updateAL (stripBU st.butil) k (fun u =>
          { u with
              monthly_consumed := updateAL u.monthly_consumed mo (· + d)
              monthly_remaining := updateAL u.monthly_remaining mo (· - d) }) := by
  rw [consumeFull_butil, stripBU, stripBU]
  exact map_updateAL eraseIdU
    (fun u =>
      { u with
          monthly_consumed := updateAL u.monthly_consumed mo (· + d)
          monthly_remaining := updateAL u.monthly_remaining mo (· - d) })
    (fun u =>
      { u with
          monthly_consumed := updateAL u.monthly_consumed mo (· + d)
          monthly_remaining := updateAL u.monthly_remaining mo (· - d) })
    (fun u => rfl) st.butil k

theorem stripBU_consumePartial (st : AllocState) (k mo : String) (av : Int) :
    stripBU (consumePartial st k mo av).butil
      = updateAL (stripBU st.butil) k (fun u =>
          { u with
              monthly_consumed := updateAL u.monthly_consumed mo (· + av)
              monthly_remaining := setAL u.monthly_remaining mo 0 }) := by
  rw [consumePartial_butil, stripBU, stripBU]
  exact map_updateAL eraseIdU
    (fun u =>
      { u with
          monthly_consumed := updateAL u.monthly_consumed mo (· + av)
          monthly_remaining := setAL u.monthly_remaining mo 0 })
    (fun u =>
      { u with
          monthly_consumed := updateAL u.monthly_consumed mo (· + av)
          monthly_remaining := setAL u.monthly_remaining mo 0 })
    (fun u => rfl) st.butil k

theorem resEq_processOne (pm : AL Project) (m : String) {st1 st2 : AllocState}
    (h : resEq st1 st2) (pid : String) :
    resEq (processOne pm m st1 pid) (processOne pm m st2 pid) := by
  obtain ⟨h1, h2, h3, h4⟩ := h
  rw [processOne, processOne]
  cases hp : lookupAL pm pid with
  | none => exact ⟨h1, h2, h3, h4⟩
  | some project =>
    simp only []
    rw [h1]
    by_cases hd : (lookupAL project.monthly_demand m).getD 0 = 0
    · rw [if_pos hd, if_pos hd]
      refine ⟨h1, ?_, h3, h4⟩
      rw [setMS_pstat, setMS_pstat, h2]
    · rw [if_neg hd, if_neg hd]
      by_cases hge : readRC st2.rc (getBucketKey project.team project.role project.location) m
          ≥ (lookupAL project.monthly_demand m).getD 0
      · rw [if_pos hge, if_pos hge]
        refine ⟨?_, ?_, ?_, h4⟩
        · show subRC st1.rc (getBucketKey project.team project.role project.location) m
              ((lookupAL project.monthly_demand m).getD 0)
            = subRC st2.rc (getBucketKey project.team project.role project.location) m
              ((lookupAL project.monthly_demand m).getD 0)
          rw [h1]
        · rw [consumeFull_pstat, consumeFull_pstat]
          simp only []
          rw [setMS_pstat, setMS_pstat, h2]
        · rw [stripBU_consumeFull, stripBU_consumeFull]
          simp only []
          rw [setMS_butil, setMS_butil, h3]
      · rw [if_neg hge, if_neg hge]
        by_cases hgt : readRC st2.rc (getBucketKey project.team project.role project.location) m
            > 0
        · rw [if_pos hgt, if_pos hgt]
          refine ⟨?_, ?_, ?_, ?_⟩
          · show zeroRC st1.rc (getBucketKey project.team project.role project.location) m
              = zeroRC st2.rc (getBucketKey project.team project.role project.location) m
            rw [h1]
          · rw [consumePartial_pstat, consumePartial_pstat, addDeficit_pstat, addDeficit_pstat]
            simp only []
            rw [setMS_pstat, setMS_pstat, h2]
          · rw [stripBU_consumePartial, stripBU_consumePartial, addDeficit_butil,
              addDeficit_butil]
            simp only []
            rw [setMS_butil, setMS_butil, h3]
          · show st1.totalDeficit + ((lookupAL project.monthly_demand m).getD 0
                - readRC st2.rc (getBucketKey project.team project.role project.location) m)
              = st2.totalDeficit + ((lookupAL project.monthly_demand m).getD 0
                - readRC st2.rc (getBucketKey project.team project.role project.location) m)
            rw [h4]
        · rw [if_neg hgt, if_neg hgt]
          refine ⟨h1, ?_, h3, ?_⟩
          · rw [addDeficit_pstat, addDeficit_pstat, setMS_pstat, setMS_pstat, h2]
          · show st1.totalDeficit + (lookupAL project.monthly_demand m).getD 0
              = st2.totalDeficit + (lookupAL project.monthly_demand m).getD 0
            rw [h4]

theorem resEq_procFold (pm : AL Project) (m : String) :
    ∀ (l : List String) {st1 st2 : AllocState}, resEq st1 st2 →
      resEq (l.foldl (processOne pm m) st1) (l.foldl (processOne pm m) st2) := by
  intro l
  induction l with
  | nil => intro st1 st2 h; exact h
  | cons pid rest ih =>
    intro st1 st2 h
    rw [List.foldl_cons, List.foldl_cons]
    exact ih (resEq_processOne pm m h pid)

theorem resEq_monthsFold (pm : AL Project) (order : List String) :
    ∀ (ms : List String) {st1 st2 : AllocState}, resEq st1 st2 →
      resEq (ms.foldl (allocMonth pm order) st1) (ms.foldl (allocMonth pm order) st2) := by
  intro ms
  induction ms with
  | nil => intro st1 st2 h; exact h
  | cons mo rest ih =>
    intro st1 st2 h
    rw [List.foldl_cons, List.foldl_cons]
    refine ih ?_
    rw [allocMonth, allocMonth]
    exact resEq_procFold pm mo order h

theorem eraseIdU_finishStep (ec : AL Bucket) (key : String) (u : BucketUtil)
    (mo : String) :
    eraseIdU (finishUtilStep ec key u mo) = finishUtilStep ec key (eraseIdU u) mo := rfl

theorem eraseIdU_finishUtil (ec : AL Bucket) (key : String) :
    ∀ (ms : List String) (u : BucketUtil),
      eraseIdU (ms.foldl (finishUtilStep ec key) u)
        = ms.foldl (finishUtilStep ec key) (eraseIdU u) := by
  intro ms
  induction ms with
  | nil => intro u; rfl
  | cons mo rest ih =>
    intro u
    rw [List.foldl_cons, List.foldl_cons, ih, eraseIdU_finishStep]

theorem finishStep_capcongr {ec1 ec2 : AL Bucket}
    (hcap : ∀ k mo, capAt ec1 k mo = capAt ec2 k mo) (key : String) (u : BucketUtil)
    (mo : String) : finishUtilStep ec1 key u mo = finishUtilStep ec2 key u mo := by
  rw [finishUtilStep, finishUtilStep, hcap key mo]

theorem finishUtil_capcongr {ec1 ec2 : AL Bucket}
    (hcap : ∀ k mo, capAt ec1 k mo = capAt ec2 k mo) (key : String) :
    ∀ (ms : List String) (u : BucketUtil),
      finishUtil ec1 ms key u = finishUtil ec2 ms key u := by
  intro ms
  induction ms with
  | nil => intro u; rfl
  | cons mo rest ih =>
    intro u
    rw [finishUtil, finishUtil, List.foldl_cons, List.foldl_cons,
      finishStep_capcongr hcap key u mo]
    have hrest := ih (finishUtilStep ec2 key u mo)
    rw [finishUtil, finishUtil] at hrest
    exact hrest

theorem strip_mapFinish (ec : AL Bucket) (ms : List String) (b : AL BucketUtil) :
    stripBU (b.map (fun kv => (kv.1, finishUtil ec ms kv.1 kv.2)))
      = (stripBU b).map (fun kv => (kv.1, finishUtil ec ms kv.1 kv.2)) := by
  rw [stripBU, stripBU, List.map_map, List.map_map]
  refine congrArg (fun f => List.map f b) (funext fun kv => ?_)
  show (kv.1, eraseIdU (finishUtil ec ms kv.1 kv.2))
      = (kv.1, finishUtil ec ms kv.1 (eraseIdU kv.2))
  rw [finishUtil, eraseIdU_finishUtil]
  rfl


theorem idOK_refl (n1 n2 : Nat) (b : Bucket) : idOK n1 n2 b b := Or.inl rfl

theorem ecMatch_refl (n1 n2 : Nat) : ∀ l : AL Bucket, ecMatch n1 n2 l l := by
  intro l
  induction l with
  | nil => exact List.Forall₂.nil
  | cons hd tl ih => exact List.Forall₂.cons ⟨rfl, idOK_refl n1 n2 hd.2⟩ ih

theorem ecMatch_lookup {n1 n2 : Nat} {ec1 ec2 : AL Bucket}
    (h : ecMatch n1 n2 ec1 ec2) (k : String) :
    (lookupAL ec1 k = none ∧ lookupAL ec2 k = none)
    ∨ ∃ b1 b2, lookupAL ec1 k = some b1 ∧ lookupAL ec2 k = some b2
        ∧ idOK n1 n2 b1 b2 := by
  induction h with
  | nil => exact Or.inl ⟨rfl, rfl⟩
  | @cons a b l1 l2 hpair htail ih =>
    obtain ⟨k1, v1⟩ := a
    obtain ⟨k2, v2⟩ := b
    obtain ⟨hk, hv⟩ := hpair
    have hk12 : k1 = k2 := hk
    rw [lookupAL, lookupAL]
    by_cases hkk : k1 = k
    · have hk2 : k2 = k := by rw [← hk12]; exact hkk
      rw [if_pos hkk, if_pos hk2]
      exact Or.inr ⟨v1, v2, rfl, rfl, hv⟩
    · have hk2 : ¬ k2 = k := fun hx => hkk (hk12.trans hx)
      rw [if_neg hkk, if_neg hk2]
      exact ih

theorem ecMatch_setAL {n1 n2 : Nat} {ec1 ec2 : AL Bucket}
    (h : ecMatch n1 n2 ec1 ec2) (k : String) {b1 b2 : Bucket}
    (hb : idOK n1 n2 b1 b2) :
    ecMatch n1 n2 (setAL ec1 k b1) (setAL ec2 k b2) := by
  induction h with
  | nil => exact List.Forall₂.cons ⟨rfl, hb⟩ List.Forall₂.nil
  | @cons a b l1 l2 hpair htail ih =>
    obtain ⟨k1, v1⟩ := a
    obtain ⟨k2, v2⟩ := b
    obtain ⟨hk, hv⟩ := hpair
    have hk12 : k1 = k2 := hk
    rw [setAL, setAL]
    by_cases hkk : k1 = k
    · have hk2 : k2 = k := by rw [← hk12]; exact hkk
      rw [if_pos hkk, if_pos hk2]
      exact List.Forall₂.cons ⟨rfl, hb⟩ htail
    · have hk2 : ¬ k2 = k := fun hx => hkk (hk12.trans hx)
      rw [if_neg hkk, if_neg hk2]
      exact List.Forall₂.cons ⟨hk, hv⟩ ih

theorem ecMatch_updateAL {n1 n2 : Nat} (f : Bucket → Bucket)
    (hf : ∀ b1 b2, idOK n1 n2 b1 b2 → idOK n1 n2 (f b1) (f b2)) :
    ∀ {ec1 ec2 : AL Bucket}, ecMatch n1 n2 ec1 ec2 → ∀ k : String,
      ecMatch n1 n2 (updateAL ec1 k f) (updateAL ec2 k f) := by
  intro ec1 ec2 h k
  induction h with
  | nil => exact List.Forall₂.nil
  | @cons a b l1 l2 hpair htail ih =>
    obtain ⟨k1, v1⟩ := a
    obtain ⟨k2, v2⟩ := b
    obtain ⟨hk, hv⟩ := hpair
    have hk12 : k1 = k2 := hk
    rw [updateAL, updateAL]
    by_cases hkk : k1 = k
    · have hk2 : k2 = k := by rw [← hk12]; exact hkk
      rw [if_pos hkk, if_pos hk2]
      exact List.Forall₂.cons ⟨hk, hf v1 v2 hv⟩ htail
    · have hk2 : ¬ k2 = k := fun hx => hkk (hk12.trans hx)
      rw [if_neg hkk, if_neg hk2]
      exact List.Forall₂.cons ⟨hk, hv⟩ ih


theorem idOK_generic (n1 n2 : Nat) (f : Bucket → Bucket)
    (hfe : ∀ b, eraseId (f b) = f (eraseId b))
    (hfid : ∀ b, (f b).id = b.id)
    (hfv : ∀ b, (f b).isVirtual = b.isVirtual) :
    ∀ b1 b2 : Bucket, idOK n1 n2 b1 b2 → idOK n1 n2 (f b1) (f b2) := by
  intro b1 b2 h
  cases h with
  | inl he => exact Or.inl (congrArg f he)
  | inr hr =>
    obtain ⟨he, h1, h2, hv1, hv2⟩ := hr
    refine Or.inr ⟨?_, ?_, ?_, ?_, ?_⟩
    · rw [hfe, hfe, he]
    · rw [hfid]
      exact h1
    · rw [hfid]
      exact h2
    · rw [hfv]
      exact hv1
    · rw [hfv]
      exact hv2

theorem ecMatch_avmFold {n1 n2 : Nat} (key : String) (hrs : Int) :
    ∀ (ms : List String) {ec1 ec2 : AL Bucket}, ecMatch n1 n2 ec1 ec2 →
      ecMatch n1 n2 (ms.foldl (addVirtualMonth key hrs) ec1)
        (ms.foldl (addVirtualMonth key hrs) ec2) := by
  intro ms
  induction ms with
  | nil => intro ec1 ec2 h; exact h
  | cons mo rest ih =>
    intro ec1 ec2 h
    rw [List.foldl_cons, List.foldl_cons]
    refine ih ?_
    rw [addVirtualMonth, addVirtualMonth]
    exact ecMatch_updateAL
      (fun b =>
        { b with monthly_capacity :=
            setAL b.monthly_capacity mo ((lookupAL b.monthly_capacity mo).getD 0 + hrs) })
      (idOK_generic n1 n2 _ (fun b => rfl) (fun b => rfl) (fun b => rfl)) h key

theorem ecMatch_addVirtual (months : List String) {n1 n2 : Nat} {ec1 ec2 : AL Bucket}
    (h : ecMatch n1 n2 ec1 ec2) (r : VirtualResource) :
    ecMatch n1 n2 (addVirtual months n1 ec1 r) (addVirtual months n2 ec2 r) := by
  rw [addVirtual, addVirtual]
  cases ecMatch_lookup h (getBucketKey r.team r.role r.location) with
  | inl hnone =>
    rw [hnone.1, hnone.2]
    simp only []
    exact ecMatch_setAL h _ (Or.inr ⟨rfl, rfl, rfl, rfl, rfl⟩)
  | inr hsome =>
    obtain ⟨b1, b2, h1, h2, hb⟩ := hsome
    rw [h1, h2]
    simp only []
    exact ecMatch_avmFold _ _ months h

theorem effcap_match (base : List Bucket) (vrs : List VirtualResource)
    (months : List String) (n1 n2 : Nat) :
    ecMatch n1 n2 (calculateEffectiveCapacity base vrs months n1)
      (calculateEffectiveCapacity base vrs months n2) := by
  rw [calculateEffectiveCapacity, calculateEffectiveCapacity]
  have main : ∀ (l : List VirtualResource) {ec1 ec2 : AL Bucket},
      ecMatch n1 n2 ec1 ec2 →
      ecMatch n1 n2 (l.foldl (addVirtual months n1) ec1)
        (l.foldl (addVirtual months n2) ec2) := by
    intro l
    induction l with
    | nil => intro ec1 ec2 h; exact h
    | cons r rest ih =>
      intro ec1 ec2 h
      rw [List.foldl_cons, List.foldl_cons]
      exact ih (ecMatch_addVirtual months h r)
  exact main vrs (ecMatch_refl n1 n2 (baseInit base))


theorem idOKU_generic (n1 n2 : Nat) (f1 f2 : BucketUtil → BucketUtil)
    (hff : ∀ u, f1 u = f2 u)
    (hfe : ∀ u, eraseIdU (f1 u) = f1 (eraseIdU u))
    (hfid : ∀ u, (f1 u).id = u.id)
    (hfv : ∀ u, (f1 u).isVirtual = u.isVirtual) :
    ∀ u1 u2 : BucketUtil, idOKU n1 n2 u1 u2 → idOKU n1 n2 (f1 u1) (f2 u2) := by
  intro u1 u2 h
  cases h with
  | inl he => exact Or.inl (by rw [he, hff])
  | inr hr =>
    obtain ⟨he, h1, h2, hv1, hv2⟩ := hr
    refine Or.inr ⟨?_, ?_, ?_, ?_, ?_⟩
    · rw [← hff u2, hfe, hfe, he]
    · rw [hfid]
      exact h1
    · rw [← hff u2, hfid]
      exact h2
    · rw [hfv]
      exact hv1
    · rw [← hff u2, hfv]
      exact hv2

theorem idOKU_initUtil (n1 n2 : Nat) (months : List String) :
    ∀ b1 b2 : Bucket, idOK n1 n2 b1 b2 →
      idOKU n1 n2 (initUtil months b1) (initUtil months b2) := by
  intro b1 b2 h
  cases h with
  | inl he => exact Or.inl (congrArg (initUtil months) he)
  | inr hr =>
    obtain ⟨he, h1, h2, hv1, hv2⟩ := hr
    refine Or.inr ⟨?_, ?_, ?_, ?_, ?_⟩
    · have c1 : eraseIdU (initUtil months b1) = initUtil months (eraseId b1) := rfl
      have c2 : eraseIdU (initUtil months b2) = initUtil months (eraseId b2) := rfl
      rw [c1, c2, he]
    · exact h1
    · exact h2
    · exact hv1
    · exact hv2

theorem buMatch_initUtil {n1 n2 : Nat} (months : List String) :
    ∀ {ec1 ec2 : AL Bucket}, ecMatch n1 n2 ec1 ec2 →
      buMatch n1 n2 (ec1.map (fun kv => (kv.1, initUtil months kv.2)))
        (ec2.map (fun kv => (kv.1, initUtil months kv.2))) := by
  intro ec1 ec2 h
  induction h with
  | nil => exact List.Forall₂.nil
  | @cons a b l1 l2 hpair htail ih =>
    obtain ⟨hk, hv⟩ := hpair
    rw [List.map_cons, List.map_cons]
    exact List.Forall₂.cons ⟨hk, idOKU_initUtil n1 n2 months a.2 b.2 hv⟩ ih

theorem buMatch_updateAL {n1 n2 : Nat} (f : BucketUtil → BucketUtil)
    (hf : ∀ u1 u2, idOKU n1 n2 u1 u2 → idOKU n1 n2 (f u1) (f u2)) :
    ∀ {b1 b2 : AL BucketUtil}, buMatch n1 n2 b1 b2 → ∀ k : String,
      buMatch n1 n2 (updateAL b1 k f) (updateAL b2 k f) := by
  intro b1 b2 h k
  induction h with
  | nil => exact List.Forall₂.nil
  | @cons a b l1 l2 hpair htail ih =>
    obtain ⟨k1, v1⟩ := a
    obtain ⟨k2, v2⟩ := b
    obtain ⟨hk, hv⟩ := hpair
    have hk12 : k1 = k2 := hk
    rw [updateAL, updateAL]
    by_cases hkk : k1 = k
    · have hk2 : k2 = k := by rw [← hk12]; exact hkk
      rw [if_pos hkk, if_pos hk2]
      exact List.Forall₂.cons ⟨hk, hf v1 v2 hv⟩ htail
    · have hk2 : ¬ k2 = k := fun hx => hkk (hk12.trans hx)
      rw [if_neg hkk, if_neg hk2]
      exact List.Forall₂.cons ⟨hk, hv⟩ ih

theorem buMatch_processOne (pm : AL Project) (m : String) {n1 n2 : Nat}
    {st1 st2 : AllocState} (h : resEq st1 st2)
    (hbu : buMatch n1 n2 st1.butil st2.butil) (pid : String) :
    buMatch n1 n2 (processOne pm m st1 pid).butil (processOne pm m st2 pid).butil := by
  obtain ⟨h1, h2, h3, h4⟩ := h
  rw [processOne, processOne]
  cases hp : lookupAL pm pid with
  | none => exact hbu
  | some project =>
    simp only []
    rw [h1]
    by_cases hd : (lookupAL project.monthly_demand m).getD 0 = 0
    · rw [if_pos hd, if_pos hd]
      exact hbu
    · rw [if_neg hd, if_neg hd]
      by_cases hge : readRC st2.rc (getBucketKey project.team project.role project.location) m
          ≥ (lookupAL project.monthly_demand m).getD 0
      · rw [if_pos hge, if_pos hge]
        rw [consumeFull_butil, consumeFull_butil]
        simp only []
        rw [setMS_butil, setMS_butil]
        refine buMatch_updateAL _ (idOKU_generic n1 n2 _ _ ?_ ?_ ?_ ?_) hbu _
        · exact fun u => rfl
        · exact fun u => rfl
        · exact fun u => rfl
        · exact fun u => rfl
      · rw [if_neg hge, if_neg hge]
        by_cases hgt : readRC st2.rc (getBucketKey project.team project.role project.location) m
            > 0
        · rw [if_pos hgt, if_pos hgt]
          rw [consumePartial_butil, consumePartial_butil, addDeficit_butil, addDeficit_butil]
          simp only []
          rw [setMS_butil, setMS_butil]
          refine buMatch_updateAL _ (idOKU_generic n1 n2 _ _ ?_ ?_ ?_ ?_) hbu _
          · exact fun u => rfl
          · exact fun u => rfl
          · exact fun u => rfl
          · exact fun u => rfl
        · rw [if_neg hgt, if_neg hgt]
          exact hbu

theorem buMatch_procFold (pm : AL Project) (m : String) {n1 n2 : Nat} :
    ∀ (l : List String) {st1 st2 : AllocState}, resEq st1 st2 →
      buMatch n1 n2 st1.butil st2.butil →
      buMatch n1 n2 (l.foldl (processOne pm m) st1).butil
        (l.foldl (processOne pm m) st2).butil := by
  intro l
  induction l with
  | nil => intro st1 st2 _ hbu; exact hbu
  | cons pid rest ih =>
    intro st1 st2 h hbu
    rw [List.foldl_cons, List.foldl_cons]
    exact ih (resEq_processOne pm m h pid) (buMatch_processOne pm m h hbu pid)

theorem buMatch_monthsFold (pm : AL Project) (order : List String) {n1 n2 : Nat} :
    ∀ (ms : List String) {st1 st2 : AllocState}, resEq st1 st2 →
      buMatch n1 n2 st1.butil st2.butil →
      buMatch n1 n2 (ms.foldl (allocMonth pm order) st1).butil
        (ms.foldl (allocMonth pm order) st2).butil := by
  intro ms
  induction ms with
  | nil => intro st1 st2 _ hbu; exact hbu
  | cons mo rest ih =>
    intro st1 st2 h hbu
    rw [List.foldl_cons, List.foldl_cons]
    have hres : resEq (allocMonth pm order st1 mo) (allocMonth pm order st2 mo) := by
      rw [allocMonth, allocMonth]
      exact resEq_procFold pm mo order h
    have hbu2 : buMatch n1 n2 (allocMonth pm order st1 mo).butil
        (allocMonth pm order st2 mo).butil := by
      rw [allocMonth, allocMonth]
      exact buMatch_procFold pm mo order h hbu
    exact ih hres hbu2


theorem finishStep_id (ec : AL Bucket) (key : String) (u : BucketUtil) (mo : String) :
    (finishUtilStep ec key u mo).id = u.id := rfl

theorem finishStep_isVirtual (ec : AL Bucket) (key : String) (u : BucketUtil)
    (mo : String) : (finishUtilStep ec key u mo).isVirtual = u.isVirtual := rfl

theorem finishUtil_id (ec : AL Bucket) (key : String) :
    ∀ (ms : List String) (u : BucketUtil),
      ((ms.foldl (finishUtilStep ec key) u)).id = u.id := by
  intro ms
  induction ms with
  | nil => intro u; rfl
  | cons mo rest ih =>
    intro u
    rw [List.foldl_cons, ih, finishStep_id]

theorem finishUtil_isVirtual (ec : AL Bucket) (key : String) :
    ∀ (ms : List String) (u : BucketUtil),
      ((ms.foldl (finishUtilStep ec key) u)).isVirtual = u.isVirtual := by
  intro ms
  induction ms with
  | nil => intro u; rfl
  | cons mo rest ih =>
    intro u
    rw [List.foldl_cons, ih, finishStep_isVirtual]

theorem idOKU_finishUtil {n1 n2 : Nat} {ec1 ec2 : AL Bucket}
    (hcap : ∀ k mo, capAt ec1 k mo = capAt ec2 k mo) (ms : List String) (key : String) :
    ∀ u1 u2 : BucketUtil, idOKU n1 n2 u1 u2 →
      idOKU n1 n2 (finishUtil ec1 ms key u1) (finishUtil ec2 ms key u2) :=
  idOKU_generic n1 n2 (finishUtil ec1 ms key) (finishUtil ec2 ms key)
    (fun u => finishUtil_capcongr hcap key ms u)
    (fun u => eraseIdU_finishUtil ec1 key ms u)
    (fun u => finishUtil_id ec1 key ms u)
    (fun u => finishUtil_isVirtual ec1 key ms u)

theorem buMatch_mapFinish {n1 n2 : Nat} {ec1 ec2 : AL Bucket}
    (hcap : ∀ k mo, capAt ec1 k mo = capAt ec2 k mo) (ms : List String) :
    ∀ {b1 b2 : AL BucketUtil}, buMatch n1 n2 b1 b2 →
      buMatch n1 n2 (b1.map (fun kv => (kv.1, finishUtil ec1 ms kv.1 kv.2)))
        (b2.map (fun kv => (kv.1, finishUtil ec2 ms kv.1 kv.2))) := by
  intro b1 b2 h
  induction h with
  | nil => exact List.Forall₂.nil
  | @cons a b l1 l2 hpair htail ih =>
    obtain ⟨hk, hv⟩ := hpair
    rw [List.map_cons, List.map_cons]
    refine List.Forall₂.cons ⟨hk, ?_⟩ ih
    have hk2 : a.1 = b.1 := hk
    rw [← hk2]
    exact idOKU_finishUtil hcap ms a.1 a.2 b.2 hv

/-- C2 (amended): calculateScenario is deterministic up to the clock.
Two invocations on identical inputs at different `Date.now()` readings
produce results with identical projectStatus, totalDeficit and months,
and entrywise identical effectiveCapacity and bucketUtilization tables,
except that an entry pair may differ exactly when it is a bucket
synthesized for a virtual resource (isVirtual, id `virtual_<now>`): such
a pair agrees on every field but `id`, which embeds the invocation time.
Baseline buckets, in particular, are identical in every field. (In the
embedding every input is passed by value, so no invocation mutates any
input structure.) -/
theorem C2_determinism_amended (base : List Bucket) (projects : List Project)
    (order : List String) (vrs : List VirtualResource) (ts : AL Int)
    (months : List String) (now1 now2 : Nat) :
    ecMatch now1 now2
        (calculateScenario base projects order vrs ts months now1).effectiveCapacity
        (calculateScenario base projects order vrs ts months now2).effectiveCapacity
    ∧ buMatch now1 now2
        (calculateScenario base projects order vrs ts months now1).bucketUtilization
        (calculateScenario base projects order vrs ts months now2).bucketUtilization
    ∧ (calculateScenario base projects order vrs ts months now1).projectStatus
        = (calculateScenario base projects order vrs ts months now2).projectStatus
    ∧ (calculateScenario base projects order vrs ts months now1).totalDeficit
        = (calculateScenario base projects order vrs ts months now2).totalDeficit
    ∧ (calculateScenario base projects order vrs ts months now1).months
        = (calculateScenario base projects order vrs ts months now2).months := by
  have hECm := effcap_match base vrs months now1 now2
  have hEC := effcap_now base vrs months now1 now2
  have hcap : ∀ k mo, capAt (calculateEffectiveCapacity base vrs months now1) k mo
      = capAt (calculateEffectiveCapacity base vrs months now2) k mo :=
    fun k mo => capAt_congr hEC k mo
  have hinit : resEq
      (initState (calculateEffectiveCapacity base vrs months now1)
        (buildProjectMap (applyTimelineShifts projects ts months)) order months)
      (initState (calculateEffectiveCapacity base vrs months now2)
        (buildProjectMap (applyTimelineShifts projects ts months)) order months) := by
    refine ⟨?_, rfl, ?_, rfl⟩
    · show initRC (calculateEffectiveCapacity base vrs months now1)
        = initRC (calculateEffectiveCapacity base vrs months now2)
      rw [← initRC_strip, hEC, initRC_strip]
    · show stripBU ((calculateEffectiveCapacity base vrs months now1).map
          (fun kv => (kv.1, initUtil months kv.2)))
        = stripBU ((calculateEffectiveCapacity base vrs months now2).map
          (fun kv => (kv.1, initUtil months kv.2)))
      rw [stripBU_initUtil, stripBU_initUtil, hEC]
  have hbuinit : buMatch now1 now2
      (initState (calculateEffectiveCapacity base vrs months now1)
        (buildProjectMap (applyTimelineShifts projects ts months)) order months).butil
      (initState (calculateEffectiveCapacity base vrs months now2)
        (buildProjectMap (applyTimelineShifts projects ts months)) order months).butil := by
    rw [initState_butil, initState_butil]
    exact buMatch_initUtil months hECm
  have hfin := resEq_monthsFold (buildProjectMap (applyTimelineShifts projects ts months))
    order months hinit
  have hbufin := buMatch_monthsFold
    (buildProjectMap (applyTimelineShifts projects ts months)) order months hinit hbuinit
  obtain ⟨f1, f2, f3, f4⟩ := hfin
  refine ⟨hECm, ?_, ?_, ?_, rfl⟩
  · rw [scenario_bucketUtilization, scenario_bucketUtilization]
    exact buMatch_mapFinish hcap months hbufin
  · rw [scenario_projectStatus, scenario_projectStatus, f2]
  · rw [scenario_totalDeficit, scenario_totalDeficit, f4]

end CapPlayground
